import Mathlib

/-!
# LedControl: a shallow embedding of `src/src/LedControl.cpp`

The driver for daisy-chained MAX7219/MAX7221 chips is embedded as pure
functions on an explicit object state.  C `int` values are `Int`, `byte`
values are `Nat` (truncated with `% 256` wherever the C++ stores into a
`byte`).  Every array access is bounds-checked, and a member function that
touches an array or the bus returns `Option`: `none` stands for an
out-of-bounds access or an invalid shift amount, which the C++ leaves
undefined.

The bus primitives (`digitalWrite` on the select pin, `shiftOut`) are recorded
as events appended to the `bus` field of the state.
-/

/-- What the driver does on the wire: `digitalWrite(SPI_CS, level)` and
`shiftOut(SPI_MOSI, SPI_CLK, MSBFIRST, value)`. -/
inductive BusEvent where
  | select (high : Bool)
  | shiftOut (value : Nat)
  deriving DecidableEq

/-- Modelled from the spec: the data members of the class, whose declaration
(`LedControl.h`) is not among the sources.  The spec (section 3) gives a chip
count, a wiring mode, a byte mirror and eight accumulator bytes; the constructor
clears `status[0..63]` and `commonAnodeData[0..7]`, and the transmit buffer holds
two bytes for each of at most eight chips.  The pin numbers are left out: no
member function reads them except to name the pin it drives.  `bus` is the trace
of bus events so far. -/
structure LedControl where
  maxDevices : Int
  status : List Nat
  spidata : List Nat
  commonAnode : Bool
  commonAnodeData : List Nat
  bus : List BusEvent
  deriving DecidableEq

namespace LedControl

/-! ## Machine-level helpers -/

/-- Conversion of an `int` to a `byte`. -/
def toByte (i : Int) : Nat := (i % 256).toNat

/-- Checked read `a[i]`. -/
def readAt (a : List Nat) (i : Int) : Option Nat :=
  if 0 ≤ i ∧ i < a.length then a[i.toNat]? else none

/-- Checked store `a[i] = v` into an array of `byte`. -/
def writeAt (a : List Nat) (i : Int) (v : Nat) : Option (List Nat) :=
  if 0 ≤ i ∧ i < a.length then some (a.set i.toNat (v % 256)) else none

/-- A bit position inside a byte: a shift by it is defined and stays inside the
byte only for `0..7`. -/
def bitIndex (i : Int) : Option Nat :=
  if 0 ≤ i ∧ i < 8 then some i.toNat else none

/-- Arduino core: `bitRead(value, bit)` is `(((value) >> (bit)) & 0x01)`. -/
def bitRead (value bit : Nat) : Nat := (value >>> bit) &&& 1

/-- Arduino core: `bitSet(value, bit)` is `((value) |= (1UL << (bit)))`, on a
`byte` lvalue. -/
def bitSet (value bit : Nat) : Nat := (value ||| (1 <<< bit)) % 256

/-- Arduino core: `bitClear(value, bit)` is `((value) &= ~(1UL << (bit)))`, on a
`byte` lvalue; `~` is taken on a 32-bit `unsigned long`. -/
def bitClear (value bit : Nat) : Nat :=
  (value &&& (0xFFFFFFFF ^^^ ((1 <<< bit) % 2 ^ 32))) % 256

/-- Arduino core: `bitWrite(value, bit, bitvalue)` is
`((bitvalue) ? bitSet(value, bit) : bitClear(value, bit))`. -/
def bitWrite (value bit bitvalue : Nat) : Nat :=
  if bitvalue ≠ 0 then bitSet value bit else bitClear value bit

/-- The loop `for (int i = lo; i < lo + n; i++) body`, on `n` iterations. -/
def forUp {σ : Type} (body : Int → σ → Option σ) : Nat → Int → σ → Option σ
  | 0, _, s => some s
  | n + 1, i, s => (body i s).bind (forUp body n (i + 1))

/-- The loop `for (int i = hi; i > hi - n; i--) body`, on `n` iterations. -/
def forDown {σ : Type} (body : Int → σ → Option σ) : Nat → Int → σ → Option σ
  | 0, _, s => some s
  | n + 1, i, s => (body i s).bind (forDown body n (i - 1))

/-! ## The opcodes -/

def OP_NOOP : Nat := 0
def OP_DIGIT0 : Nat := 1
def OP_DECODEMODE : Nat := 9
def OP_INTENSITY : Nat := 10
def OP_SCANLIMIT : Nat := 11
def OP_SHUTDOWN : Nat := 12
def OP_DISPLAYTEST : Nat := 15

/-! ## The member functions -/

/-- Embeds `LedControl::spiTransfer` (lines 269-287). -/
def spiTransfer (s : LedControl) (addr : Int) (opcode data : Nat) : Option LedControl := do
  let offset : Int := addr * 2
  let maxbytes : Int := s.maxDevices * 2
  let s ← forUp (fun i (t : LedControl) => do
      let sd ← writeAt t.spidata i 0
      pure { t with spidata := sd }) maxbytes.toNat 0 s
  let sd ← writeAt s.spidata (offset + 1) opcode
  let sd ← writeAt sd offset data
  let s := { s with spidata := sd }
  let s := { s with bus := s.bus ++ [BusEvent.select false] }
  let s ← forDown (fun i (t : LedControl) => do
      let b ← readAt t.spidata (i - 1)
      pure { t with bus := t.bus ++ [BusEvent.shiftOut b] }) maxbytes.toNat maxbytes s
  pure { s with bus := s.bus ++ [BusEvent.select true] }

/-- Embeds `LedControl::flipByte` (lines 196-210). -/
def flipByte (c : Nat) : Nat :=
  let flip := 0
  let flip := flip ||| (if bitRead c 0 ≠ 0 then 0b00000001 else 0)
  let flip := flip ||| (if bitRead c 4 ≠ 0 then 0b00000010 else 0)
  let flip := flip ||| (if bitRead c 5 ≠ 0 then 0b00000100 else 0)
  let flip := flip ||| (if bitRead c 6 ≠ 0 then 0b00001000 else 0)
  let flip := flip ||| (if bitRead c 1 ≠ 0 then 0b00010000 else 0)
  let flip := flip ||| (if bitRead c 2 ≠ 0 then 0b00100000 else 0)
  let flip := flip ||| (if bitRead c 3 ≠ 0 then 0b01000000 else 0)
  let flip := flip ||| (if bitRead c 7 ≠ 0 then 0b10000000 else 0)
  flip

/-- The body of the loop over `cS` in `LedControl::transfer` (lines 255-260). -/
def transferSegment (addr : Int) (opcode data : Nat) (cS : Int) (s : LedControl) :
    Option LedControl := do
  let readIndex : Int := if cS = 7 then 7 else 6 - cS
  let writeIndex : Int := if opcode = 8 then 7 else 7 - (opcode : Int)
  let r ← bitIndex readIndex
  let w ← bitIndex writeIndex
  let acc ← readAt s.commonAnodeData cS
  let cad ← writeAt s.commonAnodeData cS (bitWrite acc w (bitRead data r))
  let s := { s with commonAnodeData := cad }
  let cur ← readAt s.commonAnodeData cS
  spiTransfer s addr (toByte (cS + 1)) cur

/-- Embeds `LedControl::transfer` (lines 246-267). -/
def transfer (s : LedControl) (addr : Int) (opcode data : Nat) (reverse : Bool) :
    Option LedControl :=
  let data := if reverse then flipByte data else data
  if s.commonAnode then
    forUp (transferSegment addr opcode data) 8 0 s
  else
    spiTransfer s addr opcode data

/-- Embeds `LedControl::shutdown` (lines 89-97). -/
def shutdown (s : LedControl) (addr : Int) (b : Bool) : Option LedControl :=
  if addr < 0 ∨ addr ≥ s.maxDevices then some s
  else if b then spiTransfer s addr OP_SHUTDOWN 0
  else spiTransfer s addr OP_SHUTDOWN 1

/-- Embeds `LedControl::setScanLimit` (lines 99-105). -/
def setScanLimit (s : LedControl) (addr limit : Int) : Option LedControl :=
  if addr < 0 ∨ addr ≥ s.maxDevices then some s
  else if limit ≥ 0 ∧ limit < 8 then spiTransfer s addr OP_SCANLIMIT (toByte limit)
  else some s

/-- Embeds `LedControl::setIntensity` (lines 107-113). -/
def setIntensity (s : LedControl) (addr intensity : Int) : Option LedControl :=
  if addr < 0 ∨ addr ≥ s.maxDevices then some s
  else if intensity ≥ 0 ∧ intensity < 16 then
    spiTransfer s addr OP_INTENSITY (toByte intensity)
  else some s

/-- Embeds `LedControl::clearDisplay` (lines 115-127). -/
def clearDisplay (s : LedControl) (addr : Int) : Option LedControl :=
  if addr < 0 ∨ addr ≥ s.maxDevices then some s
  else
    let offset : Int := addr * 8
    forUp (fun i (t : LedControl) => do
      let st ← writeAt t.status (offset + i) 0
      let t := { t with status := st }
      let cur ← readAt t.status (offset + i)
      transfer t addr (toByte (i + 1)) cur false) 8 0 s

/-- Embeds `LedControl::setLed` (lines 129-148). -/
def setLed (s : LedControl) (addr row column : Int) (state : Bool) : Option LedControl :=
  if addr < 0 ∨ addr ≥ s.maxDevices then some s
  else if row < 0 ∨ row > 7 ∨ column < 0 ∨ column > 7 then some s
  else do
    let offset : Int := addr * 8
    let val : Nat := 0b10000000 >>> column.toNat
    let st ←
      if state then do
        let old ← readAt s.status (offset + row)
        writeAt s.status (offset + row) (old ||| val)
      else do
        -- `val = ~val` on a `byte`
        let val : Nat := val ^^^ 0xFF
        let old ← readAt s.status (offset + row)
        writeAt s.status (offset + row) (old &&& val)
    let s := { s with status := st }
    let cur ← readAt s.status (offset + row)
    transfer s addr (toByte (row + 1)) cur false

/-- Embeds `LedControl::setRow` (lines 150-160). -/
def setRow (s : LedControl) (addr row : Int) (value : Nat) : Option LedControl :=
  if addr < 0 ∨ addr ≥ s.maxDevices then some s
  else if row < 0 ∨ row > 7 then some s
  else do
    let offset : Int := addr * 8
    let st ← writeAt s.status (offset + row) value
    let s := { s with status := st }
    let cur ← readAt s.status (offset + row)
    transfer s addr (toByte (row + 1)) cur false

/-- Embeds `LedControl::setColumn` (lines 162-176). -/
def setColumn (s : LedControl) (addr col : Int) (value : Nat) : Option LedControl :=
  if addr < 0 ∨ addr ≥ s.maxDevices then some s
  else if col < 0 ∨ col > 7 then some s
  else
    forUp (fun row (t : LedControl) =>
      let val : Nat := (value >>> (7 - row).toNat) % 256
      let val : Nat := val &&& 0x01
      setLed t addr row col (val ≠ 0)) 8 0 s

/-- Embeds `LedControl::setDigit` (lines 178-194).  `charTable` is declared in
`LedControl.h`, which is not among the sources: it is a parameter. -/
def setDigit (charTable : List Nat) (s : LedControl) (addr digit : Int) (value : Nat)
    (dp reverse : Bool) : Option LedControl :=
  if addr < 0 ∨ addr ≥ s.maxDevices then some s
  else if digit < 0 ∨ digit > 7 ∨ value > 15 then some s
  else do
    let offset : Int := addr * 8
    let v ← readAt charTable value
    let v : Nat := if dp then v ||| 0b10000000 else v
    let st ← writeAt s.status (offset + digit) v
    let s := { s with status := st }
    transfer s addr (toByte (digit + 1)) v reverse

/-- Embeds `LedControl::setChar` (lines 212-234); `value` is a `char`. -/
def setChar (charTable : List Nat) (s : LedControl) (addr digit : Int) (value : Int)
    (dp reverse : Bool) : Option LedControl :=
  if addr < 0 ∨ addr ≥ s.maxDevices then some s
  else if digit < 0 ∨ digit > 7 then some s
  else do
    let offset : Int := addr * 8
    let index : Nat := toByte value
    let index : Nat := if index > 127 then 32 else index
    let v ← readAt charTable index
    let v : Nat := if dp then v ||| 0b10000000 else v
    let st ← writeAt s.status (offset + digit) v
    let s := { s with status := st }
    transfer s addr (toByte (digit + 1)) v reverse

/-- Embeds `LedControl::getDeviceCount` (lines 79-82). -/
def getDeviceCount (s : LedControl) : Int := s.maxDevices

/-- Embeds `LedControl::setCommonAnode` (lines 84-87). -/
def setCommonAnode (s : LedControl) (value : Bool) : LedControl :=
  { s with commonAnode := value }

/-- Embeds `LedControl::LedControl` (lines 45-77).  The argument `pre` is the object before
construction: its arrays have their declared sizes and undetermined contents.
`pinMode` is outside the model. -/
def construct (pre : LedControl) (numDevices : Int) : Option LedControl := do
  let numDevices : Int := if numDevices ≤ 0 ∨ numDevices > 8 then 8 else numDevices
  let s := { pre with maxDevices := numDevices }
  let s := { s with bus := s.bus ++ [BusEvent.select true] }
  let s ← forUp (fun i (t : LedControl) => do
      let st ← writeAt t.status i 0x00
      pure { t with status := st }) 64 0 s
  let s ← forUp (fun i (t : LedControl) => do
      let t ← spiTransfer t i OP_DISPLAYTEST 0
      let t ← setScanLimit t i 7
      let t ← spiTransfer t i OP_DECODEMODE 0
      let t ← clearDisplay t i
      shutdown t i true) s.maxDevices.toNat 0 s
  let s := { s with commonAnode := false }
  forUp (fun i (t : LedControl) => do
      let cad ← writeAt t.commonAnodeData i 0b00000000
      pure { t with commonAnodeData := cad }) 8 0 s

/-! ## Specification-level definitions -/

/-- The `2 * N` bytes of one transfer to chip `c` of a chain of `N` chips, in the
order in which they are shifted out (spec, section 4.5): the chip farthest from
the controller first, `(opcode, data)` for chip `c` and `(NOOP, 0)` for the
others. -/
def frameBytes (N c opcode data : Nat) : List Nat :=
  (List.range (2 * N)).map fun p =>
    if p = 2 * (N - 1 - c) then opcode
    else if p = 2 * (N - 1 - c) + 1 then data
    else 0

/-- One bus transaction `(opcode, data)` addressed to chip `c` of a chain of `N`
chips: select low, the bytes of the transfer, select high. -/
def frame (N c opcode data : Nat) : List BusEvent :=
  BusEvent.select false ::
    ((frameBytes N c opcode data).map BusEvent.shiftOut ++ [BusEvent.select true])

/-- The transmit buffer `spidata` after a transfer to chip `c`. -/
def spiBuffer (sd : List Nat) (N c opcode data : Nat) : List Nat :=
  ((List.replicate (2 * N) 0 ++ sd.drop (2 * N)).set (2 * c + 1) (opcode % 256)).set
    (2 * c) (data % 256)

/-- An array of `n` bytes. -/
def IsByteArray (n : Nat) (a : List Nat) : Prop :=
  a.length = n ∧ ∀ b ∈ a, b < 256

/-- The representation invariant of the object: the chip count is the clamped
one, and the three arrays have their declared sizes and hold bytes. -/
def WF (s : LedControl) : Prop :=
  1 ≤ s.maxDevices ∧ s.maxDevices ≤ 8 ∧ IsByteArray 64 s.status ∧
    IsByteArray 16 s.spidata ∧ IsByteArray 8 s.commonAnodeData

instance (n : Nat) (a : List Nat) : Decidable (IsByteArray n a) := by
  unfold IsByteArray; infer_instance

instance (s : LedControl) : Decidable (WF s) := by
  unfold WF; infer_instance

/-- The row mirror byte of chip `c`, row `r`. -/
def mirrorByte (s : LedControl) (c r : Nat) : Nat := s.status.getD (c * 8 + r) 0

/-- The source bit of segment `cS` (spec, section 4.4). -/
def readIndex (cS : Nat) : Nat := if cS = 7 then 7 else 6 - cS

/-- The target bit for digit register `opcode` (spec, section 4.4). -/
def writeIndex (opcode : Nat) : Nat := if opcode = 8 then 7 else 7 - opcode

/-- The accumulator of segment `cS` after a write of `data` to register `opcode`. -/
def remapByte (acc opcode data cS : Nat) : Nat :=
  bitWrite acc (writeIndex opcode) (bitRead data (readIndex cS))

/-- The eight accumulators after a write of `data` to register `opcode`. -/
def remapAll (cad : List Nat) (opcode data : Nat) : List Nat :=
  (List.range 8).map fun cS => remapByte (cad.getD cS 0) opcode data cS

/-- The bus transactions of one common-anode write, segments `lo .. lo + n - 1`. -/
def remapFrames (N c : Nat) (cad : List Nat) (opcode data lo n : Nat) : List BusEvent :=
  (List.range n).flatMap fun k =>
    frame N c (lo + k + 1) (remapByte (cad.getD (lo + k) 0) opcode data (lo + k))

/-! ## Sample chains -/

/-- A four-chip common-cathode chain with a blank display. -/
def chain4 : LedControl :=
  { maxDevices := 4, status := List.replicate 64 0, spidata := List.replicate 16 0,
    commonAnode := false, commonAnodeData := List.replicate 8 0, bus := [] }

/-- An object before construction, with cleared memory. -/
def blank : LedControl :=
  { maxDevices := 0, status := List.replicate 64 0, spidata := List.replicate 16 0,
    commonAnode := false, commonAnodeData := List.replicate 8 0, bus := [] }

/-- A one-chip common-anode chain all of whose leds are lit: the chain after
construction, `setCommonAnode(true)` and `setRow(0, r, 0xFF)` for `r = 0..7`,
observed from an empty bus trace. -/
def anodeChain : LedControl :=
  { maxDevices := 1, status := List.replicate 8 0xFF ++ List.replicate 56 0,
    spidata := [0xFF, 8] ++ List.replicate 14 0,
    commonAnode := true, commonAnodeData := List.replicate 8 0xFF, bus := [] }

/-- A glyph table of 128 bytes.  Its first sixteen entries are seven-segment
patterns for the hexadecimal digits and entry 65 is a pattern for `A`; the
table of the library itself is not among the sources. -/
def sampleTable : List Nat :=
  [0x7E, 0x30, 0x6D, 0x79, 0x33, 0x5B, 0x5F, 0x70, 0x7F, 0x7B, 0x77, 0x1F, 0x0D, 0x3D, 0x4F,
    0x47] ++ (List.replicate 49 0 ++ (0x77 :: List.replicate 62 0))

/-- The row byte `old` after the led of column `k` is switched on or off. -/
def ledByte (old k : Nat) (state : Bool) : Nat :=
  if state then old ||| (1 <<< (7 - k)) else old &&& (255 - (1 <<< (7 - k)))

/-- Store `m` in mirror byte `(c, r)` and write `data` to register `r + 1` of chip
`c` through the protocol layer: the common tail of `clearDisplay`, `setLed`,
`setRow`, `setDigit` and `setChar`. -/
def digitWrite (s : LedControl) (c r m data : Nat) (reverse : Bool) : Option LedControl :=
  transfer { s with status := s.status.set (c * 8 + r) m } (c : Int) (r + 1) data reverse

/-- The bus transactions `(opcode, data)` of `txs`, all addressed to chip `c`. -/
def framesTo (N c : Nat) (txs : List (Nat × Nat)) : List BusEvent :=
  txs.flatMap fun w => frame N c w.1 w.2

/-- The transactions of one common-anode write: `(cS + 1, accumulator cS)` for
`cS = 0..7`. -/
def remapWrites (cad : List Nat) (opcode data : Nat) : List (Nat × Nat) :=
  (List.range 8).map fun cS => (cS + 1, remapByte (cad.getD cS 0) opcode data cS)

/-! ## Calls of the public operations -/

/-- A call of a public member function on a constructed object.  Arguments of
type `byte` and `char` are given as integers and converted at the call. -/
inductive Op where
  | getDeviceCount
  | setCommonAnode (value : Bool)
  | shutdown (addr : Int) (b : Bool)
  | setScanLimit (addr limit : Int)
  | setIntensity (addr intensity : Int)
  | clearDisplay (addr : Int)
  | setLed (addr row column : Int) (state : Bool)
  | setRow (addr row value : Int)
  | setColumn (addr col value : Int)
  | setDigit (addr digit value : Int) (dp reverse : Bool)
  | setChar (addr digit value : Int) (dp reverse : Bool)
  deriving DecidableEq

/-- One call. -/
def step (charTable : List Nat) (s : LedControl) : Op → Option LedControl
  | Op.getDeviceCount => some s
  | Op.setCommonAnode value => some (setCommonAnode s value)
  | Op.shutdown addr b => shutdown s addr b
  | Op.setScanLimit addr limit => setScanLimit s addr limit
  | Op.setIntensity addr intensity => setIntensity s addr intensity
  | Op.clearDisplay addr => clearDisplay s addr
  | Op.setLed addr row column state => setLed s addr row column state
  | Op.setRow addr row value => setRow s addr row (toByte value)
  | Op.setColumn addr col value => setColumn s addr col (toByte value)
  | Op.setDigit addr digit value dp reverse =>
      setDigit charTable s addr digit (toByte value) dp reverse
  | Op.setChar addr digit value dp reverse => setChar charTable s addr digit value dp reverse

/-- A sequence of calls, in order. -/
def run (charTable : List Nat) (s : LedControl) (ops : List Op) : Option LedControl :=
  ops.foldlM (step charTable) s

/-- What the constructor needs of the memory it is given: the three arrays have
their declared sizes and hold bytes. -/
def Allocated (pre : LedControl) : Prop :=
  IsByteArray 64 pre.status ∧ IsByteArray 16 pre.spidata ∧ IsByteArray 8 pre.commonAnodeData

instance (pre : LedControl) : Decidable (Allocated pre) := by
  unfold Allocated; infer_instance

/-- The eight writes `(1, 0), ..., (8, 0)` that blank a display. -/
def blankWrites : List (Nat × Nat) :=
  (List.range 8).map fun cS => (cS + 1, 0)

/-- The data of the last write to register `reg` in a list of writes to one chip. -/
def lastData (reg : Nat) (ws : List (Nat × Nat)) : Option Nat :=
  ((ws.filter fun w => w.1 = reg).getLast?).map fun w => w.2

/-! ## Reading a bus trace -/

/-- One event seen by the chain: the transfers completed so far, and the bytes
shifted in since the select line went low (`none` while it is high).  Bytes
clocked while the select line is high are ignored; the rising edge of the select
line completes a transfer. -/
def scanEvent (st : List (List Nat) × Option (List Nat)) :
    BusEvent → List (List Nat) × Option (List Nat)
  | BusEvent.select false => (st.1, some (st.2.getD []))
  | BusEvent.select true =>
    match st.2 with
    | some bytes => (st.1 ++ [bytes], none)
    | none => (st.1, none)
  | BusEvent.shiftOut v =>
    match st.2 with
    | some bytes => (st.1, some (bytes ++ [v]))
    | none => (st.1, none)

/-- The transfers on a bus trace. -/
def scanTrace (trace : List BusEvent) : List (List Nat) × Option (List Nat) :=
  trace.foldl scanEvent ([], none)

/-- The select line is high at the end of the trace. -/
def Idle (trace : List BusEvent) : Prop := (scanTrace trace).2 = none

/-- The `(opcode, data)` pair that chip `i` latches at the end of a transfer:
chip 0 holds the last two bytes shifted out, chip 1 the two before them, and so
on. -/
def latched (i : Nat) (bytes : List Nat) : Option (Nat × Nat) :=
  if 2 * i + 2 ≤ bytes.length then
    some (bytes.getD (bytes.length - 2 * i - 2) 0, bytes.getD (bytes.length - 2 * i - 1) 0)
  else none

/-- The register writes `(opcode, data)` that reach chip `i` on a bus trace; a
chip ignores opcode 0, NOOP. -/
def chipWrites (i : Nat) (trace : List BusEvent) : List (Nat × Nat) :=
  (scanTrace trace).1.filterMap fun bytes =>
    (latched i bytes).bind fun w => if w.1 = 0 then none else some w

/-- The data of the most recent write to register `reg` of chip `i`. -/
def lastWrite (i reg : Nat) (trace : List BusEvent) : Option Nat :=
  lastData reg (chipWrites i trace)

/-- The register writes a chip receives during construction: display test off,
scan limit 7, decode mode off, the writes of `clearDisplay` (which end with the
eight blanking writes) and shutdown. -/
def InitLog (log : List (Nat × Nat)) : Prop :=
  ∃ front, log = [(15, 0), (11, 7), (9, 0)] ++ front ++ blankWrites ++ [(12, 0)] ∧
    ∀ w ∈ front, 1 ≤ w.1 ∧ w.1 ≤ 8 ∧ w.2 < 256

/-- The row mirror agrees with the chips: for every chip `c` and row `r`, the most
recent write to register `r + 1` of chip `c` carried mirror byte `(c, r)`, or its
`flipByte` where `g c r` is set. -/
def Mirrored (s : LedControl) (g : Nat → Nat → Bool) : Prop :=
  ∀ c r : Nat, (c : Int) < s.maxDevices → r < 8 →
    lastWrite c (r + 1) s.bus =
      some (if g c r then flipByte (mirrorByte s c r) else mirrorByte s c r)

/-- Whether the most recent write to row `r` of chip `c` was issued by `setDigit`
or `setChar` with `reverse` set, after one more call on a chain of `N` chips: a
valid `setDigit` or `setChar` on `(c, r)` sets the flag to its `reverse`, any
other valid write to row `r` of chip `c` clears it, and every other call leaves
it as it was. -/
def reversedStep (N : Int) (g : Nat → Nat → Bool) : Op → Nat → Nat → Bool
  | Op.setDigit addr digit value _ reverse => fun c r =>
    if (c : Int) < N ∧ addr = (c : Int) ∧ digit = (r : Int) ∧ r < 8 ∧ toByte value ≤ 15 then
      reverse
    else g c r
  | Op.setChar addr digit _ _ reverse => fun c r =>
    if (c : Int) < N ∧ addr = (c : Int) ∧ digit = (r : Int) ∧ r < 8 then reverse else g c r
  | Op.setLed addr row column _ => fun c r =>
    if (c : Int) < N ∧ addr = (c : Int) ∧ row = (r : Int) ∧ r < 8 ∧ 0 ≤ column ∧ column ≤ 7 then
      false
    else g c r
  | Op.setRow addr row _ => fun c r =>
    if (c : Int) < N ∧ addr = (c : Int) ∧ row = (r : Int) ∧ r < 8 then false else g c r
  | Op.setColumn addr col _ => fun c r =>
    if (c : Int) < N ∧ addr = (c : Int) ∧ r < 8 ∧ 0 ≤ col ∧ col ≤ 7 then false else g c r
  | Op.clearDisplay addr => fun c r =>
    if (c : Int) < N ∧ addr = (c : Int) ∧ r < 8 then false else g c r
  | _ => g

/-- The flags after a sequence of calls on a freshly constructed chain. -/
def reversedAfter (N : Int) (ops : List Op) : Nat → Nat → Bool :=
  ops.foldl (reversedStep N) (fun _ _ => false)

/-- A chain in common-cathode mode whose mirror agrees with its chips. -/
def Synced (s : LedControl) (g : Nat → Nat → Bool) : Prop :=
  WF s ∧ s.commonAnode = false ∧ Idle s.bus ∧ Mirrored s g

/-- A sample sequence of calls, some of them with arguments out of range. -/
def sampleCalls : List Op :=
  [Op.shutdown 0 false, Op.setIntensity 0 8, Op.setLed 0 1 2 true, Op.setRow 9 0 255,
    Op.setDigit 1 3 5 false true, Op.setChar 1 (-1) 65 false false, Op.setColumn 1 7 300,
    Op.setDigit 0 1 16 true true, Op.setChar 0 7 (-56) true true, Op.clearDisplay 8,
    Op.setCommonAnode false, Op.getDeviceCount]

/-! ## The part of the transmit buffer in use -/

/-- The number of transmit-buffer bytes a chain constructed with `numDevices` puts
on the bus in one transfer: two for each chip of the clamped count. -/
def bytesInUse (numDevices : Int) : Nat :=
  2 * (if numDevices ≤ 0 ∨ numDevices > 8 then 8 else numDevices).toNat

/-- The object with its transmit buffer cut to the first `n` bytes.  Accesses to
the buffer are checked against its length, so on the cut object an access at an
index of `n` or more returns `none`. -/
def cutBuffer (s : LedControl) (n : Nat) : LedControl :=
  { s with spidata := s.spidata.take n }

/-- The object with the bytes `tail` put back behind its transmit buffer. -/
def padBuffer (s : LedControl) (tail : List Nat) : LedControl :=
  { s with spidata := s.spidata ++ tail }

/-- A chain of `N` chips whose mirror and accumulators have their declared sizes
and whose transmit buffer holds `L` bytes. -/
def Sized (N L : Nat) (s : LedControl) : Prop :=
  s.maxDevices = (N : Int) ∧ s.status.length = 64 ∧ s.commonAnodeData.length = 8 ∧
    s.spidata.length = L

/-! ## The bus driver -/

theorem readAt_nat (a : List Nat) (i : Nat) (h : i < a.length) :
    readAt a (i : Int) = some (a.getD i 0) := by
  have h' : ((i : Int) < (a.length : Int)) := by exact_mod_cast h
  simp [readAt, h', h]

theorem writeAt_nat (a : List Nat) (i : Nat) (v : Nat) (h : i < a.length) :
    writeAt a (i : Int) v = some (a.set i (v % 256)) := by
  have h' : ((i : Int) < (a.length : Int)) := by exact_mod_cast h
  simp [writeAt, h']

theorem zeroLoop (n : Nat) : ∀ (i : Nat) (s : LedControl) (rest : List Nat),
    s.spidata = List.replicate i 0 ++ rest → n ≤ rest.length →
    forUp (fun i (t : LedControl) => do
      let sd ← writeAt t.spidata i 0
      pure { t with spidata := sd }) n (i : Int) s
      = some { s with spidata := List.replicate (i + n) 0 ++ rest.drop n } := by
  induction n with
  | zero =>
    intro i s rest h _
    simp [forUp, ← h]
  | succ n ih =>
    intro i s rest h hn
    cases rest with
    | nil => simp at hn
    | cons x rest =>
      have hlen : i < s.spidata.length := by simp [h]
      have hset : s.spidata.set i 0 = List.replicate (i + 1) 0 ++ rest := by
        rw [h, List.replicate_succ', List.append_assoc]
        simp [List.set_append]
      have := ih (i + 1) { s with spidata := s.spidata.set i 0 } rest hset
        (by simpa using hn)
      have e : ((i : Int) + 1) = ((i + 1 : Nat) : Int) := by push_cast; rfl
      simp only [forUp, writeAt_nat _ _ _ hlen, Option.bind_eq_bind, Option.some_bind,
        Option.pure_def, Nat.zero_mod, e] at this ⊢
      rw [this]
      simp [Nat.add_assoc, Nat.add_comm 1 n]

theorem shiftLoop (n : Nat) : ∀ (s : LedControl), n ≤ s.spidata.length →
    forDown (fun i (t : LedControl) => do
      let b ← readAt t.spidata (i - 1)
      pure { t with bus := t.bus ++ [BusEvent.shiftOut b] }) n (n : Int) s
      = some { s with bus := s.bus ++ ((s.spidata.take n).reverse).map BusEvent.shiftOut } := by
  induction n with
  | zero => intro s _; simp [forDown]
  | succ n ih =>
    intro s hn
    have hlen : n < s.spidata.length := by omega
    have e : (((n + 1 : Nat) : Int) - 1) = (n : Int) := by push_cast; omega
    have := ih { s with bus := s.bus ++ [BusEvent.shiftOut (s.spidata.getD n 0)] }
      (by simpa using (by omega : n ≤ s.spidata.length))
    simp only [forDown, e, readAt_nat _ _ hlen, Option.bind_eq_bind, Option.some_bind,
      Option.pure_def] at this ⊢
    rw [this]
    have ht : List.take (n + 1) s.spidata = List.take n s.spidata ++ [s.spidata.getD n 0] := by
      rw [List.take_succ, List.getD_eq_getElem?_getD, List.getElem?_eq_getElem hlen]
      rfl
    rw [ht]
    simp

theorem spiBuffer_length (sd : List Nat) (N c op d : Nat) (hlen : 2 * N ≤ sd.length) :
    (spiBuffer sd N c op d).length = sd.length := by
  simp [spiBuffer]; omega

theorem spiBuffer_frameBytes (sd : List Nat) (N c op d : Nat) (hc : c < N) :
    ((spiBuffer sd N c op d).take (2 * N)).reverse = frameBytes N c (op % 256) (d % 256) := by
  apply List.ext_getElem
  · simp [spiBuffer, frameBytes]
  · intro p h1 h2
    simp only [frameBytes, List.length_map, List.length_range] at h2
    simp only [List.getElem_reverse, List.getElem_take, spiBuffer, List.getElem_set,
      frameBytes, List.getElem_map, List.getElem_range, List.length_take, List.length_set,
      List.length_append, List.length_replicate, List.length_drop]
    have hm : min (2 * N) (2 * N + (sd.length - 2 * N)) = 2 * N := by omega
    simp only [hm]
    by_cases a : p = 2 * (N - 1 - c)
    · have h3 : ¬ (2 * c = 2 * N - 1 - p) := by omega
      have h4 : 2 * c + 1 = 2 * N - 1 - p := by omega
      simp only [if_neg h3, if_pos h4, if_pos a]
    · by_cases b : p = 2 * (N - 1 - c) + 1
      · have h3 : 2 * c = 2 * N - 1 - p := by omega
        simp only [if_pos h3, if_neg a, if_pos b]
      · have h3 : ¬ (2 * c = 2 * N - 1 - p) := by omega
        have h4 : ¬ (2 * c + 1 = 2 * N - 1 - p) := by omega
        have h5 : 2 * N - 1 - p < (List.replicate (2 * N) 0).length := by simp; omega
        simp [a, b, h3, h4, List.getElem_append_left h5]

theorem spiTransfer_eq (s : LedControl) (N c opcode data : Nat)
    (hN : s.maxDevices = (N : Int)) (hlen : 2 * N ≤ s.spidata.length) (hc : c < N) :
    spiTransfer s (c : Int) opcode data = some { s with
      spidata := spiBuffer s.spidata N c opcode data
      bus := s.bus ++ frame N c (opcode % 256) (data % 256) } := by
  have hz := zeroLoop (2 * N) 0 s s.spidata (by simp) hlen
  have e1 : (s.maxDevices * 2).toNat = 2 * N := by rw [hN]; omega
  have e2 : s.maxDevices * 2 = ((2 * N : Nat) : Int) := by rw [hN]; push_cast; omega
  have e3 : ((2 * c : Nat) : Int) + 1 = ((2 * c + 1 : Nat) : Int) := by push_cast; omega
  have e4 : (c : Int) * 2 = ((2 * c : Nat) : Int) := by push_cast; omega
  have l1 : 2 * c + 1 < (List.replicate (2 * N) 0 ++ List.drop (2 * N) s.spidata).length := by
    simp; omega
  have l2 : 2 * c < ((List.replicate (2 * N) 0 ++ List.drop (2 * N) s.spidata).set
      (2 * c + 1) (opcode % 256)).length := by
    simp; omega
  unfold spiTransfer
  simp only [e1, Nat.cast_zero, Nat.zero_add] at hz ⊢
  simp only [Option.bind_eq_bind, Option.pure_def] at hz ⊢
  rw [hz]
  simp only [Option.some_bind, e4, e3, writeAt_nat _ _ _ l1, writeAt_nat _ _ _ l2, e2]
  have hs := shiftLoop (2 * N) { s with
      spidata := spiBuffer s.spidata N c opcode data
      bus := s.bus ++ [BusEvent.select false] }
    (by simp [spiBuffer_length _ _ _ _ _ hlen, hlen])
  simp only [Option.bind_eq_bind, Option.pure_def, spiBuffer, Nat.zero_add] at hs ⊢
  rw [hs]
  have := spiBuffer_frameBytes s.spidata N c opcode data hc
  simp only [spiBuffer] at this
  simp [this, frame]

/-! ## Bits of a byte -/

theorem bitRead_ne_zero (v b : Nat) : bitRead v b ≠ 0 ↔ v.testBit b = true := by
  simp [bitRead, Nat.testBit_to_div_mod, Nat.and_one_is_mod, Nat.shiftRight_eq_div_pow]

theorem bitSet_testBit (v b j : Nat) :
    (bitSet v b).testBit j = (decide (j < 8) && (v.testBit j || decide (b = j))) := by
  have : (256 : Nat) = 2 ^ 8 := by norm_num
  rw [bitSet, this, Nat.one_shiftLeft]
  simp only [Nat.testBit_mod_two_pow, Nat.testBit_or, Nat.testBit_two_pow]

theorem bitClear_testBit (v b j : Nat) (hb : b < 8) :
    (bitClear v b).testBit j = (decide (j < 8) && (v.testBit j && !decide (b = j))) := by
  have h1 : (256 : Nat) = 2 ^ 8 := by norm_num
  have h2 : (0xFFFFFFFF : Nat) = 2 ^ 32 - 1 := by norm_num
  have h3 : (2 ^ b) % 2 ^ 32 = 2 ^ b :=
    Nat.mod_eq_of_lt (Nat.pow_lt_pow_right (by norm_num) (by omega))
  rw [bitClear, Nat.one_shiftLeft, h3, h1, h2]
  simp only [Nat.testBit_mod_two_pow, Nat.testBit_and, Nat.testBit_xor,
    Nat.testBit_two_pow_sub_one, Nat.testBit_two_pow]
  by_cases hj : j < 8
  · have : j < 32 := by omega
    by_cases hbj : b = j <;> simp [hj, this, hbj]
  · simp [hj]

theorem bitWrite_testBit (v b bv j : Nat) (hb : b < 8) :
    (bitWrite v b bv).testBit j =
      (decide (j < 8) && (if b = j then decide (bv ≠ 0) else v.testBit j)) := by
  unfold bitWrite
  by_cases h : bv ≠ 0
  · rw [if_pos h, bitSet_testBit]
    by_cases hbj : b = j <;> simp [hbj, h]
  · rw [if_neg h, bitClear_testBit _ _ _ hb]
    by_cases hbj : b = j <;> simp [hbj, h]

theorem lt_256_of_testBit (x : Nat) (h : ∀ j, 8 ≤ j → x.testBit j = false) : x < 256 := by
  have : (256 : Nat) = 2 ^ 8 := by norm_num
  rw [this]
  exact Nat.lt_pow_two_of_testBit x h

theorem bitWrite_lt (v b bv : Nat) : bitWrite v b bv < 256 := by
  unfold bitWrite bitSet bitClear
  split <;> exact Nat.mod_lt _ (by norm_num)

theorem remapByte_lt (acc opcode data cS : Nat) : remapByte acc opcode data cS < 256 :=
  bitWrite_lt _ _ _

theorem writeIndex_lt (opcode : Nat) : writeIndex opcode < 8 := by
  unfold writeIndex; split <;> omega

theorem readIndex_lt (cS : Nat) : readIndex cS < 8 := by
  unfold readIndex; split <;> omega

theorem remapByte_testBit (acc opcode data cS j : Nat) (hj : j < 8) :
    (remapByte acc opcode data cS).testBit j =
      if j = writeIndex opcode then data.testBit (readIndex cS) else acc.testBit j := by
  rw [remapByte, bitWrite_testBit _ _ _ _ (writeIndex_lt opcode)]
  by_cases h : writeIndex opcode = j
  · have h2 : j = writeIndex opcode := h.symm
    simp only [hj, decide_True, Bool.true_and, if_pos h, if_pos h2]
    by_cases hb : data.testBit (readIndex cS) = true
    · simp [hb, (bitRead_ne_zero _ _).2 hb]
    · have : ¬ bitRead data (readIndex cS) ≠ 0 := fun hh => hb ((bitRead_ne_zero _ _).1 hh)
      simp only [Bool.not_eq_true] at hb
      simp [hb, this]
  · have h2 : ¬ j = writeIndex opcode := fun hh => h hh.symm
    simp [hj, h, h2]

theorem ite_two_pow_testBit (p : Prop) [Decidable p] (m i : Nat) :
    (if p then 2 ^ m else 0).testBit i = (decide p && decide (m = i)) := by
  split <;> simp [Nat.testBit_two_pow, *]

theorem flipByte_testBit (c i : Nat) :
    (flipByte c).testBit i =
      ((c.testBit 0 && decide (0 = i)) || (c.testBit 4 && decide (1 = i)) ||
        (c.testBit 5 && decide (2 = i)) || (c.testBit 6 && decide (3 = i)) ||
        (c.testBit 1 && decide (4 = i)) || (c.testBit 2 && decide (5 = i)) ||
        (c.testBit 3 && decide (6 = i)) || (c.testBit 7 && decide (7 = i))) := by
  have e : flipByte c =
      0 ||| (if bitRead c 0 ≠ 0 then 2 ^ 0 else 0) ||| (if bitRead c 4 ≠ 0 then 2 ^ 1 else 0)
        ||| (if bitRead c 5 ≠ 0 then 2 ^ 2 else 0) ||| (if bitRead c 6 ≠ 0 then 2 ^ 3 else 0)
        ||| (if bitRead c 1 ≠ 0 then 2 ^ 4 else 0) ||| (if bitRead c 2 ≠ 0 then 2 ^ 5 else 0)
        ||| (if bitRead c 3 ≠ 0 then 2 ^ 6 else 0) ||| (if bitRead c 7 ≠ 0 then 2 ^ 7 else 0) := rfl
  have d : ∀ k, decide (bitRead c k ≠ 0) = c.testBit k := by
    intro k
    by_cases hk : c.testBit k = true
    · simp [hk, (bitRead_ne_zero c k).2 hk]
    · have : ¬ bitRead c k ≠ 0 := fun hh => hk ((bitRead_ne_zero c k).1 hh)
      simp only [Bool.not_eq_true] at hk
      rw [hk]
      exact decide_eq_false this
  rw [e]
  simp only [Nat.testBit_or, ite_two_pow_testBit, d, Nat.zero_testBit, Bool.false_or]

theorem flipByte_lt (c : Nat) : flipByte c < 256 := by
  apply lt_256_of_testBit
  intro j hj
  rw [flipByte_testBit]
  have h0 : ¬ (0 = j) := by omega
  have h1 : ¬ (1 = j) := by omega
  have h2 : ¬ (2 = j) := by omega
  have h3 : ¬ (3 = j) := by omega
  have h4 : ¬ (4 = j) := by omega
  have h5 : ¬ (5 = j) := by omega
  have h6 : ¬ (6 = j) := by omega
  have h7 : ¬ (7 = j) := by omega
  simp [h0, h1, h2, h3, h4, h5, h6, h7]

/-! ## The representation invariant and the protocol layer -/

theorem IsByteArray.set_byte {n : Nat} {a : List Nat} (h : IsByteArray n a) (i v : Nat)
    (hv : v < 256) : IsByteArray n (a.set i v) := by
  refine ⟨by simpa using h.1, fun b hb => ?_⟩
  rcases List.mem_or_eq_of_mem_set hb with hb | hb
  · exact h.2 b hb
  · exact hb ▸ hv

theorem IsByteArray.getD_lt {n : Nat} {a : List Nat} (h : IsByteArray n a) (i : Nat) :
    a.getD i 0 < 256 := by
  rw [List.getD_eq_getElem?_getD]
  by_cases hi : i < a.length
  · rw [List.getElem?_eq_getElem hi]
    exact h.2 _ (List.getElem_mem hi)
  · rw [List.getElem?_eq_none (by omega)]
    decide

theorem spiBuffer_isByteArray (sd : List Nat) (N c op d : Nat) (h : IsByteArray 16 sd)
    (hN : N ≤ 8) : IsByteArray 16 (spiBuffer sd N c op d) := by
  unfold spiBuffer
  apply IsByteArray.set_byte _ _ _ (Nat.mod_lt _ (by norm_num))
  apply IsByteArray.set_byte _ _ _ (Nat.mod_lt _ (by norm_num))
  refine ⟨?_, fun b hb => ?_⟩
  · have := h.1
    simp; omega
  · rcases List.mem_append.1 hb with hb | hb
    · rw [(List.mem_replicate.1 hb).2]; decide
    · exact h.2 b (List.mem_of_mem_drop hb)

theorem spiTransfer_wf (s : LedControl) (c opcode data : Nat) (h : WF s)
    (hc : (c : Int) < s.maxDevices) :
    spiTransfer s (c : Int) opcode data = some { s with
      spidata := spiBuffer s.spidata s.maxDevices.toNat c opcode data
      bus := s.bus ++ frame s.maxDevices.toNat c (opcode % 256) (data % 256) } ∧
    WF { s with
      spidata := spiBuffer s.spidata s.maxDevices.toNat c opcode data
      bus := s.bus ++ frame s.maxDevices.toNat c (opcode % 256) (data % 256) } := by
  obtain ⟨h1, h8, hst, hsd, hcad⟩ := h
  have hlen := hsd.1
  constructor
  · exact spiTransfer_eq s s.maxDevices.toNat c opcode data (by omega) (by omega) (by omega)
  · exact ⟨h1, h8, hst, spiBuffer_isByteArray _ _ _ _ _ hsd (by omega), hcad⟩

theorem transferSegment_wf (s : LedControl) (c opcode data cS : Nat) (h : WF s)
    (hc : (c : Int) < s.maxDevices) (hop1 : 1 ≤ opcode) (hop8 : opcode ≤ 8) (hcS : cS < 8) :
    transferSegment (c : Int) opcode data (cS : Int) s = some { s with
      commonAnodeData :=
        s.commonAnodeData.set cS (remapByte (s.commonAnodeData.getD cS 0) opcode data cS)
      spidata := spiBuffer s.spidata s.maxDevices.toNat c (cS + 1)
        (remapByte (s.commonAnodeData.getD cS 0) opcode data cS)
      bus := s.bus ++ frame s.maxDevices.toNat c (cS + 1)
        (remapByte (s.commonAnodeData.getD cS 0) opcode data cS) } ∧
    WF { s with
      commonAnodeData :=
        s.commonAnodeData.set cS (remapByte (s.commonAnodeData.getD cS 0) opcode data cS)
      spidata := spiBuffer s.spidata s.maxDevices.toNat c (cS + 1)
        (remapByte (s.commonAnodeData.getD cS 0) opcode data cS)
      bus := s.bus ++ frame s.maxDevices.toNat c (cS + 1)
        (remapByte (s.commonAnodeData.getD cS 0) opcode data cS) } := by
  have hcad := h.2.2.2.2
  have hlen : cS < s.commonAnodeData.length := by rw [hcad.1]; exact hcS
  have hr : (if (cS : Int) = 7 then (7 : Int) else 6 - (cS : Int)) = ((readIndex cS : Nat) : Int) := by
    unfold readIndex
    by_cases h7 : cS = 7
    · simp [h7]
    · have : ¬ ((cS : Int) = 7) := by omega
      rw [if_neg this, if_neg h7]; omega
  have hw : (if opcode = 8 then (7 : Int) else 7 - (opcode : Int))
      = ((writeIndex opcode : Nat) : Int) := by
    unfold writeIndex
    by_cases h8 : opcode = 8
    · simp [h8]
    · rw [if_neg h8, if_neg h8]; omega
  have hbi : ∀ k : Nat, k < 8 → bitIndex (k : Int) = some k := by
    intro k hk
    have : (k : Int) < 8 := by omega
    simp [bitIndex, this]
  have hmod : remapByte (s.commonAnodeData.getD cS 0) opcode data cS % 256
      = remapByte (s.commonAnodeData.getD cS 0) opcode data cS :=
    Nat.mod_eq_of_lt (remapByte_lt _ _ _ _)
  have hlen2 : cS < (s.commonAnodeData.set cS
      (remapByte (s.commonAnodeData.getD cS 0) opcode data cS)).length := by simpa using hlen
  have hback : (s.commonAnodeData.set cS
      (remapByte (s.commonAnodeData.getD cS 0) opcode data cS)).getD cS 0
      = remapByte (s.commonAnodeData.getD cS 0) opcode data cS := by
    simp [List.getD_eq_getElem?_getD, List.getElem?_set, hlen]
  have hbyte : toByte ((cS : Int) + 1) = cS + 1 := by
    unfold toByte; omega
  have hwf1 : WF { s with commonAnodeData :=
      s.commonAnodeData.set cS (remapByte (s.commonAnodeData.getD cS 0) opcode data cS) } :=
    ⟨h.1, h.2.1, h.2.2.1, h.2.2.2.1, hcad.set_byte _ _ (remapByte_lt _ _ _ _)⟩
  have hsp := spiTransfer_wf _ c (cS + 1)
    (remapByte (s.commonAnodeData.getD cS 0) opcode data cS) hwf1 hc
  have hm1 : (cS + 1) % 256 = cS + 1 := by omega
  rw [hmod, hm1] at hsp
  refine ⟨?_, hsp.2⟩
  unfold transferSegment
  simp only [remapByte] at hmod hlen2 hback hsp ⊢
  simp only [hr, hw, hbi _ (readIndex_lt cS), hbi _ (writeIndex_lt opcode), readAt_nat _ _ hlen,
    writeAt_nat _ _ _ hlen, Option.bind_eq_bind, Option.some_bind, hmod,
    readAt_nat _ _ hlen2, hback, hbyte] at hsp ⊢
  exact hsp.1

theorem remapFrames_succ (N c : Nat) (cad : List Nat) (opcode data lo n : Nat) :
    remapFrames N c cad opcode data lo (n + 1) =
      frame N c (lo + 1) (remapByte (cad.getD lo 0) opcode data lo) ++
        remapFrames N c cad opcode data (lo + 1) n := by
  unfold remapFrames
  rw [List.range_succ_eq_map, List.flatMap_cons, List.flatMap_map]
  congr 1
  apply List.flatMap_congr
  intro k _
  have e : lo + k.succ = lo + 1 + k := by omega
  simp only [Function.comp, e]

theorem remapFrames_set (N c : Nat) (cad : List Nat) (opcode data lo n x : Nat) :
    remapFrames N c (cad.set lo x) opcode data (lo + 1) n =
      remapFrames N c cad opcode data (lo + 1) n := by
  unfold remapFrames
  apply List.flatMap_congr
  intro k _
  have : ¬ (lo = lo + 1 + k) := by omega
  simp [List.getD_eq_getElem?_getD, List.getElem?_set, this]

theorem transferLoop (c opcode data : Nat) (hop1 : 1 ≤ opcode) (hop8 : opcode ≤ 8) (n : Nat) :
    ∀ (lo : Nat) (s : LedControl), WF s → (c : Int) < s.maxDevices → lo + n ≤ 8 →
    ∃ s2, forUp (transferSegment (c : Int) opcode data) n (lo : Int) s = some s2 ∧ WF s2 ∧
      s2.maxDevices = s.maxDevices ∧ s2.status = s.status ∧ s2.commonAnode = s.commonAnode ∧
      (∀ j, s2.commonAnodeData.getD j 0 =
        if lo ≤ j ∧ j < lo + n then remapByte (s.commonAnodeData.getD j 0) opcode data j
        else s.commonAnodeData.getD j 0) ∧
      s2.bus = s.bus ++ remapFrames s.maxDevices.toNat c s.commonAnodeData opcode data lo n := by
  induction n with
  | zero =>
    intro lo s h _ _
    refine ⟨s, rfl, h, rfl, rfl, rfl, fun j => ?_, by simp [remapFrames]⟩
    have : ¬ (lo ≤ j ∧ j < lo + 0) := by omega
    rw [if_neg this]
  | succ n ih =>
    intro lo s h hc hlo
    obtain ⟨hseg, hwf1⟩ := transferSegment_wf s c opcode data lo h hc hop1 hop8 (by omega)
    obtain ⟨s2, hrun, hwf2, hN, hst, hca, hcad, hbus⟩ := ih (lo + 1) _ hwf1 hc (by omega)
    have e : ((lo : Int) + 1) = ((lo + 1 : Nat) : Int) := by push_cast; rfl
    refine ⟨s2, ?_, hwf2, hN, hst, hca, fun j => ?_, ?_⟩
    · simp only [forUp, hseg, Option.some_bind, e]
      exact hrun
    · rw [hcad j]
      have hl : lo < s.commonAnodeData.length := by rw [h.2.2.2.2.1]; omega
      by_cases h1 : j = lo
      · have a : ¬ (lo + 1 ≤ j ∧ j < lo + 1 + n) := by omega
        have b : lo ≤ j ∧ j < lo + (n + 1) := by omega
        rw [if_neg a, if_pos b, h1]
        simp [List.getD_eq_getElem?_getD, List.getElem?_set, hl]
      · have hne : ¬ (lo = j) := fun hh => h1 hh.symm
        have hg : (s.commonAnodeData.set lo
            (remapByte (s.commonAnodeData.getD lo 0) opcode data lo)).getD j 0
            = s.commonAnodeData.getD j 0 := by
          simp [List.getD_eq_getElem?_getD, List.getElem?_set, hne]
        simp only [hg]
        by_cases h2 : lo + 1 ≤ j ∧ j < lo + 1 + n
        · have b : lo ≤ j ∧ j < lo + (n + 1) := by omega
          rw [if_pos h2, if_pos b]
        · have b : ¬ (lo ≤ j ∧ j < lo + (n + 1)) := by omega
          rw [if_neg h2, if_neg b]
    · rw [hbus, remapFrames_succ]
      simp only [remapFrames_set, List.append_assoc]

theorem remapAll_of_getD (cad cad2 : List Nat) (opcode data : Nat) (hlen : cad2.length = 8)
    (h : ∀ j, cad2.getD j 0 =
      if 0 ≤ j ∧ j < 0 + 8 then remapByte (cad.getD j 0) opcode data j else cad.getD j 0) :
    cad2 = remapAll cad opcode data := by
  apply List.ext_getElem
  · simp [remapAll, hlen]
  · intro j h1 h2
    have hj : j < 8 := by omega
    have := h j
    rw [List.getD_eq_getElem?_getD, List.getElem?_eq_getElem h1] at this
    simp only [Option.getD_some] at this
    rw [this, if_pos (by omega)]
    simp [remapAll]

/-- A protocol-layer write in common-anode mode. -/
theorem transfer_anode (s : LedControl) (c opcode data : Nat) (reverse : Bool) (h : WF s)
    (hc : (c : Int) < s.maxDevices) (hop1 : 1 ≤ opcode) (hop8 : opcode ≤ 8)
    (hca : s.commonAnode = true) :
    ∃ s2, transfer s (c : Int) opcode data reverse = some s2 ∧ WF s2 ∧
      s2.maxDevices = s.maxDevices ∧ s2.status = s.status ∧ s2.commonAnode = s.commonAnode ∧
      s2.commonAnodeData =
        remapAll s.commonAnodeData opcode (if reverse then flipByte data else data) ∧
      s2.bus = s.bus ++ remapFrames s.maxDevices.toNat c s.commonAnodeData opcode
        (if reverse then flipByte data else data) 0 8 := by
  obtain ⟨s2, hrun, hwf2, hN, hst, hca2, hcad, hbus⟩ :=
    transferLoop c opcode (if reverse then flipByte data else data) hop1 hop8 8 0 s h hc
      (by omega)
  refine ⟨s2, ?_, hwf2, hN, hst, hca2, remapAll_of_getD _ _ _ _ hwf2.2.2.2.2.1 hcad, hbus⟩
  simp only [transfer, hca, if_true]
  exact hrun

/-- A protocol-layer write in common-cathode mode. -/
theorem transfer_cathode (s : LedControl) (c opcode data : Nat) (reverse : Bool) (h : WF s)
    (hc : (c : Int) < s.maxDevices) (hca : s.commonAnode = false) :
    ∃ s2, transfer s (c : Int) opcode data reverse = some s2 ∧ WF s2 ∧
      s2.maxDevices = s.maxDevices ∧ s2.status = s.status ∧ s2.commonAnode = s.commonAnode ∧
      s2.commonAnodeData = s.commonAnodeData ∧
      s2.bus = s.bus ++ frame s.maxDevices.toNat c (opcode % 256)
        ((if reverse then flipByte data else data) % 256) := by
  obtain ⟨hrun, hwf⟩ := spiTransfer_wf s c opcode (if reverse then flipByte data else data) h hc
  refine ⟨_, ?_, hwf, rfl, rfl, rfl, rfl, rfl⟩
  rw [← hrun]
  simp [transfer, hca]

/-- A protocol-layer write to a digit register, in either mode. -/
theorem transfer_total (s : LedControl) (c opcode data : Nat) (reverse : Bool) (h : WF s)
    (hc : (c : Int) < s.maxDevices) (hop1 : 1 ≤ opcode) (hop8 : opcode ≤ 8) :
    ∃ s2, transfer s (c : Int) opcode data reverse = some s2 ∧ WF s2 ∧
      s2.maxDevices = s.maxDevices ∧ s2.status = s.status ∧ s2.commonAnode = s.commonAnode := by
  by_cases hca : s.commonAnode = true
  · obtain ⟨s2, a, b, c1, d, e, _⟩ := transfer_anode s c opcode data reverse h hc hop1 hop8 hca
    exact ⟨s2, a, b, c1, d, e⟩
  · obtain ⟨s2, a, b, c1, d, e, _⟩ :=
      transfer_cathode s c opcode data reverse h hc (by simpa using hca)
    exact ⟨s2, a, b, c1, d, e⟩

/-! ## Writes to the row mirror -/

theorem status_store (s : LedControl) (c r v : Nat) (h : WF s) (hc : (c : Int) < s.maxDevices)
    (hr : r < 8) :
    writeAt s.status ((c : Int) * 8 + (r : Int)) v = some (s.status.set (c * 8 + r) (v % 256)) ∧
    readAt (s.status.set (c * 8 + r) (v % 256)) ((c : Int) * 8 + (r : Int)) = some (v % 256) ∧
    readAt s.status ((c : Int) * 8 + (r : Int)) = some (s.status.getD (c * 8 + r) 0) ∧
    WF { s with status := s.status.set (c * 8 + r) (v % 256) } := by
  have h8 := h.2.1
  have hlen := h.2.2.1.1
  have hi : c * 8 + r < s.status.length := by omega
  have e : (c : Int) * 8 + (r : Int) = ((c * 8 + r : Nat) : Int) := by push_cast; rfl
  have hi2 : c * 8 + r < (s.status.set (c * 8 + r) (v % 256)).length := by simpa using hi
  refine ⟨?_, ?_, ?_, ?_⟩
  · rw [e, writeAt_nat _ _ _ hi]
  · rw [e, readAt_nat _ _ hi2]
    simp [List.getD_eq_getElem?_getD, List.getElem?_set, hi]
  · rw [e, readAt_nat _ _ hi]
  · exact ⟨h.1, h.2.1, h.2.2.1.set_byte _ _ (Nat.mod_lt _ (by norm_num)), h.2.2.2.1, h.2.2.2.2⟩

theorem transfer_digit (t : LedControl) (c r data : Nat) (reverse : Bool) (h : WF t)
    (hc : (c : Int) < t.maxDevices) (hr : r < 8) :
    ∃ s2, transfer t (c : Int) (toByte ((r : Int) + 1)) data reverse = some s2 ∧ WF s2 ∧
      s2.maxDevices = t.maxDevices ∧ s2.status = t.status ∧ s2.commonAnode = t.commonAnode ∧
      (t.commonAnode = false → s2.commonAnodeData = t.commonAnodeData ∧
        s2.bus = t.bus ++ frame t.maxDevices.toNat c (r + 1)
          ((if reverse then flipByte data else data) % 256)) := by
  have hbyte : toByte ((r : Int) + 1) = r + 1 := by
    unfold toByte; omega
  rw [hbyte]
  by_cases hca : t.commonAnode = true
  · obtain ⟨s2, a, b, c1, d, e, _⟩ :=
      transfer_anode t c (r + 1) data reverse h hc (by omega) (by omega) hca
    exact ⟨s2, a, b, c1, d, e, fun hf => by rw [hf] at hca; cases hca⟩
  · obtain ⟨s2, a, b, c1, d, e, f, g⟩ :=
      transfer_cathode t c (r + 1) data reverse h hc (by simpa using hca)
    have hm : (r + 1) % 256 = r + 1 := by omega
    rw [hm] at g
    exact ⟨s2, a, b, c1, d, e, fun _ => ⟨f, g⟩⟩

theorem mask_eq (k : Nat) (hk : k < 8) :
    0b10000000 >>> k = 1 <<< (7 - k) ∧ (1 <<< (7 - k)) ^^^ 0xFF = 255 - 1 <<< (7 - k) := by
  interval_cases k <;> decide

theorem mirrorByte_set (s t : LedControl) (c r v : Nat) (hr : r < 8) (h : WF s)
    (hc : (c : Int) < s.maxDevices) (ht : t.status = s.status.set (c * 8 + r) v) :
    mirrorByte t c r = v ∧
      ∀ c2 r2, r2 < 8 → (c2, r2) ≠ (c, r) → mirrorByte t c2 r2 = mirrorByte s c2 r2 := by
  have h8 := h.2.1
  have hlen := h.2.2.1.1
  have hi : c * 8 + r < s.status.length := by omega
  constructor
  · simp [mirrorByte, ht, List.getD_eq_getElem?_getD, List.getElem?_set, hi]
  · intro c2 r2 hr2 hne
    have : ¬ (c * 8 + r = c2 * 8 + r2) := by
      intro heq
      apply hne
      have h1 : c2 = c := by omega
      have h2 : r2 = r := by omega
      rw [h1, h2]
    simp [mirrorByte, ht, List.getD_eq_getElem?_getD, List.getElem?_set, this]

/-- What `setLed` does on valid arguments. -/
theorem setLed_spec (s : LedControl) (c r k : Nat) (state : Bool) (h : WF s)
    (hc : (c : Int) < s.maxDevices) (hr : r < 8) (hk : k < 8) :
    ∃ s2, setLed s (c : Int) (r : Int) (k : Int) state = some s2 ∧ WF s2 ∧
      s2.maxDevices = s.maxDevices ∧ s2.commonAnode = s.commonAnode ∧
      s2.status = s.status.set (c * 8 + r)
        (if state then mirrorByte s c r ||| 1 <<< (7 - k)
          else mirrorByte s c r &&& (255 - 1 <<< (7 - k))) ∧
      (s.commonAnode = false → s2.commonAnodeData = s.commonAnodeData ∧
        s2.bus = s.bus ++ frame s.maxDevices.toNat c (r + 1)
          (if state then mirrorByte s c r ||| 1 <<< (7 - k)
            else mirrorByte s c r &&& (255 - 1 <<< (7 - k)))) := by
  have ha : ¬ ((c : Int) < 0 ∨ (c : Int) ≥ s.maxDevices) := by omega
  have hb : ¬ ((r : Int) < 0 ∨ (r : Int) > 7 ∨ (k : Int) < 0 ∨ (k : Int) > 7) := by omega
  have hold : mirrorByte s c r < 256 := h.2.2.1.getD_lt _
  have hm := mask_eq k hk
  have hmlt : 1 <<< (7 - k) < 256 := by
    rw [← hm.1]; interval_cases k <;> decide
  have hnew : (if state then mirrorByte s c r ||| 1 <<< (7 - k)
      else mirrorByte s c r &&& (255 - 1 <<< (7 - k))) < 256 := by
    have e : (256 : Nat) = 2 ^ 8 := by norm_num
    split
    · rw [e]; exact Nat.or_lt_two_pow (by rw [← e]; exact hold) (by rw [← e]; exact hmlt)
    · exact lt_of_le_of_lt Nat.and_le_left hold
  obtain ⟨hw, hrb, hrd, hwf1⟩ := status_store s c r
    (if state then mirrorByte s c r ||| 1 <<< (7 - k)
      else mirrorByte s c r &&& (255 - 1 <<< (7 - k))) h hc hr
  rw [Nat.mod_eq_of_lt hnew] at hw hrb hwf1
  obtain ⟨s2, hrun, hwf2, hN, hst, hca, hbus⟩ := transfer_digit _ c r
    (if state then mirrorByte s c r ||| 1 <<< (7 - k)
      else mirrorByte s c r &&& (255 - 1 <<< (7 - k))) false hwf1 hc hr
  simp only [Bool.false_eq_true, if_false, Nat.mod_eq_of_lt hnew] at hbus
  refine ⟨s2, ?_, hwf2, hN, hca, hst, hbus⟩
  unfold setLed
  rw [if_neg ha, if_neg hb]
  simp only [Int.toNat_ofNat, hm.1, hm.2, hrd, Option.bind_eq_bind, Option.some_bind]
  cases state
  · simp only [Bool.false_eq_true, if_false, Option.bind_eq_bind, Option.some_bind] at hw hrb hrun ⊢
    rw [show s.status.getD (c * 8 + r) 0 = mirrorByte s c r from rfl, hw]
    simp only [Option.some_bind, hrb]
    exact hrun
  · simp only [if_true, Option.bind_eq_bind, Option.some_bind] at hw hrb hrun ⊢
    rw [show s.status.getD (c * 8 + r) 0 = mirrorByte s c r from rfl, hw]
    simp only [Option.some_bind, hrb]
    exact hrun

/-! ## Column writes -/

theorem columnBit (V m : Nat) : decide (((V >>> m) % 256) &&& 0x01 ≠ 0) = V.testBit m := by
  have e : ((V >>> m) % 256) &&& 0x01 = bitRead V m := by
    simp only [bitRead, Nat.and_one_is_mod]
    exact Nat.mod_mod_of_dvd _ (by norm_num)
  rw [e]
  by_cases hk : V.testBit m = true
  · simp [hk, (bitRead_ne_zero V m).2 hk]
  · have : ¬ bitRead V m ≠ 0 := fun hh => hk ((bitRead_ne_zero V m).1 hh)
    simp only [Bool.not_eq_true] at hk
    rw [hk]
    exact decide_eq_false this

theorem ledByte_lt (old k : Nat) (state : Bool) (hold : old < 256) (hk : k < 8) :
    ledByte old k state < 256 := by
  have e : (256 : Nat) = 2 ^ 8 := by norm_num
  have hmlt : 1 <<< (7 - k) < 256 := by interval_cases k <;> decide
  unfold ledByte
  split
  · rw [e]; exact Nat.or_lt_two_pow (by rw [← e]; exact hold) (by rw [← e]; exact hmlt)
  · exact lt_of_le_of_lt Nat.and_le_left hold

theorem ledByte_testBit (old k j : Nat) (state : Bool) (hk : k < 8) (hj : j < 8) :
    (ledByte old k state).testBit j = if j = 7 - k then state else old.testBit j := by
  have h255 : (255 : Nat) = 2 ^ 8 - 1 := by norm_num
  unfold ledByte
  cases state
  · rw [if_neg (by simp), ← (mask_eq k hk).2, Nat.one_shiftLeft, Nat.testBit_and, Nat.testBit_xor,
      Nat.testBit_two_pow, h255, Nat.testBit_two_pow_sub_one]
    by_cases h : j = 7 - k
    · have h2 : 7 - k = j := h.symm
      simp [h2, hj]
    · have h2 : ¬ (7 - k = j) := fun hh => h hh.symm
      simp [h, h2, hj]
  · rw [if_pos rfl, Nat.one_shiftLeft, Nat.testBit_or, Nat.testBit_two_pow]
    by_cases h : j = 7 - k
    · have h2 : 7 - k = j := h.symm
      simp [h]
    · have h2 : ¬ (7 - k = j) := fun hh => h hh.symm
      simp [h, h2]

/-- The loop of `setColumn` over the rows `lo .. lo + n - 1`. -/
theorem columnLoop (c k V : Nat) (hk : k < 8) (n : Nat) :
    ∀ (lo : Nat) (s : LedControl), WF s → (c : Int) < s.maxDevices → lo + n ≤ 8 →
    ∃ s2, forUp (fun row (t : LedControl) =>
        let val : Nat := (V >>> (7 - row).toNat) % 256
        let val : Nat := val &&& 0x01
        setLed t (c : Int) row (k : Int) (val ≠ 0)) n (lo : Int) s = some s2 ∧ WF s2 ∧
      s2.maxDevices = s.maxDevices ∧ s2.commonAnode = s.commonAnode ∧
      (∀ j, s2.status.getD j 0 =
        if c * 8 + lo ≤ j ∧ j < c * 8 + lo + n then
          ledByte (s.status.getD j 0) k (V.testBit (7 - (j - c * 8)))
        else s.status.getD j 0) := by
  induction n with
  | zero =>
    intro lo s h _ _
    refine ⟨s, rfl, h, rfl, rfl, fun j => ?_⟩
    have : ¬ (c * 8 + lo ≤ j ∧ j < c * 8 + lo + 0) := by omega
    rw [if_neg this]
  | succ n ih =>
    intro lo s h hc hlo
    obtain ⟨s1, hrun1, hwf1, hN1, hca1, hst1, -⟩ :=
      setLed_spec s c lo k (V.testBit (7 - lo)) h hc (by omega) hk
    obtain ⟨s2, hrun, hwf2, hN, hca, hst⟩ := ih (lo + 1) s1 hwf1 (by rw [hN1]; exact hc)
      (by omega)
    have e : ((lo : Int) + 1) = ((lo + 1 : Nat) : Int) := by push_cast; rfl
    have e7 : (7 - (lo : Int)).toNat = 7 - lo := by omega
    refine ⟨s2, ?_, hwf2, hN.trans hN1, hca.trans hca1, fun j => ?_⟩
    · simp only [forUp, e7, columnBit, hrun1, Option.some_bind, e]
      simp only [e7, columnBit] at hrun
      exact hrun
    · rw [hst j, hst1]
      have hlen := h.2.2.1.1
      have h8 := h.2.1
      have hl : c * 8 + lo < s.status.length := by omega
      by_cases h1 : j = c * 8 + lo
      · have a : ¬ (c * 8 + (lo + 1) ≤ j ∧ j < c * 8 + (lo + 1) + n) := by omega
        have b : c * 8 + lo ≤ j ∧ j < c * 8 + lo + (n + 1) := by omega
        have e3 : j - c * 8 = lo := by omega
        rw [if_neg a, if_pos b, e3, h1]
        simp [List.getD_eq_getElem?_getD, List.getElem?_set, hl, ledByte, mirrorByte]
      · have hne : ¬ (c * 8 + lo = j) := fun hh => h1 hh.symm
        have hg : ∀ x, (s.status.set (c * 8 + lo) x).getD j 0 = s.status.getD j 0 := by
          intro x
          simp [List.getD_eq_getElem?_getD, List.getElem?_set, hne]
        simp only [hg]
        by_cases h2 : c * 8 + (lo + 1) ≤ j ∧ j < c * 8 + (lo + 1) + n
        · have b : c * 8 + lo ≤ j ∧ j < c * 8 + lo + (n + 1) := by omega
          rw [if_pos h2, if_pos b]
        · have b : ¬ (c * 8 + lo ≤ j ∧ j < c * 8 + lo + (n + 1)) := by omega
          rw [if_neg h2, if_neg b]

theorem forUp_eq_foldlM {σ : Type} (f : Int → σ → Option σ) (n : Nat) :
    ∀ (lo : Nat) (s : σ),
      forUp f n (lo : Int) s = (List.range' lo n).foldlM (fun t (row : Nat) => f (row : Int) t) s := by
  induction n with
  | zero => intro lo s; rfl
  | succ n ih =>
    intro lo s
    have e : ((lo : Int) + 1) = ((lo + 1 : Nat) : Int) := by push_cast; rfl
    simp only [forUp, List.range', List.foldlM_cons, e, Option.bind_eq_bind]
    congr 1
    funext t
    exact ih (lo + 1) t

/-! ## Clearing a display -/

/-- The loop of `clearDisplay` over the rows `lo .. lo + n - 1`. -/
theorem clearLoop (c n : Nat) :
    ∀ (lo : Nat) (s : LedControl), WF s → (c : Int) < s.maxDevices → lo + n ≤ 8 →
    ∃ s2, forUp (fun i (t : LedControl) => do
        let st ← writeAt t.status ((c : Int) * 8 + i) 0
        let t := { t with status := st }
        let cur ← readAt t.status ((c : Int) * 8 + i)
        transfer t (c : Int) (toByte (i + 1)) cur false) n (lo : Int) s = some s2 ∧ WF s2 ∧
      s2.maxDevices = s.maxDevices ∧ s2.commonAnode = s.commonAnode ∧
      (∀ j, s2.status.getD j 0 =
        if c * 8 + lo ≤ j ∧ j < c * 8 + lo + n then 0 else s.status.getD j 0) ∧
      (s.commonAnode = false → s2.commonAnodeData = s.commonAnodeData ∧
        s2.bus = s.bus ++ (List.range n).flatMap fun k =>
          frame s.maxDevices.toNat c (lo + k + 1) 0) := by
  induction n with
  | zero =>
    intro lo s h _ _
    refine ⟨s, rfl, h, rfl, rfl, fun j => ?_, fun _ => ⟨rfl, by simp⟩⟩
    have : ¬ (c * 8 + lo ≤ j ∧ j < c * 8 + lo + 0) := by omega
    rw [if_neg this]
  | succ n ih =>
    intro lo s h hc hlo
    obtain ⟨hw, hrb, -, hwf1⟩ := status_store s c lo 0 h hc (by omega)
    obtain ⟨s1, hrun1, hwf1b, hN1, hst1, hca1, hbus1⟩ :=
      transfer_digit _ c lo (0 % 256) false hwf1 hc (by omega)
    obtain ⟨s2, hrun, hwf2, hN, hca, hst, hbus⟩ := ih (lo + 1) s1 hwf1b (by rw [hN1]; exact hc)
      (by omega)
    have e : ((lo : Int) + 1) = ((lo + 1 : Nat) : Int) := by push_cast; rfl
    refine ⟨s2, ?_, hwf2, hN.trans hN1, hca.trans hca1, fun j => ?_, fun hcath => ?_⟩
    · simp only [forUp, hw, hrb, Option.bind_eq_bind, Option.some_bind, hrun1]
      rw [e]
      exact hrun
    · rw [hst j, hst1]
      have hlen := h.2.2.1.1
      have h8 := h.2.1
      have hl : c * 8 + lo < s.status.length := by omega
      by_cases h1 : j = c * 8 + lo
      · have a : ¬ (c * 8 + (lo + 1) ≤ j ∧ j < c * 8 + (lo + 1) + n) := by omega
        have b : c * 8 + lo ≤ j ∧ j < c * 8 + lo + (n + 1) := by omega
        rw [if_neg a, if_pos b, h1]
        simp [List.getD_eq_getElem?_getD, List.getElem?_set, hl]
      · have hne : ¬ (c * 8 + lo = j) := fun hh => h1 hh.symm
        have hg : ∀ x, (s.status.set (c * 8 + lo) x).getD j 0 = s.status.getD j 0 := by
          intro x
          simp [List.getD_eq_getElem?_getD, List.getElem?_set, hne]
        simp only [hg]
        by_cases h2 : c * 8 + (lo + 1) ≤ j ∧ j < c * 8 + (lo + 1) + n
        · have b : c * 8 + lo ≤ j ∧ j < c * 8 + lo + (n + 1) := by omega
          rw [if_pos h2, if_pos b]
        · have b : ¬ (c * 8 + lo ≤ j ∧ j < c * 8 + lo + (n + 1)) := by omega
          rw [if_neg h2, if_neg b]
    · obtain ⟨hcad1, hb1⟩ := hbus1 hcath
      obtain ⟨hcad2, hb2⟩ := hbus (hca1.trans hcath)
      refine ⟨hcad2.trans hcad1, ?_⟩
      rw [hb2, hb1, hN1, List.range_succ_eq_map, List.flatMap_cons, List.flatMap_map]
      simp only [Bool.false_eq_true, if_false, Nat.zero_mod, List.append_assoc, Nat.add_zero]
      congr 2
      apply List.flatMap_congr
      intro x _
      have e2 : lo + 1 + x + 1 = lo + x.succ + 1 := by omega
      simp only [Function.comp, e2]

/-- The loop of `clearDisplay` is a sequence of protocol-layer writes of 0. -/
theorem clearLoop_writes (c n : Nat) :
    ∀ (lo : Nat) (s : LedControl), WF s → (c : Int) < s.maxDevices → lo + n ≤ 8 →
    forUp (fun i (t : LedControl) => do
        let st ← writeAt t.status ((c : Int) * 8 + i) 0
        let t := { t with status := st }
        let cur ← readAt t.status ((c : Int) * 8 + i)
        transfer t (c : Int) (toByte (i + 1)) cur false) n (lo : Int) s =
      (List.range' lo n).foldlM (fun t (i : Nat) =>
        transfer { t with status := t.status.set (c * 8 + i) 0 } (c : Int) (i + 1) 0 false) s := by
  induction n with
  | zero => intro lo s _ _ _; rfl
  | succ n ih =>
    intro lo s h hc hlo
    obtain ⟨hw, hrb, -, hwf1⟩ := status_store s c lo 0 h hc (by omega)
    obtain ⟨s1, hrun1, hwf1b, hN1, -, -, -⟩ :=
      transfer_digit _ c lo (0 % 256) false hwf1 hc (by omega)
    have e : ((lo : Int) + 1) = ((lo + 1 : Nat) : Int) := by push_cast; rfl
    have hbyte : toByte ((lo : Int) + 1) = lo + 1 := by
      unfold toByte; omega
    have ih1 := ih (lo + 1) s1 hwf1b (by rw [hN1]; exact hc) (by omega)
    rw [hbyte] at hrun1
    simp only [Nat.zero_mod] at hrun1 hw hrb
    simp only [forUp, List.range', List.foldlM_cons, hw, hrb, Option.bind_eq_bind,
      Option.some_bind, hbyte, hrun1]
    rw [e]
    exact ih1

/-! ## The sample chains -/

set_option maxRecDepth 1000000 in
/-- The chain `anodeChain` is the one a caller reaches by constructing a one-chip
chain, selecting common-anode wiring and lighting all eight rows. -/
theorem anodeChain_reachable :
    (((construct blank 1).bind fun s =>
        (List.range 8).foldlM (fun t (r : Nat) => setRow t 0 (r : Int) 0xFF)
          (setCommonAnode s true)).map fun t => { t with bus := [] }) = some anodeChain := by
  decide

/-! ## Row writes as protocol-layer writes -/

theorem toByte_succ (r : Nat) (hr : r < 8) : toByte ((r : Int) + 1) = r + 1 := by
  unfold toByte; omega

theorem remapFrames_eq_framesTo (N c : Nat) (cad : List Nat) (opcode data : Nat) :
    remapFrames N c cad opcode data 0 8 = framesTo N c (remapWrites cad opcode data) := by
  unfold remapFrames framesTo remapWrites
  rw [List.flatMap_map]
  apply List.flatMap_congr
  intro k _
  simp

/-- What a row write does, in either wiring mode. -/
theorem digitWrite_spec (s : LedControl) (c r m data : Nat) (reverse : Bool) (h : WF s)
    (hc : (c : Int) < s.maxDevices) (hr : r < 8) (hm : m < 256) :
    ∃ s2, digitWrite s c r m data reverse = some s2 ∧ WF s2 ∧
      s2.maxDevices = s.maxDevices ∧ s2.commonAnode = s.commonAnode ∧
      s2.status = s.status.set (c * 8 + r) m ∧
      (s.commonAnode = false → s2.commonAnodeData = s.commonAnodeData ∧
        s2.bus = s.bus ++ frame s.maxDevices.toNat c (r + 1)
          ((if reverse then flipByte data else data) % 256)) ∧
      (s.commonAnode = true →
        s2.commonAnodeData =
          remapAll s.commonAnodeData (r + 1) (if reverse then flipByte data else data) ∧
        s2.bus = s.bus ++ framesTo s.maxDevices.toNat c
          (remapWrites s.commonAnodeData (r + 1) (if reverse then flipByte data else data))) := by
  obtain ⟨-, -, -, hwf1⟩ := status_store s c r m h hc hr
  rw [Nat.mod_eq_of_lt hm] at hwf1
  unfold digitWrite
  by_cases hca : s.commonAnode = true
  · obtain ⟨s2, a, b, c1, d, e, f, g⟩ :=
      transfer_anode _ c (r + 1) data reverse hwf1 hc (by omega) (by omega) hca
    rw [remapFrames_eq_framesTo] at g
    exact ⟨s2, a, b, c1, e, d, fun hf => (by rw [hf] at hca; cases hca), fun _ => ⟨f, g⟩⟩
  · have hca2 : s.commonAnode = false := by simpa using hca
    obtain ⟨s2, a, b, c1, d, e, f, g⟩ := transfer_cathode _ c (r + 1) data reverse hwf1 hc hca2
    have hm1 : (r + 1) % 256 = r + 1 := by omega
    rw [hm1] at g
    exact ⟨s2, a, b, c1, e, d, fun _ => ⟨f, g⟩, fun hf => (by rw [hf] at hca2; cases hca2)⟩

theorem ledByte_lt_of_wf (s : LedControl) (c r k : Nat) (state : Bool) (h : WF s)
    (hk : k < 8) : ledByte (mirrorByte s c r) k state < 256 :=
  ledByte_lt _ _ _ (h.2.2.1.getD_lt _) hk

theorem setLed_eq_digitWrite (s : LedControl) (c r k : Nat) (state : Bool) (h : WF s)
    (hc : (c : Int) < s.maxDevices) (hr : r < 8) (hk : k < 8) :
    setLed s (c : Int) (r : Int) (k : Int) state =
      digitWrite s c r (ledByte (mirrorByte s c r) k state)
        (ledByte (mirrorByte s c r) k state) false := by
  have ha : ¬ ((c : Int) < 0 ∨ (c : Int) ≥ s.maxDevices) := by omega
  have hb : ¬ ((r : Int) < 0 ∨ (r : Int) > 7 ∨ (k : Int) < 0 ∨ (k : Int) > 7) := by omega
  have hm := mask_eq k hk
  have hnew := ledByte_lt_of_wf s c r k state h hk
  obtain ⟨hw, hrb, hrd, -⟩ := status_store s c r (ledByte (mirrorByte s c r) k state) h hc hr
  rw [Nat.mod_eq_of_lt hnew] at hw hrb
  unfold setLed digitWrite
  rw [if_neg ha, if_neg hb]
  simp only [Int.toNat_ofNat, hm.1, hm.2, hrd, Option.bind_eq_bind, Option.some_bind,
    toByte_succ r hr]
  cases state
  · simp only [ledByte, Bool.false_eq_true, if_false, Option.bind_eq_bind, Option.some_bind]
      at hw hrb ⊢
    rw [show s.status.getD (c * 8 + r) 0 = mirrorByte s c r from rfl, hw]
    simp only [Option.some_bind, hrb]
  · simp only [ledByte, if_true, Option.bind_eq_bind, Option.some_bind] at hw hrb ⊢
    rw [show s.status.getD (c * 8 + r) 0 = mirrorByte s c r from rfl, hw]
    simp only [Option.some_bind, hrb]

theorem setRow_eq_digitWrite (s : LedControl) (c r V : Nat) (h : WF s)
    (hc : (c : Int) < s.maxDevices) (hr : r < 8) :
    setRow s (c : Int) (r : Int) V = digitWrite s c r (V % 256) (V % 256) false := by
  have ha : ¬ ((c : Int) < 0 ∨ (c : Int) ≥ s.maxDevices) := by omega
  have hb : ¬ ((r : Int) < 0 ∨ (r : Int) > 7) := by omega
  obtain ⟨hw, hrb, -, -⟩ := status_store s c r V h hc hr
  unfold setRow digitWrite
  rw [if_neg ha, if_neg hb]
  simp only [hw, hrb, Option.bind_eq_bind, Option.some_bind, toByte_succ r hr]

/-- The glyph byte of `setDigit` and `setChar`: the table entry with the decimal
point in bit 7. -/
theorem glyph_lt (charTable : List Nat) (n i : Nat) (dp : Bool) (hT : IsByteArray n charTable) :
    (if dp then charTable.getD i 0 ||| 0b10000000 else charTable.getD i 0) < 256 := by
  have hg : charTable.getD i 0 < 256 := hT.getD_lt _
  have e : (256 : Nat) = 2 ^ 8 := by norm_num
  split
  · rw [e]; exact Nat.or_lt_two_pow (by rw [← e]; exact hg) (by norm_num)
  · exact hg

theorem setDigit_eq_digitWrite (charTable : List Nat) (s : LedControl) (c d value : Nat)
    (dp reverse : Bool) (h : WF s) (hT : IsByteArray 128 charTable)
    (hc : (c : Int) < s.maxDevices) (hd : d < 8) (hv : value ≤ 15) :
    setDigit charTable s (c : Int) (d : Int) value dp reverse =
      digitWrite s c d
        (if dp then charTable.getD value 0 ||| 0b10000000 else charTable.getD value 0)
        (if dp then charTable.getD value 0 ||| 0b10000000 else charTable.getD value 0)
        reverse := by
  have ha : ¬ ((c : Int) < 0 ∨ (c : Int) ≥ s.maxDevices) := by omega
  have hb : ¬ ((d : Int) < 0 ∨ (d : Int) > 7 ∨ value > 15) := by omega
  have hread : readAt charTable (value : Int) = some (charTable.getD value 0) :=
    readAt_nat _ _ (by rw [hT.1]; omega)
  obtain ⟨hw, -, -, -⟩ := status_store s c d
    (if dp then charTable.getD value 0 ||| 0b10000000 else charTable.getD value 0) h hc hd
  rw [Nat.mod_eq_of_lt (glyph_lt _ _ _ _ hT)] at hw
  unfold setDigit digitWrite
  rw [if_neg ha, if_neg hb]
  simp only [hread, hw, Option.bind_eq_bind, Option.some_bind, toByte_succ d hd]

theorem setChar_eq_digitWrite (charTable : List Nat) (s : LedControl) (c d : Nat)
    (value : Int) (dp reverse : Bool) (h : WF s) (hT : IsByteArray 128 charTable)
    (hc : (c : Int) < s.maxDevices) (hd : d < 8) :
    setChar charTable s (c : Int) (d : Int) value dp reverse =
      digitWrite s c d
        (if dp then charTable.getD (if toByte value > 127 then 32 else toByte value) 0
            ||| 0b10000000
          else charTable.getD (if toByte value > 127 then 32 else toByte value) 0)
        (if dp then charTable.getD (if toByte value > 127 then 32 else toByte value) 0
            ||| 0b10000000
          else charTable.getD (if toByte value > 127 then 32 else toByte value) 0)
        reverse := by
  have ha : ¬ ((c : Int) < 0 ∨ (c : Int) ≥ s.maxDevices) := by omega
  have hb : ¬ ((d : Int) < 0 ∨ (d : Int) > 7) := by omega
  have hidx : (if toByte value > 127 then 32 else toByte value) < charTable.length := by
    rw [hT.1]; split <;> omega
  have hread := readAt_nat charTable _ hidx
  obtain ⟨hw, -, -, -⟩ := status_store s c d
    (if dp then charTable.getD (if toByte value > 127 then 32 else toByte value) 0
        ||| 0b10000000
      else charTable.getD (if toByte value > 127 then 32 else toByte value) 0) h hc hd
  rw [Nat.mod_eq_of_lt (glyph_lt _ _ _ _ hT)] at hw
  unfold setChar digitWrite
  rw [if_neg ha, if_neg hb]
  simp only [hread, hw, Option.bind_eq_bind, Option.some_bind, toByte_succ d hd]

theorem frame_ne_nil (N c opcode data : Nat) : frame N c opcode data ≠ [] := by
  simp [frame]

theorem framesTo_remapWrites_ne_nil (N c : Nat) (cad : List Nat) (opcode data : Nat) :
    framesTo N c (remapWrites cad opcode data) ≠ [] := by
  simp [framesTo, remapWrites, List.range_succ_eq_map, frame]

theorem ledByte_idem (old k : Nat) : ledByte (ledByte old k true) k true = ledByte old k true := by
  simp [ledByte, Nat.lor_assoc]

/-! ## Accumulation of common-anode writes -/

theorem testBit_of_lt_256 (x j : Nat) (hx : x < 256) (hj : 8 ≤ j) : x.testBit j = false := by
  apply Nat.testBit_lt_two_pow
  calc x < 2 ^ 8 := by norm_num; exact hx
    _ ≤ 2 ^ j := Nat.pow_le_pow_right (by norm_num) hj

theorem byte_ext (x y : Nat) (hx : x < 256) (hy : y < 256)
    (hbits : ∀ j, j < 8 → x.testBit j = y.testBit j) : x = y := by
  apply Nat.eq_of_testBit_eq
  intro j
  by_cases hj : j < 8
  · exact hbits j hj
  · rw [testBit_of_lt_256 x j hx (by omega), testBit_of_lt_256 y j hy (by omega)]

theorem writeIndex_inj (r r0 : Nat) (hr : r < 8) (hr0 : r0 < 8) :
    writeIndex (r + 1) = writeIndex (r0 + 1) ↔ r = r0 := by
  unfold writeIndex
  constructor
  · intro h
    split at h <;> split at h <;> omega
  · intro h; rw [h]

theorem writeIndex_surj (j : Nat) (hj : j < 8) :
    ∃ r, r < 8 ∧ writeIndex (r + 1) = j := by
  refine ⟨if j = 7 then 7 else 6 - j, ?_, ?_⟩
  · split <;> omega
  · unfold writeIndex
    by_cases h7 : j = 7
    · simp [h7]
    · rw [if_neg h7]
      have : ¬ (6 - j + 1 = 8) := by omega
      rw [if_neg this]; omega

theorem remapAll_getD (cad : List Nat) (opcode data cS : Nat) (hcS : cS < 8) :
    (remapAll cad opcode data).getD cS 0 = remapByte (cad.getD cS 0) opcode data cS := by
  simp [remapAll, List.getD_eq_getElem?_getD, List.getElem?_map, List.getElem?_range hcS]

theorem framesTo_append (N c : Nat) (a b : List (Nat × Nat)) :
    framesTo N c (a ++ b) = framesTo N c a ++ framesTo N c b := by
  simp [framesTo, List.flatMap_append]

theorem remapWrites_bounds (cad : List Nat) (opcode data : Nat) :
    (remapWrites cad opcode data).length = 8 ∧
      ∀ w ∈ remapWrites cad opcode data, 1 ≤ w.1 ∧ w.1 ≤ 8 ∧ w.2 < 256 := by
  refine ⟨by simp [remapWrites], fun w hw => ?_⟩
  simp only [remapWrites, List.mem_map, List.mem_range] at hw
  obtain ⟨cS, hcS, rfl⟩ := hw
  exact ⟨by omega, by omega, remapByte_lt _ _ _ _⟩

/-- A sequence of row writes to chip `c` in common-anode mode: each accumulator
holds, at the bit of every register written, the bit of the data written to it. -/
theorem anodeWrites (c : Nat) (m d : Nat → Nat) (hm : ∀ r, m r < 256) (p : List Nat) :
    ∀ (s : LedControl), WF s → (c : Int) < s.maxDevices → s.commonAnode = true →
      (∀ r ∈ p, r < 8) →
    ∃ s2 txs, p.foldlM (fun t r => digitWrite t c r (m r) (d r) false) s = some s2 ∧ WF s2 ∧
      s2.maxDevices = s.maxDevices ∧ s2.commonAnode = true ∧
      (∀ cS r, cS < 8 → r < 8 →
        (s2.commonAnodeData.getD cS 0).testBit (writeIndex (r + 1)) =
          if r ∈ p then (d r).testBit (readIndex cS)
          else (s.commonAnodeData.getD cS 0).testBit (writeIndex (r + 1))) ∧
      s2.bus = s.bus ++ framesTo s.maxDevices.toNat c txs ∧ txs.length = 8 * p.length ∧
      (∀ w ∈ txs, 1 ≤ w.1 ∧ w.1 ≤ 8 ∧ w.2 < 256) := by
  induction p with
  | nil =>
    intro s h _ hca _
    exact ⟨s, [], rfl, h, rfl, hca, fun cS r _ _ => by simp, by simp [framesTo], rfl,
      fun w hw => by cases hw⟩
  | cons r0 rest ih =>
    intro s h hc hca hp
    have hr0 : r0 < 8 := hp r0 (List.mem_cons_self _ _)
    obtain ⟨s1, hrun1, hwf1, hN1, hca1, -, -, han1⟩ :=
      digitWrite_spec s c r0 (m r0) (d r0) false h hc hr0 (hm r0)
    obtain ⟨hcad1, hbus1⟩ := han1 hca
    simp only [Bool.false_eq_true, if_false] at hcad1 hbus1
    obtain ⟨s2, txs, hrun2, hwf2, hN2, hca2, hbits, hbus2, hlen, hb⟩ :=
      ih s1 hwf1 (by rw [hN1]; exact hc) (hca1.trans hca)
        (fun r hr => hp r (List.mem_cons_of_mem _ hr))
    obtain ⟨hl0, hb0⟩ := remapWrites_bounds s.commonAnodeData (r0 + 1) (d r0)
    refine ⟨s2, remapWrites s.commonAnodeData (r0 + 1) (d r0) ++ txs, ?_, hwf2,
      hN2.trans hN1, hca2, fun cS r hcS hr => ?_, ?_, ?_, ?_⟩
    · rw [List.foldlM_cons, hrun1]
      exact hrun2
    · rw [hbits cS r hcS hr]
      by_cases hin : r ∈ rest
      · rw [if_pos hin, if_pos (List.mem_cons_of_mem _ hin)]
      · rw [if_neg hin, hcad1, remapAll_getD _ _ _ _ hcS,
          remapByte_testBit _ _ _ _ _ (writeIndex_lt _)]
        by_cases he : r = r0
        · rw [if_pos (by rw [he]), if_pos (by rw [he]; exact List.mem_cons_self _ _), he]
        · have hne : ¬ (writeIndex (r + 1) = writeIndex (r0 + 1)) :=
            fun hh => he ((writeIndex_inj r r0 hr hr0).1 hh)
          have hnin : ¬ (r ∈ r0 :: rest) := by
            intro hmem
            rcases List.mem_cons.1 hmem with hh | hh
            · exact he hh
            · exact hin hh
          rw [if_neg hne, if_neg hnin]
    · rw [hbus2, hbus1, hN1, framesTo_append, List.append_assoc]
    · simp only [List.length_append, hl0, hlen, List.length_cons]; omega
    · intro w hw
      rcases List.mem_append.1 hw with hh | hh
      · exact hb0 w hh
      · exact hb w hh

theorem foldlM_congr_inv {σ α : Type} (P : σ → Prop) (f g : σ → α → Option σ) (l : List α)
    (hfg : ∀ t a, P t → a ∈ l → f t a = g t a)
    (hP : ∀ t a t2, P t → a ∈ l → g t a = some t2 → P t2) :
    ∀ s, P s → l.foldlM f s = l.foldlM g s := by
  induction l with
  | nil => intro s _; rfl
  | cons a rest ih =>
    intro s hs
    rw [List.foldlM_cons, List.foldlM_cons, hfg s a hs (List.mem_cons_self _ _)]
    cases hg : g s a with
    | none => rfl
    | some t2 =>
      simp only [Option.bind_eq_bind, Option.some_bind]
      exact ih (fun t b ht hb => hfg t b ht (List.mem_cons_of_mem _ hb))
        (fun t b t3 ht hb => hP t b t3 ht (List.mem_cons_of_mem _ hb)) t2
        (hP s a t2 hs (List.mem_cons_self _ _) hg)

/-- A sequence of `setRow` calls on chip `c` is a sequence of row writes. -/
theorem setRow_fold (c : Nat) (d : Nat → Nat) (p : List Nat) (hp : ∀ r ∈ p, r < 8)
    (s : LedControl) (h : WF s) (hc : (c : Int) < s.maxDevices) :
    p.foldlM (fun t (r : Nat) => setRow t (c : Int) (r : Int) (d r)) s =
      p.foldlM (fun t r => digitWrite t c r (d r % 256) (d r % 256) false) s := by
  apply foldlM_congr_inv (fun t => WF t ∧ t.maxDevices = s.maxDevices)
  · intro t r ht hr
    exact setRow_eq_digitWrite t c r (d r) ht.1 (by rw [ht.2]; exact hc) (hp r hr)
  · intro t r t2 ht hr hrun
    obtain ⟨s2, hrun2, hwf2, hN2, -⟩ := digitWrite_spec t c r (d r % 256) (d r % 256) false
      ht.1 (by rw [ht.2]; exact hc) (hp r hr) (Nat.mod_lt _ (by norm_num))
    rw [hrun2] at hrun
    cases hrun
    exact ⟨hwf2, hN2.trans ht.2⟩
  · exact ⟨h, rfl⟩

theorem lastData_append_blank (front : List (Nat × Nat)) (reg : Nat) (h1 : 1 ≤ reg)
    (h8 : reg ≤ 8) : lastData reg (front ++ blankWrites) = some 0 := by
  have hb : (blankWrites.filter fun w => w.1 = reg) = [(reg, 0)] := by
    unfold blankWrites
    interval_cases reg <;> decide
  simp [lastData, List.filter_append, hb]

/-- What `clearDisplay` does to a chip in common-anode mode. -/
theorem clearDisplay_anode (s : LedControl) (c : Nat) (h : WF s)
    (hc : (c : Int) < s.maxDevices) (hca : s.commonAnode = true) :
    ∃ s2 front, clearDisplay s (c : Int) = some s2 ∧ WF s2 ∧
      s2.maxDevices = s.maxDevices ∧ s2.commonAnode = true ∧
      s2.commonAnodeData = List.replicate 8 0 ∧
      s2.bus = s.bus ++ framesTo s.maxDevices.toNat c (front ++ blankWrites) ∧
      front.length = 56 ∧ (∀ w ∈ front, 1 ≤ w.1 ∧ w.1 ≤ 8 ∧ w.2 < 256) := by
  have ha : ¬ ((c : Int) < 0 ∨ (c : Int) ≥ s.maxDevices) := by omega
  have hdec := clearLoop_writes c 8 0 s h hc (by omega)
  have hfold : clearDisplay s (c : Int) =
      (List.range 7 ++ [7]).foldlM (fun t r => digitWrite t c r 0 0 false) s := by
    have e : clearDisplay s (c : Int) = forUp (fun i (t : LedControl) => do
        let st ← writeAt t.status ((c : Int) * 8 + i) 0
        let t := { t with status := st }
        let cur ← readAt t.status ((c : Int) * 8 + i)
        transfer t (c : Int) (toByte (i + 1)) cur false) 8 ((0 : Nat) : Int) s := by
      unfold clearDisplay
      rw [if_neg ha]
      rfl
    rw [e, hdec]
    rfl
  obtain ⟨s7, front, hrun7, hwf7, hN7, hca7, hbits7, hbus7, hlen7, hb7⟩ :=
    anodeWrites c (fun _ => 0) (fun _ => 0) (fun _ => by norm_num) (List.range 7) s h hc hca
      (fun r hr => by have := List.mem_range.1 hr; omega)
  obtain ⟨s2, hrun2, hwf2, hN2, hca2, -, -, han2⟩ :=
    digitWrite_spec s7 c 7 0 0 false hwf7 (by rw [hN7]; exact hc) (by omega) (by norm_num)
  obtain ⟨hcad2, hbus2⟩ := han2 hca7
  simp only [Bool.false_eq_true, if_false] at hcad2 hbus2
  have hzero : ∀ cS, cS < 8 → remapByte (s7.commonAnodeData.getD cS 0) 8 0 cS = 0 := by
    intro cS hcS
    apply byte_ext _ _ (remapByte_lt _ _ _ _) (by norm_num)
    intro j hj
    rw [remapByte_testBit _ _ _ _ _ hj]
    simp only [Nat.zero_testBit]
    by_cases hw : j = writeIndex 8
    · rw [if_pos hw]
    · rw [if_neg hw]
      obtain ⟨r, hr, hrj⟩ := writeIndex_surj j hj
      have hr7 : r ≠ 7 := by
        intro h7
        apply hw
        rw [← hrj, h7]
      have hmem : r ∈ List.range 7 := List.mem_range.2 (by omega)
      rw [← hrj, hbits7 cS r hcS hr, if_pos hmem]
      simp only [Nat.zero_testBit]
  have hwrites : remapWrites s7.commonAnodeData 8 0 = blankWrites := by
    unfold remapWrites blankWrites
    apply List.map_congr_left
    intro cS hmem
    rw [hzero cS (List.mem_range.1 hmem)]
  refine ⟨s2, front, ?_, hwf2, hN2.trans hN7, hca2.trans hca7, ?_, ?_, ?_, hb7⟩
  · rw [hfold, List.foldlM_append, hrun7]
    simp only [Option.bind_eq_bind, Option.some_bind, List.foldlM_cons, List.foldlM_nil, hrun2]
    rfl
  · rw [hcad2]
    apply List.ext_getElem
    · simp [remapAll]
    · intro cS h1 h2
      have hcS : cS < 8 := by simpa [remapAll] using h1
      rw [List.getElem_replicate]
      simp only [remapAll, List.getElem_map, List.getElem_range]
      exact hzero cS hcS
  · rw [hbus2, hbus7, hN7, hwrites, framesTo_append, List.append_assoc]
  · simpa using hlen7

/-! ## Reading a bus trace -/

theorem scan_bytes (bytes : List Nat) : ∀ (acc : List (List Nat)) (cur : List Nat),
    (bytes.map BusEvent.shiftOut).foldl scanEvent (acc, some cur) = (acc, some (cur ++ bytes)) := by
  induction bytes with
  | nil => intro acc cur; simp
  | cons b rest ih =>
    intro acc cur
    simp only [List.map_cons, List.foldl_cons, scanEvent]
    rw [ih]
    simp

theorem scan_frame (N c opcode data : Nat) (acc : List (List Nat)) :
    (frame N c opcode data).foldl scanEvent (acc, none)
      = (acc ++ [frameBytes N c opcode data], none) := by
  simp only [frame, List.foldl_cons, List.foldl_append, scanEvent, Option.getD_none, scan_bytes,
    List.foldl_nil, List.nil_append]

theorem scanTrace_frame (t : List BusEvent) (N c opcode data : Nat) (hidle : Idle t) :
    scanTrace (t ++ frame N c opcode data)
      = ((scanTrace t).1 ++ [frameBytes N c opcode data], none) := by
  unfold Idle at hidle
  unfold scanTrace at *
  rw [List.foldl_append]
  have e : List.foldl scanEvent ([], none) t = ((List.foldl scanEvent ([], none) t).1, none) :=
    Prod.ext rfl hidle
  rw [e, scan_frame]

theorem latched_frameBytes (N c i opcode data : Nat) (hc : c < N) (hi : i < N) :
    latched i (frameBytes N c opcode data) = some (if i = c then (opcode, data) else (0, 0)) := by
  have hlen : (frameBytes N c opcode data).length = 2 * N := by simp [frameBytes]
  have h1 : 2 * N - 2 * i - 2 < 2 * N := by omega
  have h2 : 2 * N - 2 * i - 1 < 2 * N := by omega
  unfold latched
  rw [hlen, if_pos (by omega)]
  simp only [frameBytes, List.getD_eq_getElem?_getD, List.getElem?_map, List.getElem?_range h1,
    List.getElem?_range h2, Option.map_some', Option.getD_some]
  by_cases hic : i = c
  · have a : 2 * N - 2 * i - 2 = 2 * (N - 1 - c) := by omega
    have b : ¬ (2 * N - 2 * i - 1 = 2 * (N - 1 - c)) := by omega
    have d : 2 * N - 2 * i - 1 = 2 * (N - 1 - c) + 1 := by omega
    rw [if_pos a, if_neg b, if_pos d, if_pos hic]
  · have a : ¬ (2 * N - 2 * i - 2 = 2 * (N - 1 - c)) := by omega
    have a2 : ¬ (2 * N - 2 * i - 2 = 2 * (N - 1 - c) + 1) := by omega
    have b : ¬ (2 * N - 2 * i - 1 = 2 * (N - 1 - c)) := by omega
    have d : ¬ (2 * N - 2 * i - 1 = 2 * (N - 1 - c) + 1) := by omega
    rw [if_neg a, if_neg a2, if_neg b, if_neg d, if_neg hic]

/-- One transaction on an idle bus: chip `c` receives the write, the other chips
receive NOOP. -/
theorem chipWrites_frame (t : List BusEvent) (N c i opcode data : Nat) (hidle : Idle t)
    (hc : c < N) (hi : i < N) (hop : opcode ≠ 0) :
    Idle (t ++ frame N c opcode data) ∧
    chipWrites i (t ++ frame N c opcode data)
      = chipWrites i t ++ (if i = c then [(opcode, data)] else []) := by
  have hs := scanTrace_frame t N c opcode data hidle
  constructor
  · unfold Idle; rw [hs]
  · unfold chipWrites
    rw [hs, List.filterMap_append]
    congr 1
    simp only [List.filterMap_cons, List.filterMap_nil, latched_frameBytes N c i opcode data hc hi]
    by_cases hic : i = c
    · simp [hic, hop]
    · simp [hic]

/-- Transactions addressed to chip `c` on an idle bus. -/
theorem chipWrites_framesTo (N c i : Nat) (hc : c < N) (hi : i < N) (txs : List (Nat × Nat)) :
    ∀ (t : List BusEvent), Idle t → (∀ w ∈ txs, w.1 ≠ 0) →
    Idle (t ++ framesTo N c txs) ∧
    chipWrites i (t ++ framesTo N c txs) = chipWrites i t ++ (if i = c then txs else []) := by
  induction txs with
  | nil => intro t hidle _; simp [framesTo, hidle]
  | cons w rest ih =>
    intro t hidle hne
    obtain ⟨hidle1, hw1⟩ := chipWrites_frame t N c i w.1 w.2 hidle hc hi
      (hne w (List.mem_cons_self _ _))
    obtain ⟨hidle2, hw2⟩ := ih (t ++ frame N c w.1 w.2) hidle1
      (fun x hx => hne x (List.mem_cons_of_mem _ hx))
    have e : t ++ framesTo N c (w :: rest) = t ++ frame N c w.1 w.2 ++ framesTo N c rest := by
      simp [framesTo, List.append_assoc]
    rw [e]
    refine ⟨hidle2, ?_⟩
    rw [hw2, hw1]
    by_cases hic : i = c <;> simp [hic]

theorem lastData_append_single (reg opcode data : Nat) (ws : List (Nat × Nat)) :
    lastData reg (ws ++ [(opcode, data)])
      = if opcode = reg then some data else lastData reg ws := by
  unfold lastData
  rw [List.filter_append]
  by_cases h : opcode = reg
  · simp [h]
  · simp [h]

/-! ## Clearing a display, in either mode -/

theorem clearDisplay_spec (s : LedControl) (c : Nat) (h : WF s) (hc : (c : Int) < s.maxDevices) :
    ∃ s2 front, clearDisplay s (c : Int) = some s2 ∧ WF s2 ∧
      s2.maxDevices = s.maxDevices ∧ s2.commonAnode = s.commonAnode ∧
      (∀ j, s2.status.getD j 0 = if c * 8 ≤ j ∧ j < c * 8 + 8 then 0 else s.status.getD j 0) ∧
      s2.bus = s.bus ++ framesTo s.maxDevices.toNat c (front ++ blankWrites) ∧
      (∀ w ∈ front, 1 ≤ w.1 ∧ w.1 ≤ 8 ∧ w.2 < 256) ∧
      (s.commonAnode = false → front = [] ∧ s2.commonAnodeData = s.commonAnodeData) ∧
      (s.commonAnode = true → front.length = 56 ∧ s2.commonAnodeData = List.replicate 8 0) := by
  have ha : ¬ ((c : Int) < 0 ∨ (c : Int) ≥ s.maxDevices) := by omega
  obtain ⟨s2, hrun, hwf2, hN2, hca2, hst, hbus⟩ := clearLoop c 8 0 s h hc (by omega)
  have hrun2 : clearDisplay s (c : Int) = some s2 := by
    unfold clearDisplay
    rw [if_neg ha]
    exact hrun
  have hst2 : ∀ j, s2.status.getD j 0
      = if c * 8 ≤ j ∧ j < c * 8 + 8 then 0 else s.status.getD j 0 := by
    intro j
    rw [hst j]
    simp only [Nat.add_zero]
  by_cases hca : s.commonAnode = true
  · obtain ⟨s3, front, hrun3, -, -, -, hcad, hbus3, hlen, hb⟩ := clearDisplay_anode s c h hc hca
    rw [hrun2] at hrun3
    cases hrun3
    exact ⟨s2, front, hrun2, hwf2, hN2, hca2, hst2, hbus3, hb,
      fun hf => (by rw [hf] at hca; cases hca), fun _ => ⟨hlen, hcad⟩⟩
  · have hca0 : s.commonAnode = false := by simpa using hca
    obtain ⟨hcad, hb⟩ := hbus hca0
    refine ⟨s2, [], hrun2, hwf2, hN2, hca2, hst2, ?_, fun w hw => (by cases hw),
      fun _ => ⟨rfl, hcad⟩, fun hf => (by rw [hf] at hca0; cases hca0)⟩
    rw [hb]
    simp [framesTo, blankWrites, List.flatMap_map]

/-! ## Construction -/

theorem zeroLoop_gen {σ : Type} (get : σ → List Nat) (set : σ → List Nat → σ)
    (hgs : ∀ t l, get (set t l) = l) (hss : ∀ t l l2, set (set t l) l2 = set t l2)
    (hsg : ∀ t, set t (get t) = t) (n : Nat) :
    ∀ (i : Nat) (s : σ) (rest : List Nat), get s = List.replicate i 0 ++ rest →
      n ≤ rest.length →
      forUp (fun i t => (writeAt (get t) i 0).bind fun l => some (set t l)) n (i : Int) s
        = some (set s (List.replicate (i + n) 0 ++ rest.drop n)) := by
  induction n with
  | zero =>
    intro i s rest h _
    simp [forUp, ← h, hsg]
  | succ n ih =>
    intro i s rest h hn
    cases rest with
    | nil => simp at hn
    | cons x rest =>
      have hlen : i < (get s).length := by simp [h]
      have hset : (get s).set i 0 = List.replicate (i + 1) 0 ++ rest := by
        rw [h, List.replicate_succ', List.append_assoc]
        simp [List.set_append]
      have := ih (i + 1) (set s ((get s).set i 0)) rest (by rw [hgs, hset]) (by simpa using hn)
      have e : ((i : Int) + 1) = ((i + 1 : Nat) : Int) := by push_cast; rfl
      simp only [forUp, writeAt_nat _ _ _ hlen, Option.bind_eq_bind, Option.some_bind,
        Nat.zero_mod, e]
      rw [this, hss]
      simp [Nat.add_assoc, Nat.add_comm 1 n]

theorem blankWrites_bounds : ∀ w ∈ blankWrites, 1 ≤ w.1 ∧ w.1 ≤ 8 ∧ w.2 < 256 := by
  decide

theorem InitLog.ne_zero {log : List (Nat × Nat)} (h : InitLog log) : ∀ w ∈ log, w.1 ≠ 0 := by
  obtain ⟨front, rfl, hf⟩ := h
  intro w hw
  simp only [List.mem_append, List.mem_cons, List.mem_singleton, List.not_mem_nil, or_false]
    at hw
  rcases hw with ((h1 | h1) | h1) | h1
  · rcases h1 with h1 | h1 | h1 <;> rw [h1] <;> decide
  · have := (hf w h1).1; omega
  · have := (blankWrites_bounds w h1).1; omega
  · rw [h1]; decide

/-- One call of the bus driver, with the result kept abstract. -/
theorem spiTransfer_ex (s : LedControl) (c opcode data : Nat) (h : WF s)
    (hc : (c : Int) < s.maxDevices) (hop : opcode < 256) (hd : data < 256) :
    ∃ s2, spiTransfer s (c : Int) opcode data = some s2 ∧ WF s2 ∧
      s2.maxDevices = s.maxDevices ∧ s2.commonAnode = s.commonAnode ∧
      s2.status = s.status ∧ s2.commonAnodeData = s.commonAnodeData ∧
      s2.bus = s.bus ++ frame s.maxDevices.toNat c opcode data := by
  obtain ⟨hrun, hwf⟩ := spiTransfer_wf s c opcode data h hc
  refine ⟨_, hrun, hwf, rfl, rfl, rfl, rfl, ?_⟩
  simp [Nat.mod_eq_of_lt hop, Nat.mod_eq_of_lt hd]

/-- The constructor's work on chip `i`. -/
theorem chipInit_spec (s : LedControl) (i : Nat) (h : WF s) (hi : (i : Int) < s.maxDevices)
    (hzero : ∀ j, s.status.getD j 0 = 0) :
    ∃ s2 log, (do
        let t ← spiTransfer s (i : Int) OP_DISPLAYTEST 0
        let t ← setScanLimit t (i : Int) 7
        let t ← spiTransfer t (i : Int) OP_DECODEMODE 0
        let t ← clearDisplay t (i : Int)
        shutdown t (i : Int) true) = some s2 ∧ WF s2 ∧
      s2.maxDevices = s.maxDevices ∧ s2.commonAnode = s.commonAnode ∧
      (∀ j, s2.status.getD j 0 = 0) ∧
      s2.bus = s.bus ++ framesTo s.maxDevices.toNat i log ∧ InitLog log := by
  have ha : ∀ t : LedControl, t.maxDevices = s.maxDevices →
      ¬ ((i : Int) < 0 ∨ (i : Int) ≥ t.maxDevices) := by
    intro t ht; rw [ht]; omega
  obtain ⟨s1, hrun1, hwf1, hN1, hca1, hst1, -, hbus1⟩ :=
    spiTransfer_ex s i OP_DISPLAYTEST 0 h hi (by decide) (by decide)
  have hi1 : (i : Int) < s1.maxDevices := by rw [hN1]; exact hi
  obtain ⟨s2, hrun2, hwf2, hN2, hca2, hst2, -, hbus2⟩ :=
    spiTransfer_ex s1 i OP_SCANLIMIT 7 hwf1 hi1 (by decide) (by decide)
  have hi2 : (i : Int) < s2.maxDevices := by rw [hN2]; exact hi1
  obtain ⟨s3, hrun3, hwf3, hN3, hca3, hst3, -, hbus3⟩ :=
    spiTransfer_ex s2 i OP_DECODEMODE 0 hwf2 hi2 (by decide) (by decide)
  have hi3 : (i : Int) < s3.maxDevices := by rw [hN3]; exact hi2
  obtain ⟨s4, front, hrun4, hwf4, hN4, hca4, hst4, hbus4, hb4, -, -⟩ :=
    clearDisplay_spec s3 i hwf3 hi3
  have hi4 : (i : Int) < s4.maxDevices := by rw [hN4]; exact hi3
  obtain ⟨s5, hrun5, hwf5, hN5, hca5, hst5, -, hbus5⟩ :=
    spiTransfer_ex s4 i OP_SHUTDOWN 0 hwf4 hi4 (by decide) (by decide)
  have hl : (7 : Int) ≥ 0 ∧ (7 : Int) < 8 := by omega
  have hscan : setScanLimit s1 (i : Int) 7 = some s2 := by
    unfold setScanLimit
    rw [if_neg (ha s1 hN1), if_pos hl]
    exact hrun2
  have hshut : shutdown s4 (i : Int) true = some s5 := by
    unfold shutdown
    rw [if_neg (ha s4 (by rw [hN4, hN3, hN2, hN1])), if_pos rfl]
    exact hrun5
  have eN : s4.maxDevices = s.maxDevices := by rw [hN4, hN3, hN2, hN1]
  refine ⟨s5, [(15, 0), (11, 7), (9, 0)] ++ front ++ blankWrites ++ [(12, 0)], ?_, hwf5,
    hN5.trans eN, ?_, fun j => ?_, ?_, ⟨front, rfl, hb4⟩⟩
  · simp only [Option.bind_eq_bind, hrun1, Option.some_bind, hscan, hrun3, hrun4, hshut]
  · rw [hca5, hca4, hca3, hca2, hca1]
  · rw [hst5, hst4 j, hst3, hst2, hst1]
    split
    · rfl
    · exact hzero j
  · rw [hbus5, hbus4, hbus3, hbus2, hbus1, hN4, hN3, hN2, hN1]
    simp [framesTo, OP_DISPLAYTEST, OP_SCANLIMIT, OP_DECODEMODE, OP_SHUTDOWN, List.append_assoc]

/-- The constructor's loop over the chips `lo .. lo + n - 1`. -/
theorem constructLoop (n : Nat) :
    ∀ (lo : Nat) (s : LedControl), WF s → ((lo + n : Nat) : Int) ≤ s.maxDevices →
      (∀ j, s.status.getD j 0 = 0) →
    ∃ s2, forUp (fun i (t : LedControl) => do
        let t ← spiTransfer t i OP_DISPLAYTEST 0
        let t ← setScanLimit t i 7
        let t ← spiTransfer t i OP_DECODEMODE 0
        let t ← clearDisplay t i
        shutdown t i true) n (lo : Int) s = some s2 ∧ WF s2 ∧
      s2.maxDevices = s.maxDevices ∧ s2.commonAnode = s.commonAnode ∧
      (∀ j, s2.status.getD j 0 = 0) ∧
      (Idle s.bus → Idle s2.bus ∧ ∀ i : Nat, (i : Int) < s.maxDevices →
        ∃ log, chipWrites i s2.bus = chipWrites i s.bus ++ log ∧
          ((lo ≤ i ∧ i < lo + n) → InitLog log) ∧ (¬ (lo ≤ i ∧ i < lo + n) → log = [])) := by
  induction n with
  | zero =>
    intro lo s h _ hz
    refine ⟨s, rfl, h, rfl, rfl, hz, fun hidle => ⟨hidle, fun i _ => ⟨[], by simp, ?_, ?_⟩⟩⟩
    · intro hh; omega
    · intro _; rfl
  | succ n ih =>
    intro lo s h hlo hz
    have hi : (lo : Int) < s.maxDevices := by push_cast at hlo; omega
    obtain ⟨s1, log0, hrun1, hwf1, hN1, hca1, hz1, hbus1, hlog0⟩ := chipInit_spec s lo h hi hz
    obtain ⟨s2, hrun2, hwf2, hN2, hca2, hz2, htr⟩ :=
      ih (lo + 1) s1 hwf1 (by rw [hN1]; push_cast at hlo ⊢; omega) hz1
    have e : ((lo : Int) + 1) = ((lo + 1 : Nat) : Int) := by push_cast; rfl
    refine ⟨s2, ?_, hwf2, hN2.trans hN1, hca2.trans hca1, hz2, fun hidle => ?_⟩
    · simp only [forUp]
      rw [hrun1]
      simp only [Option.some_bind, e]
      exact hrun2
    · have hNn : (lo : Int) < ((s.maxDevices.toNat : Nat) : Int) := by
        have := h.1; omega
      have hlt : lo < s.maxDevices.toNat := by exact_mod_cast hNn
      have hidle1 : Idle s1.bus := by
        rw [hbus1]
        exact (chipWrites_framesTo _ lo lo hlt hlt log0 s.bus hidle hlog0.ne_zero).1
      obtain ⟨hidle2, hlogs⟩ := htr hidle1
      refine ⟨hidle2, fun i hiN => ?_⟩
      have hilt : i < s.maxDevices.toNat := by
        have := h.1; omega
      obtain ⟨log, hw, hin, hout⟩ := hlogs i (by rw [hN1]; exact hiN)
      have hw1 := (chipWrites_framesTo _ lo i hlt hilt log0 s.bus hidle hlog0.ne_zero).2
      rw [← hbus1] at hw1
      rw [hw1, List.append_assoc] at hw
      refine ⟨_, hw, fun hrange => ?_, fun hnot => ?_⟩
      · by_cases hil : i = lo
        · rw [if_pos hil, hout (by omega), List.append_nil]
          exact hlog0
        · rw [if_neg hil, List.nil_append]
          exact hin (by omega)
      · have hil : ¬ (i = lo) := by omega
        rw [if_neg hil, hout (by omega)]
        rfl

theorem idle_select_high (t : List BusEvent) (i : Nat) (hidle : Idle t) :
    Idle (t ++ [BusEvent.select true]) ∧
      chipWrites i (t ++ [BusEvent.select true]) = chipWrites i t := by
  unfold Idle at hidle
  have e : scanTrace (t ++ [BusEvent.select true]) = ((scanTrace t).1, none) := by
    unfold scanTrace at *
    rw [List.foldl_append]
    simp [scanEvent, hidle]
  constructor
  · unfold Idle; rw [e]
  · unfold chipWrites; rw [e]

theorem eq_replicate_zero (l : List Nat) (n : Nat) (hlen : l.length = n)
    (hz : ∀ j, l.getD j 0 = 0) : l = List.replicate n 0 := by
  apply List.ext_getElem
  · simp [hlen]
  · intro j h1 h2
    have := hz j
    rw [List.getD_eq_getElem?_getD, List.getElem?_eq_getElem h1] at this
    simpa using this

/-- What the constructor establishes. -/
theorem construct_spec (pre : LedControl) (numDevices : Int) (hpre : Allocated pre) :
    ∃ s, construct pre numDevices = some s ∧ WF s ∧
      s.maxDevices = (if numDevices ≤ 0 ∨ numDevices > 8 then 8 else numDevices) ∧
      s.status = List.replicate 64 0 ∧ s.commonAnode = false ∧
      s.commonAnodeData = List.replicate 8 0 ∧
      (Idle pre.bus → Idle s.bus ∧ ∀ i : Nat, (i : Int) < s.maxDevices →
        ∃ log, chipWrites i s.bus = chipWrites i pre.bus ++ log ∧ InitLog log) := by
  obtain ⟨hst, hsd, hcad⟩ := hpre
  have hclamp : 1 ≤ (if numDevices ≤ 0 ∨ numDevices > 8 then 8 else numDevices) ∧
      (if numDevices ≤ 0 ∨ numDevices > 8 then 8 else numDevices) ≤ 8 := by
    split <;> omega
  generalize hNdef : (if numDevices ≤ 0 ∨ numDevices > 8 then 8 else numDevices) = N
    at hclamp ⊢
  have hz1 := zeroLoop_gen (fun t : LedControl => t.status)
    (fun t l => { t with status := l }) (fun _ _ => rfl) (fun _ _ _ => rfl) (fun _ => rfl) 64 0
    { pre with maxDevices := N, bus := pre.bus ++ [BusEvent.select true] } pre.status
    (by simp) (by rw [hst.1])
  have hdrop : List.drop 64 pre.status = [] := by
    apply List.drop_eq_nil_of_le; rw [hst.1]
  simp only [Nat.zero_add, hdrop, List.append_nil, Nat.cast_zero] at hz1
  have hwf1 : WF { ({ pre with maxDevices := N, bus := pre.bus ++ [BusEvent.select true] } :
      LedControl) with status := List.replicate 64 0 } :=
    ⟨hclamp.1, hclamp.2, ⟨by simp, fun b hb => by rw [(List.mem_replicate.1 hb).2]; decide⟩,
      hsd, hcad⟩
  obtain ⟨s2, hrun2, hwf2, hN2, hca2, hz2, htr⟩ := constructLoop N.toNat 0 _ hwf1
    (by show ((0 + N.toNat : Nat) : Int) ≤ N; omega)
    (by intro j; rw [List.getD_eq_getElem?_getD, List.getElem?_replicate]; split <;> rfl)
  replace hN2 : s2.maxDevices = N := hN2
  have hz3 := zeroLoop_gen (fun t : LedControl => t.commonAnodeData)
    (fun t l => { t with commonAnodeData := l }) (fun _ _ => rfl) (fun _ _ _ => rfl)
    (fun _ => rfl) 8 0 { s2 with commonAnode := false } s2.commonAnodeData
    (by simp) (by rw [hwf2.2.2.2.2.1])
  have hdrop3 : List.drop 8 s2.commonAnodeData = [] := by
    apply List.drop_eq_nil_of_le; rw [hwf2.2.2.2.2.1]
  simp only [Nat.zero_add, hdrop3, List.append_nil, Nat.cast_zero] at hz3
  refine ⟨{ s2 with commonAnode := false, commonAnodeData := List.replicate 8 0 }, ?_,
    ⟨hwf2.1, hwf2.2.1, hwf2.2.2.1, hwf2.2.2.2.1,
      ⟨by simp, fun b hb => by rw [(List.mem_replicate.1 hb).2]; decide⟩⟩,
    hN2, eq_replicate_zero _ _ hwf2.2.2.1.1 hz2, rfl, rfl, fun hidle => ?_⟩
  · unfold construct
    simp only [Option.bind_eq_bind, Option.pure_def, hNdef] at hz1 hrun2 hz3 ⊢
    rw [hz1]
    simp only [Option.some_bind, Nat.cast_zero] at hrun2 ⊢
    rw [hrun2]
    simp only [Option.some_bind]
    exact hz3
  · obtain ⟨hidle2, hlogs⟩ := htr (idle_select_high pre.bus 0 hidle).1
    refine ⟨hidle2, fun i hi => ?_⟩
    obtain ⟨log, hw, hin, -⟩ := hlogs i (by rw [← hN2]; exact hi)
    have hiN : i < N.toNat := by
      have : (i : Int) < N := by rw [← hN2]; exact hi
      omega
    refine ⟨log, ?_, hin (by omega)⟩
    rw [hw]
    show chipWrites i (pre.bus ++ [BusEvent.select true]) ++ log = _
    rw [(idle_select_high pre.bus i hidle).2]

/-! ## The mirror and the chips, in common-cathode mode -/

theorem Mirrored.congr_flags {s : LedControl} {g g2 : Nat → Nat → Bool} (h : Mirrored s g)
    (hg : ∀ c r : Nat, (c : Int) < s.maxDevices → r < 8 → g2 c r = g c r) : Mirrored s g2 := by
  intro c r hc hr
  rw [hg c r hc hr]
  exact h c r hc hr

theorem toNat_lt_of_wf {s : LedControl} (h : WF s) (c : Nat) (hc : (c : Int) < s.maxDevices) :
    c < s.maxDevices.toNat := by
  have := h.1
  omega

/-- A write of mirror byte `(c, r)` to register `r + 1` of chip `c`. -/
theorem mirrored_rowWrite (s s2 : LedControl) (g : Nat → Nat → Bool) (c r m : Nat) (f : Bool)
    (h : WF s) (hc : (c : Int) < s.maxDevices) (hr : r < 8)
    (hN : s2.maxDevices = s.maxDevices) (hst : s2.status = s.status.set (c * 8 + r) m)
    (hbus : s2.bus = s.bus ++ frame s.maxDevices.toNat c (r + 1)
      (if f then flipByte m else m))
    (hidle : Idle s.bus) (hmir : Mirrored s g) :
    Idle s2.bus ∧ Mirrored s2 (fun c2 r2 => if c2 = c ∧ r2 = r then f else g c2 r2) := by
  have hcN := toNat_lt_of_wf h c hc
  constructor
  · rw [hbus]
    exact (chipWrites_frame s.bus _ c c (r + 1) _ hidle hcN hcN (by omega)).1
  · intro c2 r2 hc2 hr2
    rw [hN] at hc2
    have hc2N := toNat_lt_of_wf h c2 hc2
    obtain ⟨hm, hothers⟩ := mirrorByte_set s s2 c r m hr h hc hst
    unfold lastWrite
    rw [hbus, (chipWrites_frame s.bus _ c c2 (r + 1) _ hidle hcN hc2N (by omega)).2]
    beta_reduce
    by_cases hcc : c2 = c
    · rw [if_pos hcc, lastData_append_single]
      by_cases hrr : r2 = r
      · have e1 : r + 1 = r2 + 1 := by rw [hrr]
        have e2 : c2 = c ∧ r2 = r := ⟨hcc, hrr⟩
        rw [if_pos e1, if_pos e2, hcc, hrr, hm]
      · have hne : ¬ (r + 1 = r2 + 1) := by omega
        have hne2 : ¬ (c2 = c ∧ r2 = r) := fun hh => hrr hh.2
        have hpair : (c2, r2) ≠ (c, r) := by
          intro hh
          exact hrr (Prod.mk.inj hh).2
        rw [if_neg hne, if_neg hne2, hothers c2 r2 hr2 hpair]
        exact hmir c2 r2 hc2 hr2
    · have hne2 : ¬ (c2 = c ∧ r2 = r) := fun hh => hcc hh.1
      have hpair : (c2, r2) ≠ (c, r) := by
        intro hh
        exact hcc (Prod.mk.inj hh).1
      rw [if_neg hcc, List.append_nil, if_neg hne2, hothers c2 r2 hr2 hpair]
      exact hmir c2 r2 hc2 hr2

/-- A configuration write leaves the agreement alone. -/
theorem mirrored_config (s s2 : LedControl) (g : Nat → Nat → Bool) (c opcode data : Nat)
    (h : WF s) (hc : (c : Int) < s.maxDevices) (hop : 8 < opcode)
    (hN : s2.maxDevices = s.maxDevices) (hst : s2.status = s.status)
    (hbus : s2.bus = s.bus ++ frame s.maxDevices.toNat c opcode data)
    (hidle : Idle s.bus) (hmir : Mirrored s g) :
    Idle s2.bus ∧ Mirrored s2 g := by
  have hcN := toNat_lt_of_wf h c hc
  constructor
  · rw [hbus]
    exact (chipWrites_frame s.bus _ c c opcode _ hidle hcN hcN (by omega)).1
  · intro c2 r2 hc2 hr2
    rw [hN] at hc2
    have hc2N := toNat_lt_of_wf h c2 hc2
    have hmb : mirrorByte s2 c2 r2 = mirrorByte s c2 r2 := by
      unfold mirrorByte; rw [hst]
    unfold lastWrite
    rw [hbus, (chipWrites_frame s.bus _ c c2 opcode _ hidle hcN hc2N (by omega)).2, hmb]
    by_cases hcc : c2 = c
    · have hne : ¬ (opcode = r2 + 1) := by omega
      rw [if_pos hcc, lastData_append_single, if_neg hne]
      exact hmir c2 r2 hc2 hr2
    · rw [if_neg hcc, List.append_nil]
      exact hmir c2 r2 hc2 hr2

/-- A row write in common-cathode mode keeps the mirror and the chips in
agreement. -/
theorem digitWrite_synced (s : LedControl) (g : Nat → Nat → Bool) (c r m : Nat) (f : Bool)
    (h : WF s) (hc : (c : Int) < s.maxDevices) (hr : r < 8) (hm : m < 256)
    (hca : s.commonAnode = false) (hidle : Idle s.bus) (hmir : Mirrored s g) :
    ∃ s2, digitWrite s c r m m f = some s2 ∧ WF s2 ∧ s2.maxDevices = s.maxDevices ∧
      s2.commonAnode = false ∧ Idle s2.bus ∧
      Mirrored s2 (fun c2 r2 => if c2 = c ∧ r2 = r then f else g c2 r2) := by
  obtain ⟨s2, hrun, hwf2, hN2, hca2, hst2, hcath, -⟩ := digitWrite_spec s c r m m f h hc hr hm
  have hlt : (if f then flipByte m else m) < 256 := by
    split
    · exact flipByte_lt _
    · exact hm
  have hbus := (hcath hca).2
  rw [Nat.mod_eq_of_lt hlt] at hbus
  obtain ⟨hi2, hm2⟩ := mirrored_rowWrite s s2 g c r m f h hc hr hN2 hst2 hbus hidle hmir
  exact ⟨s2, hrun, hwf2, hN2, hca2.trans hca, hi2, hm2⟩

theorem foldlM_range_inv {σ : Type} (f : σ → Nat → Option σ) (Q : Nat → σ → Prop) (n : Nat) :
    ∀ (lo : Nat) (s : σ), Q lo s →
      (∀ i t, lo ≤ i → i < lo + n → Q i t → ∃ t2, f t i = some t2 ∧ Q (i + 1) t2) →
      ∃ s2, (List.range' lo n).foldlM f s = some s2 ∧ Q (lo + n) s2 := by
  induction n with
  | zero => intro lo s hs _; exact ⟨s, rfl, hs⟩
  | succ n ih =>
    intro lo s hs hstep
    obtain ⟨t2, hrun, hq⟩ := hstep lo s (le_refl _) (by omega) hs
    obtain ⟨s2, hrun2, hq2⟩ := ih (lo + 1) t2 hq
      (fun i t h1 h2 hqi => hstep i t (by omega) (by omega) hqi)
    refine ⟨s2, ?_, by rw [show lo + (n + 1) = lo + 1 + n from by omega]; exact hq2⟩
    simp only [List.range', List.foldlM_cons, hrun, Option.bind_eq_bind, Option.some_bind]
    exact hrun2

theorem clearDisplay_eq_fold (s : LedControl) (c : Nat) (h : WF s)
    (hc : (c : Int) < s.maxDevices) :
    clearDisplay s (c : Int) =
      (List.range' 0 8).foldlM (fun t i => digitWrite t c i 0 0 false) s := by
  have ha : ¬ ((c : Int) < 0 ∨ (c : Int) ≥ s.maxDevices) := by omega
  have hdec := clearLoop_writes c 8 0 s h hc (by omega)
  have e : clearDisplay s (c : Int) = forUp (fun i (t : LedControl) => do
      let st ← writeAt t.status ((c : Int) * 8 + i) 0
      let t := { t with status := st }
      let cur ← readAt t.status ((c : Int) * 8 + i)
      transfer t (c : Int) (toByte (i + 1)) cur false) 8 ((0 : Nat) : Int) s := by
    unfold clearDisplay
    rw [if_neg ha]
    rfl
  rw [e, hdec]
  rfl

theorem setColumn_eq_fold (s : LedControl) (c k V : Nat) (hc : (c : Int) < s.maxDevices)
    (hk : k < 8) :
    setColumn s (c : Int) (k : Int) V =
      (List.range' 0 8).foldlM
        (fun t (row : Nat) => setLed t (c : Int) (row : Int) (k : Int) (V.testBit (7 - row))) s := by
  have ha : ¬ ((c : Int) < 0 ∨ (c : Int) ≥ s.maxDevices) := by omega
  have hb : ¬ ((k : Int) < 0 ∨ (k : Int) > 7) := by omega
  have hunfold : setColumn s (c : Int) (k : Int) V = forUp (fun row (t : LedControl) =>
        let val : Nat := (V >>> (7 - row).toNat) % 256
        let val : Nat := val &&& 0x01
        setLed t (c : Int) row (k : Int) (val ≠ 0)) 8 ((0 : Nat) : Int) s := by
    unfold setColumn
    rw [if_neg ha, if_neg hb]
    rfl
  rw [hunfold, forUp_eq_foldlM]
  congr 1
  funext t row
  have e7 : (7 - (row : Int)).toNat = 7 - row := by omega
  simp only [e7, columnBit]

/-- Eight row writes, to the rows `0..7` of chip `c`. -/
theorem rows_synced (s : LedControl) (g : Nat → Nat → Bool) (c : Nat)
    (f : LedControl → Nat → Option LedControl)
    (hf : ∀ t i, WF t → t.maxDevices = s.maxDevices → i < 8 →
      ∃ m, m < 256 ∧ f t i = digitWrite t c i m m false)
    (hs : Synced s g) (hc : (c : Int) < s.maxDevices) :
    ∃ s2, (List.range' 0 8).foldlM f s = some s2 ∧ s2.maxDevices = s.maxDevices ∧
      Synced s2 (fun c2 r2 => if c2 = c ∧ r2 < 8 then false else g c2 r2) := by
  obtain ⟨s2, hrun, hq⟩ := foldlM_range_inv f
    (fun i t => t.maxDevices = s.maxDevices ∧
      Synced t (fun c2 r2 => if c2 = c ∧ r2 < i then false else g c2 r2)) 8 0 s
    ⟨rfl, hs.1, hs.2.1, hs.2.2.1, hs.2.2.2.congr_flags (fun c2 r2 _ _ => by simp)⟩
    (by
      intro i t _ hi8 hq
      obtain ⟨hN, hwf, hca, hidle, hmir⟩ := hq
      obtain ⟨m, hm, hfm⟩ := hf t i hwf hN (by omega)
      obtain ⟨t2, hrun, hwf2, hN2, hca2, hidle2, hmir2⟩ :=
        digitWrite_synced t _ c i m false hwf (by rw [hN]; exact hc) (by omega) hm hca hidle hmir
      refine ⟨t2, hfm.trans hrun, hN2.trans hN, hwf2, hca2, hidle2, hmir2.congr_flags ?_⟩
      intro c2 r2 _ _
      by_cases hcc : c2 = c
      · by_cases h1 : r2 = i
        · simp [hcc, h1]
        · by_cases h2 : r2 < i
          · have : r2 < i + 1 := by omega
            simp [hcc, h1, h2, this]
          · have : ¬ (r2 < i + 1) := by omega
            simp [hcc, h1, h2, this]
      · simp [hcc])
  exact ⟨s2, hrun, hq.1, hq.2⟩

theorem Synced.congr_synced {s : LedControl} {g g2 : Nat → Nat → Bool} (h : Synced s g)
    (hg : ∀ c r : Nat, (c : Int) < s.maxDevices → r < 8 → g2 c r = g c r) : Synced s g2 :=
  ⟨h.1, h.2.1, h.2.2.1, h.2.2.2.congr_flags hg⟩

theorem Synced.of_count {s s2 : LedControl} {g g2 : Nat → Nat → Bool} (h : Synced s2 g)
    (hN : s2.maxDevices = s.maxDevices)
    (hg : ∀ c r : Nat, (c : Int) < s.maxDevices → r < 8 → g2 c r = g c r) : Synced s2 g2 :=
  h.congr_synced (fun c r hc hr => hg c r (by rw [← hN]; exact hc) hr)

theorem setLed_synced (s : LedControl) (g : Nat → Nat → Bool) (addr row column : Int)
    (state : Bool) (hs : Synced s g) :
    ∃ s2, setLed s addr row column state = some s2 ∧ s2.maxDevices = s.maxDevices ∧
      Synced s2 (reversedStep s.maxDevices g (Op.setLed addr row column state)) := by
  by_cases ha : addr < 0 ∨ addr ≥ s.maxDevices
  · refine ⟨s, by unfold setLed; rw [if_pos ha], rfl, hs.congr_synced fun c r hc hr => ?_⟩
    have : ¬ ((c : Int) < s.maxDevices ∧ addr = (c : Int) ∧ row = (r : Int) ∧ r < 8 ∧
        0 ≤ column ∧ column ≤ 7) := by omega
    simp only [reversedStep, if_neg this]
  · by_cases hb : row < 0 ∨ row > 7 ∨ column < 0 ∨ column > 7
    · refine ⟨s, by unfold setLed; rw [if_neg ha, if_pos hb], rfl, hs.congr_synced fun c r hc hr => ?_⟩
      have : ¬ ((c : Int) < s.maxDevices ∧ addr = (c : Int) ∧ row = (r : Int) ∧ r < 8 ∧
          0 ≤ column ∧ column ≤ 7) := by omega
      simp only [reversedStep, if_neg this]
    · lift addr to Nat using (by omega) with c
      lift row to Nat using (by omega) with r
      lift column to Nat using (by omega) with k
      have hc : (c : Int) < s.maxDevices := by omega
      obtain ⟨s2, hrun, hwf2, hN2, hca2, hidle2, hmir2⟩ := digitWrite_synced s g c r
        (ledByte (mirrorByte s c r) k state) false hs.1 hc (by omega)
        (ledByte_lt_of_wf s c r k state hs.1 (by omega)) hs.2.1 hs.2.2.1 hs.2.2.2
      refine ⟨s2, (setLed_eq_digitWrite s c r k state hs.1 hc (by omega) (by omega)).trans hrun,
        hN2, Synced.of_count ⟨hwf2, hca2, hidle2, hmir2⟩ hN2 fun c2 r2 hc2 hr2 => ?_⟩
      have hiff : ((c2 : Int) < s.maxDevices ∧ (c : Int) = (c2 : Int) ∧ (r : Int) = (r2 : Int) ∧
          r2 < 8 ∧ 0 ≤ (k : Int) ∧ (k : Int) ≤ 7) ↔ (c2 = c ∧ r2 = r) := by
        constructor <;> intro hh <;> omega
      simp only [reversedStep, hiff]

theorem setRow_synced (s : LedControl) (g : Nat → Nat → Bool) (addr row value : Int)
    (hs : Synced s g) :
    ∃ s2, setRow s addr row (toByte value) = some s2 ∧ s2.maxDevices = s.maxDevices ∧
      Synced s2 (reversedStep s.maxDevices g (Op.setRow addr row value)) := by
  by_cases ha : addr < 0 ∨ addr ≥ s.maxDevices
  · refine ⟨s, by unfold setRow; rw [if_pos ha], rfl, hs.congr_synced fun c r hc hr => ?_⟩
    have : ¬ ((c : Int) < s.maxDevices ∧ addr = (c : Int) ∧ row = (r : Int) ∧ r < 8) := by omega
    simp only [reversedStep, if_neg this]
  · by_cases hb : row < 0 ∨ row > 7
    · refine ⟨s, by unfold setRow; rw [if_neg ha, if_pos hb], rfl, hs.congr_synced fun c r hc hr => ?_⟩
      have : ¬ ((c : Int) < s.maxDevices ∧ addr = (c : Int) ∧ row = (r : Int) ∧ r < 8) := by
        omega
      simp only [reversedStep, if_neg this]
    · lift addr to Nat using (by omega) with c
      lift row to Nat using (by omega) with r
      have hc : (c : Int) < s.maxDevices := by omega
      obtain ⟨s2, hrun, hwf2, hN2, hca2, hidle2, hmir2⟩ := digitWrite_synced s g c r
        (toByte value % 256) false hs.1 hc (by omega) (Nat.mod_lt _ (by norm_num))
        hs.2.1 hs.2.2.1 hs.2.2.2
      refine ⟨s2, (setRow_eq_digitWrite s c r (toByte value) hs.1 hc (by omega)).trans hrun,
        hN2, Synced.of_count ⟨hwf2, hca2, hidle2, hmir2⟩ hN2 fun c2 r2 hc2 hr2 => ?_⟩
      have hiff : ((c2 : Int) < s.maxDevices ∧ (c : Int) = (c2 : Int) ∧ (r : Int) = (r2 : Int) ∧
          r2 < 8) ↔ (c2 = c ∧ r2 = r) := by
        constructor <;> intro hh <;> omega
      simp only [reversedStep, hiff]

theorem setDigit_synced (charTable : List Nat) (hT : IsByteArray 128 charTable)
    (s : LedControl) (g : Nat → Nat → Bool) (addr digit value : Int) (dp reverse : Bool)
    (hs : Synced s g) :
    ∃ s2, setDigit charTable s addr digit (toByte value) dp reverse = some s2 ∧
      s2.maxDevices = s.maxDevices ∧
      Synced s2 (reversedStep s.maxDevices g (Op.setDigit addr digit value dp reverse)) := by
  by_cases ha : addr < 0 ∨ addr ≥ s.maxDevices
  · refine ⟨s, by unfold setDigit; rw [if_pos ha], rfl, hs.congr_synced fun c r hc hr => ?_⟩
    have : ¬ ((c : Int) < s.maxDevices ∧ addr = (c : Int) ∧ digit = (r : Int) ∧ r < 8 ∧
        toByte value ≤ 15) := by omega
    simp only [reversedStep, if_neg this]
  · by_cases hb : digit < 0 ∨ digit > 7 ∨ toByte value > 15
    · refine ⟨s, by unfold setDigit; rw [if_neg ha, if_pos hb], rfl,
        hs.congr_synced fun c r hc hr => ?_⟩
      have : ¬ ((c : Int) < s.maxDevices ∧ addr = (c : Int) ∧ digit = (r : Int) ∧ r < 8 ∧
          toByte value ≤ 15) := by omega
      simp only [reversedStep, if_neg this]
    · lift addr to Nat using (by omega) with c
      lift digit to Nat using (by omega) with d
      have hc : (c : Int) < s.maxDevices := by omega
      have hv : toByte value ≤ 15 := by omega
      obtain ⟨s2, hrun, hwf2, hN2, hca2, hidle2, hmir2⟩ := digitWrite_synced s g c d
        (if dp then charTable.getD (toByte value) 0 ||| 0b10000000
          else charTable.getD (toByte value) 0)
        reverse hs.1 hc (by omega) (glyph_lt charTable 128 _ dp hT) hs.2.1 hs.2.2.1 hs.2.2.2
      refine ⟨s2, (setDigit_eq_digitWrite charTable s c d (toByte value) dp reverse hs.1 hT hc
        (by omega) hv).trans hrun,
        hN2, Synced.of_count ⟨hwf2, hca2, hidle2, hmir2⟩ hN2 fun c2 r2 hc2 hr2 => ?_⟩
      have hiff : ((c2 : Int) < s.maxDevices ∧ (c : Int) = (c2 : Int) ∧ (d : Int) = (r2 : Int) ∧
          r2 < 8 ∧ toByte value ≤ 15) ↔ (c2 = c ∧ r2 = d) := by
        constructor <;> intro hh <;> omega
      simp only [reversedStep, hiff]

theorem setChar_synced (charTable : List Nat) (hT : IsByteArray 128 charTable)
    (s : LedControl) (g : Nat → Nat → Bool) (addr digit value : Int) (dp reverse : Bool)
    (hs : Synced s g) :
    ∃ s2, setChar charTable s addr digit value dp reverse = some s2 ∧
      s2.maxDevices = s.maxDevices ∧
      Synced s2 (reversedStep s.maxDevices g (Op.setChar addr digit value dp reverse)) := by
  by_cases ha : addr < 0 ∨ addr ≥ s.maxDevices
  · refine ⟨s, by unfold setChar; rw [if_pos ha], rfl, hs.congr_synced fun c r hc hr => ?_⟩
    have : ¬ ((c : Int) < s.maxDevices ∧ addr = (c : Int) ∧ digit = (r : Int) ∧ r < 8) := by
      omega
    simp only [reversedStep, if_neg this]
  · by_cases hb : digit < 0 ∨ digit > 7
    · refine ⟨s, by unfold setChar; rw [if_neg ha, if_pos hb], rfl,
        hs.congr_synced fun c r hc hr => ?_⟩
      have : ¬ ((c : Int) < s.maxDevices ∧ addr = (c : Int) ∧ digit = (r : Int) ∧ r < 8) := by
        omega
      simp only [reversedStep, if_neg this]
    · lift addr to Nat using (by omega) with c
      lift digit to Nat using (by omega) with d
      have hc : (c : Int) < s.maxDevices := by omega
      obtain ⟨s2, hrun, hwf2, hN2, hca2, hidle2, hmir2⟩ := digitWrite_synced s g c d
        (if dp then charTable.getD (if toByte value > 127 then 32 else toByte value) 0
            ||| 0b10000000
          else charTable.getD (if toByte value > 127 then 32 else toByte value) 0)
        reverse hs.1 hc (by omega) (glyph_lt charTable 128 _ dp hT) hs.2.1 hs.2.2.1 hs.2.2.2
      refine ⟨s2, (setChar_eq_digitWrite charTable s c d value dp reverse hs.1 hT hc
        (by omega)).trans hrun,
        hN2, Synced.of_count ⟨hwf2, hca2, hidle2, hmir2⟩ hN2 fun c2 r2 hc2 hr2 => ?_⟩
      have hiff : ((c2 : Int) < s.maxDevices ∧ (c : Int) = (c2 : Int) ∧ (d : Int) = (r2 : Int) ∧
          r2 < 8) ↔ (c2 = c ∧ r2 = d) := by
        constructor <;> intro hh <;> omega
      simp only [reversedStep, hiff]

theorem clearDisplay_synced (s : LedControl) (g : Nat → Nat → Bool) (addr : Int)
    (hs : Synced s g) :
    ∃ s2, clearDisplay s addr = some s2 ∧ s2.maxDevices = s.maxDevices ∧
      Synced s2 (reversedStep s.maxDevices g (Op.clearDisplay addr)) := by
  by_cases ha : addr < 0 ∨ addr ≥ s.maxDevices
  · refine ⟨s, by unfold clearDisplay; rw [if_pos ha], rfl, hs.congr_synced fun c r hc hr => ?_⟩
    have : ¬ ((c : Int) < s.maxDevices ∧ addr = (c : Int) ∧ r < 8) := by omega
    simp only [reversedStep, if_neg this]
  · lift addr to Nat using (by omega) with c
    have hc : (c : Int) < s.maxDevices := by omega
    obtain ⟨s2, hrun, hN2, hsync⟩ := rows_synced s g c
      (fun t i => digitWrite t c i 0 0 false)
      (fun t i _ _ _ => ⟨0, by norm_num, rfl⟩) hs hc
    refine ⟨s2, (clearDisplay_eq_fold s c hs.1 hc).trans hrun, hN2,
      Synced.of_count hsync hN2 fun c2 r2 hc2 hr2 => ?_⟩
    have hiff : ((c2 : Int) < s.maxDevices ∧ (c : Int) = (c2 : Int) ∧ r2 < 8) ↔
        (c2 = c ∧ r2 < 8) := by
      constructor <;> intro hh <;> omega
    simp only [reversedStep, hiff]

theorem setColumn_synced (s : LedControl) (g : Nat → Nat → Bool) (addr col value : Int)
    (hs : Synced s g) :
    ∃ s2, setColumn s addr col (toByte value) = some s2 ∧ s2.maxDevices = s.maxDevices ∧
      Synced s2 (reversedStep s.maxDevices g (Op.setColumn addr col value)) := by
  by_cases ha : addr < 0 ∨ addr ≥ s.maxDevices
  · refine ⟨s, by unfold setColumn; rw [if_pos ha], rfl, hs.congr_synced fun c r hc hr => ?_⟩
    have : ¬ ((c : Int) < s.maxDevices ∧ addr = (c : Int) ∧ r < 8 ∧ 0 ≤ col ∧ col ≤ 7) := by
      omega
    simp only [reversedStep, if_neg this]
  · by_cases hb : col < 0 ∨ col > 7
    · refine ⟨s, by unfold setColumn; rw [if_neg ha, if_pos hb], rfl,
        hs.congr_synced fun c r hc hr => ?_⟩
      have : ¬ ((c : Int) < s.maxDevices ∧ addr = (c : Int) ∧ r < 8 ∧ 0 ≤ col ∧ col ≤ 7) := by
        omega
      simp only [reversedStep, if_neg this]
    · lift addr to Nat using (by omega) with c
      lift col to Nat using (by omega) with k
      have hc : (c : Int) < s.maxDevices := by omega
      have hk : k < 8 := by omega
      obtain ⟨s2, hrun, hN2, hsync⟩ := rows_synced s g c
        (fun t (row : Nat) =>
          setLed t (c : Int) (row : Int) (k : Int) ((toByte value).testBit (7 - row)))
        (fun t i hwf hN hi => ⟨_, ledByte_lt_of_wf t c i k _ hwf hk,
          setLed_eq_digitWrite t c i k _ hwf (by rw [hN]; exact hc) hi hk⟩) hs hc
      refine ⟨s2, (setColumn_eq_fold s c k (toByte value) hc hk).trans hrun, hN2,
        Synced.of_count hsync hN2 fun c2 r2 hc2 hr2 => ?_⟩
      have hiff : ((c2 : Int) < s.maxDevices ∧ (c : Int) = (c2 : Int) ∧ r2 < 8 ∧
          0 ≤ (k : Int) ∧ (k : Int) ≤ 7) ↔ (c2 = c ∧ r2 < 8) := by
        constructor <;> intro hh <;> omega
      simp only [reversedStep, hiff]

/-- A configuration write in common-cathode mode. -/
theorem config_synced (s : LedControl) (g : Nat → Nat → Bool) (c opcode data : Nat)
    (hs : Synced s g) (hc : (c : Int) < s.maxDevices) (hop : 8 < opcode) (hop2 : opcode < 256)
    (hd : data < 256) :
    ∃ s2, spiTransfer s (c : Int) opcode data = some s2 ∧ s2.maxDevices = s.maxDevices ∧
      Synced s2 g := by
  obtain ⟨s2, hrun, hwf2, hN2, hca2, hst2, -, hbus2⟩ := spiTransfer_ex s c opcode data hs.1 hc hop2 hd
  obtain ⟨hi2, hm2⟩ := mirrored_config s s2 g c opcode data hs.1 hc hop hN2 hst2 hbus2
    hs.2.2.1 hs.2.2.2
  exact ⟨s2, hrun, hN2, hwf2, hca2.trans hs.2.1, hi2, hm2⟩

theorem shutdown_synced (s : LedControl) (g : Nat → Nat → Bool) (addr : Int) (b : Bool)
    (hs : Synced s g) :
    ∃ s2, shutdown s addr b = some s2 ∧ s2.maxDevices = s.maxDevices ∧ Synced s2 g := by
  by_cases ha : addr < 0 ∨ addr ≥ s.maxDevices
  · exact ⟨s, by unfold shutdown; rw [if_pos ha], rfl, hs⟩
  · lift addr to Nat using (by omega) with c
    have hc : (c : Int) < s.maxDevices := by omega
    cases b
    · obtain ⟨s2, hrun, hN, hsync⟩ :=
        config_synced s g c OP_SHUTDOWN 1 hs hc (by decide) (by decide) (by decide)
      exact ⟨s2, by unfold shutdown; rw [if_neg ha, if_neg (by simp)]; exact hrun, hN, hsync⟩
    · obtain ⟨s2, hrun, hN, hsync⟩ :=
        config_synced s g c OP_SHUTDOWN 0 hs hc (by decide) (by decide) (by decide)
      exact ⟨s2, by unfold shutdown; rw [if_neg ha, if_pos rfl]; exact hrun, hN, hsync⟩

theorem setScanLimit_synced (s : LedControl) (g : Nat → Nat → Bool) (addr limit : Int)
    (hs : Synced s g) :
    ∃ s2, setScanLimit s addr limit = some s2 ∧ s2.maxDevices = s.maxDevices ∧ Synced s2 g := by
  by_cases ha : addr < 0 ∨ addr ≥ s.maxDevices
  · exact ⟨s, by unfold setScanLimit; rw [if_pos ha], rfl, hs⟩
  · by_cases hb : limit ≥ 0 ∧ limit < 8
    · lift addr to Nat using (by omega) with c
      have hlt : toByte limit < 256 := by unfold toByte; omega
      obtain ⟨s2, hrun, hN, hsync⟩ :=
        config_synced s g c OP_SCANLIMIT (toByte limit) hs (by omega) (by decide) (by decide) hlt
      exact ⟨s2, by unfold setScanLimit; rw [if_neg ha, if_pos hb]; exact hrun, hN, hsync⟩
    · exact ⟨s, by unfold setScanLimit; rw [if_neg ha, if_neg hb], rfl, hs⟩

theorem setIntensity_synced (s : LedControl) (g : Nat → Nat → Bool) (addr intensity : Int)
    (hs : Synced s g) :
    ∃ s2, setIntensity s addr intensity = some s2 ∧ s2.maxDevices = s.maxDevices ∧
      Synced s2 g := by
  by_cases ha : addr < 0 ∨ addr ≥ s.maxDevices
  · exact ⟨s, by unfold setIntensity; rw [if_pos ha], rfl, hs⟩
  · by_cases hb : intensity ≥ 0 ∧ intensity < 16
    · lift addr to Nat using (by omega) with c
      have hlt : toByte intensity < 256 := by unfold toByte; omega
      obtain ⟨s2, hrun, hN, hsync⟩ :=
        config_synced s g c OP_INTENSITY (toByte intensity) hs (by omega) (by decide) (by decide)
          hlt
      exact ⟨s2, by unfold setIntensity; rw [if_neg ha, if_pos hb]; exact hrun, hN, hsync⟩
    · exact ⟨s, by unfold setIntensity; rw [if_neg ha, if_neg hb], rfl, hs⟩

/-- Every call that leaves the chain in common-cathode mode keeps the mirror and
the chips in agreement. -/
theorem step_synced (charTable : List Nat) (hT : IsByteArray 128 charTable) (s : LedControl)
    (g : Nat → Nat → Bool) (op : Op) (hs : Synced s g) (hop : op ≠ Op.setCommonAnode true) :
    ∃ s2, step charTable s op = some s2 ∧ s2.maxDevices = s.maxDevices ∧
      Synced s2 (reversedStep s.maxDevices g op) := by
  cases op with
  | getDeviceCount => exact ⟨s, rfl, rfl, hs⟩
  | setCommonAnode value =>
    cases value
    · exact ⟨setCommonAnode s false, rfl, rfl, hs.1, rfl, hs.2.2.1, hs.2.2.2⟩
    · exact absurd rfl hop
  | shutdown addr b => exact shutdown_synced s g addr b hs
  | setScanLimit addr limit => exact setScanLimit_synced s g addr limit hs
  | setIntensity addr intensity => exact setIntensity_synced s g addr intensity hs
  | clearDisplay addr => exact clearDisplay_synced s g addr hs
  | setLed addr row column state => exact setLed_synced s g addr row column state hs
  | setRow addr row value => exact setRow_synced s g addr row value hs
  | setColumn addr col value => exact setColumn_synced s g addr col value hs
  | setDigit addr digit value dp reverse =>
    exact setDigit_synced charTable hT s g addr digit value dp reverse hs
  | setChar addr digit value dp reverse =>
    exact setChar_synced charTable hT s g addr digit value dp reverse hs

/-- Every sequence of calls that leaves the chain in common-cathode mode keeps the
mirror and the chips in agreement. -/
theorem run_synced (charTable : List Nat) (hT : IsByteArray 128 charTable) (ops : List Op) :
    ∀ (s : LedControl) (g : Nat → Nat → Bool), Synced s g →
      (∀ op ∈ ops, op ≠ Op.setCommonAnode true) →
    ∃ s2, run charTable s ops = some s2 ∧ s2.maxDevices = s.maxDevices ∧
      Synced s2 (ops.foldl (reversedStep s.maxDevices) g) := by
  induction ops with
  | nil => intro s g hs _; exact ⟨s, rfl, rfl, hs⟩
  | cons op rest ih =>
    intro s g hs hops
    obtain ⟨s1, hrun1, hN1, hs1⟩ := step_synced charTable hT s g op hs
      (hops op (List.mem_cons_self _ _))
    obtain ⟨s2, hrun2, hN2, hs2⟩ := ih s1 _ hs1 (fun o ho => hops o (List.mem_cons_of_mem _ ho))
    refine ⟨s2, ?_, hN2.trans hN1, ?_⟩
    · unfold run at hrun2 ⊢
      rw [List.foldlM_cons, hrun1]
      exact hrun2
    · rw [hN1] at hs2
      exact hs2

theorem idle_nil : Idle [] := rfl

theorem lastData_initLog (prev log : List (Nat × Nat)) (hlog : InitLog log) (reg : Nat)
    (h1 : 1 ≤ reg) (h8 : reg ≤ 8) : lastData reg (prev ++ log) = some 0 := by
  obtain ⟨front, rfl, -⟩ := hlog
  have hne : ¬ (12 = reg) := by omega
  have e : prev ++ ([(15, 0), (11, 7), (9, 0)] ++ front ++ blankWrites ++ [(12, 0)])
      = (prev ++ [(15, 0), (11, 7), (9, 0)] ++ front ++ blankWrites) ++ [(12, 0)] := by
    simp [List.append_assoc]
  rw [e, lastData_append_single, if_neg hne]
  exact lastData_append_blank _ reg h1 h8

/-- A freshly constructed chain is in common-cathode mode and its blank mirror
agrees with the chips. -/
theorem construct_synced (pre : LedControl) (numDevices : Int) (hpre : Allocated pre)
    (hidle : Idle pre.bus) :
    ∃ s, construct pre numDevices = some s ∧ Synced s (fun _ _ => false) := by
  obtain ⟨s, hrun, hwf, -, hst, hca, -, htr⟩ := construct_spec pre numDevices hpre
  obtain ⟨hidle2, hlogs⟩ := htr hidle
  refine ⟨s, hrun, hwf, hca, hidle2, fun c r hc hr => ?_⟩
  obtain ⟨log, hw, hlog⟩ := hlogs c hc
  have hm : mirrorByte s c r = 0 := by
    unfold mirrorByte
    rw [hst, List.getD_eq_getElem?_getD, List.getElem?_replicate]
    split <;> rfl
  unfold lastWrite
  rw [hw, lastData_initLog _ _ hlog (r + 1) (by omega) (by omega), hm]
  rfl

/-! ## Every call returns and keeps the representation invariant -/

theorem setLed_total (s : LedControl) (addr row column : Int) (state : Bool) (h : WF s) :
    ∃ s2, setLed s addr row column state = some s2 ∧ WF s2 ∧
      s2.maxDevices = s.maxDevices ∧ s2.commonAnode = s.commonAnode := by
  by_cases ha : addr < 0 ∨ addr ≥ s.maxDevices
  · exact ⟨s, by unfold setLed; rw [if_pos ha], h, rfl, rfl⟩
  · by_cases hb : row < 0 ∨ row > 7 ∨ column < 0 ∨ column > 7
    · exact ⟨s, by unfold setLed; rw [if_neg ha, if_pos hb], h, rfl, rfl⟩
    · lift addr to Nat using (by omega) with c
      lift row to Nat using (by omega) with r
      lift column to Nat using (by omega) with k
      obtain ⟨s2, hrun, hwf, hN, hca, -⟩ :=
        setLed_spec s c r k state h (by omega) (by omega) (by omega)
      exact ⟨s2, hrun, hwf, hN, hca⟩

theorem setRow_total (s : LedControl) (addr row : Int) (value : Nat) (h : WF s) :
    ∃ s2, setRow s addr row value = some s2 ∧ WF s2 ∧
      s2.maxDevices = s.maxDevices ∧ s2.commonAnode = s.commonAnode := by
  by_cases ha : addr < 0 ∨ addr ≥ s.maxDevices
  · exact ⟨s, by unfold setRow; rw [if_pos ha], h, rfl, rfl⟩
  · by_cases hb : row < 0 ∨ row > 7
    · exact ⟨s, by unfold setRow; rw [if_neg ha, if_pos hb], h, rfl, rfl⟩
    · lift addr to Nat using (by omega) with c
      lift row to Nat using (by omega) with r
      have hc : (c : Int) < s.maxDevices := by omega
      obtain ⟨s2, hrun, hwf, hN, hca, -⟩ := digitWrite_spec s c r (value % 256) (value % 256)
        false h hc (by omega) (Nat.mod_lt _ (by norm_num))
      exact ⟨s2, (setRow_eq_digitWrite s c r value h hc (by omega)).trans hrun, hwf, hN, hca⟩

theorem setColumn_total (s : LedControl) (addr col : Int) (value : Nat) (h : WF s) :
    ∃ s2, setColumn s addr col value = some s2 ∧ WF s2 ∧
      s2.maxDevices = s.maxDevices ∧ s2.commonAnode = s.commonAnode := by
  by_cases ha : addr < 0 ∨ addr ≥ s.maxDevices
  · exact ⟨s, by unfold setColumn; rw [if_pos ha], h, rfl, rfl⟩
  · by_cases hb : col < 0 ∨ col > 7
    · exact ⟨s, by unfold setColumn; rw [if_neg ha, if_pos hb], h, rfl, rfl⟩
    · lift addr to Nat using (by omega) with c
      lift col to Nat using (by omega) with k
      have hc : (c : Int) < s.maxDevices := by omega
      obtain ⟨s2, hrun, hwf, hN, hca, -⟩ := columnLoop c k value (by omega) 8 0 s h hc (by omega)
      refine ⟨s2, ?_, hwf, hN, hca⟩
      unfold setColumn
      rw [if_neg ha, if_neg hb]
      exact hrun

theorem setDigit_total (charTable : List Nat) (hT : IsByteArray 128 charTable) (s : LedControl)
    (addr digit : Int) (value : Nat) (dp reverse : Bool) (h : WF s) :
    ∃ s2, setDigit charTable s addr digit value dp reverse = some s2 ∧ WF s2 ∧
      s2.maxDevices = s.maxDevices ∧ s2.commonAnode = s.commonAnode := by
  by_cases ha : addr < 0 ∨ addr ≥ s.maxDevices
  · exact ⟨s, by unfold setDigit; rw [if_pos ha], h, rfl, rfl⟩
  · by_cases hb : digit < 0 ∨ digit > 7 ∨ value > 15
    · exact ⟨s, by unfold setDigit; rw [if_neg ha, if_pos hb], h, rfl, rfl⟩
    · lift addr to Nat using (by omega) with c
      lift digit to Nat using (by omega) with d
      have hc : (c : Int) < s.maxDevices := by omega
      obtain ⟨s2, hrun, hwf, hN, hca, -⟩ := digitWrite_spec s c d _
        (if dp then charTable.getD value 0 ||| 0b10000000 else charTable.getD value 0)
        reverse h hc (by omega) (glyph_lt charTable 128 value dp hT)
      exact ⟨s2, (setDigit_eq_digitWrite charTable s c d value dp reverse h hT hc (by omega)
        (by omega)).trans hrun, hwf, hN, hca⟩

theorem setChar_total (charTable : List Nat) (hT : IsByteArray 128 charTable) (s : LedControl)
    (addr digit value : Int) (dp reverse : Bool) (h : WF s) :
    ∃ s2, setChar charTable s addr digit value dp reverse = some s2 ∧ WF s2 ∧
      s2.maxDevices = s.maxDevices ∧ s2.commonAnode = s.commonAnode := by
  by_cases ha : addr < 0 ∨ addr ≥ s.maxDevices
  · exact ⟨s, by unfold setChar; rw [if_pos ha], h, rfl, rfl⟩
  · by_cases hb : digit < 0 ∨ digit > 7
    · exact ⟨s, by unfold setChar; rw [if_neg ha, if_pos hb], h, rfl, rfl⟩
    · lift addr to Nat using (by omega) with c
      lift digit to Nat using (by omega) with d
      have hc : (c : Int) < s.maxDevices := by omega
      obtain ⟨s2, hrun, hwf, hN, hca, -⟩ := digitWrite_spec s c d _
        (if dp then charTable.getD (if toByte value > 127 then 32 else toByte value) 0
            ||| 0b10000000
          else charTable.getD (if toByte value > 127 then 32 else toByte value) 0)
        reverse h hc (by omega) (glyph_lt charTable 128 _ dp hT)
      exact ⟨s2, (setChar_eq_digitWrite charTable s c d value dp reverse h hT hc
        (by omega)).trans hrun, hwf, hN, hca⟩

theorem clearDisplay_total (s : LedControl) (addr : Int) (h : WF s) :
    ∃ s2, clearDisplay s addr = some s2 ∧ WF s2 ∧
      s2.maxDevices = s.maxDevices ∧ s2.commonAnode = s.commonAnode := by
  by_cases ha : addr < 0 ∨ addr ≥ s.maxDevices
  · exact ⟨s, by unfold clearDisplay; rw [if_pos ha], h, rfl, rfl⟩
  · lift addr to Nat using (by omega) with c
    obtain ⟨s2, front, hrun, hwf, hN, hca, -⟩ := clearDisplay_spec s c h (by omega)
    exact ⟨s2, hrun, hwf, hN, hca⟩

theorem shutdown_total (s : LedControl) (addr : Int) (b : Bool) (h : WF s) :
    ∃ s2, shutdown s addr b = some s2 ∧ WF s2 ∧
      s2.maxDevices = s.maxDevices ∧ s2.commonAnode = s.commonAnode := by
  by_cases ha : addr < 0 ∨ addr ≥ s.maxDevices
  · exact ⟨s, by unfold shutdown; rw [if_pos ha], h, rfl, rfl⟩
  · lift addr to Nat using (by omega) with c
    have hc : (c : Int) < s.maxDevices := by omega
    cases b
    · obtain ⟨s2, hrun, hwf, hN, hca, -⟩ :=
        spiTransfer_ex s c OP_SHUTDOWN 1 h hc (by decide) (by decide)
      exact ⟨s2, by unfold shutdown; rw [if_neg ha, if_neg (by simp)]; exact hrun, hwf, hN, hca⟩
    · obtain ⟨s2, hrun, hwf, hN, hca, -⟩ :=
        spiTransfer_ex s c OP_SHUTDOWN 0 h hc (by decide) (by decide)
      exact ⟨s2, by unfold shutdown; rw [if_neg ha, if_pos rfl]; exact hrun, hwf, hN, hca⟩

theorem setScanLimit_total (s : LedControl) (addr limit : Int) (h : WF s) :
    ∃ s2, setScanLimit s addr limit = some s2 ∧ WF s2 ∧
      s2.maxDevices = s.maxDevices ∧ s2.commonAnode = s.commonAnode := by
  by_cases ha : addr < 0 ∨ addr ≥ s.maxDevices
  · exact ⟨s, by unfold setScanLimit; rw [if_pos ha], h, rfl, rfl⟩
  · by_cases hb : limit ≥ 0 ∧ limit < 8
    · lift addr to Nat using (by omega) with c
      have hlt : toByte limit < 256 := by unfold toByte; omega
      obtain ⟨s2, hrun, hwf, hN, hca, -⟩ :=
        spiTransfer_ex s c OP_SCANLIMIT (toByte limit) h (by omega) (by decide) hlt
      exact ⟨s2, by unfold setScanLimit; rw [if_neg ha, if_pos hb]; exact hrun, hwf, hN, hca⟩
    · exact ⟨s, by unfold setScanLimit; rw [if_neg ha, if_neg hb], h, rfl, rfl⟩

theorem setIntensity_total (s : LedControl) (addr intensity : Int) (h : WF s) :
    ∃ s2, setIntensity s addr intensity = some s2 ∧ WF s2 ∧
      s2.maxDevices = s.maxDevices ∧ s2.commonAnode = s.commonAnode := by
  by_cases ha : addr < 0 ∨ addr ≥ s.maxDevices
  · exact ⟨s, by unfold setIntensity; rw [if_pos ha], h, rfl, rfl⟩
  · by_cases hb : intensity ≥ 0 ∧ intensity < 16
    · lift addr to Nat using (by omega) with c
      have hlt : toByte intensity < 256 := by unfold toByte; omega
      obtain ⟨s2, hrun, hwf, hN, hca, -⟩ :=
        spiTransfer_ex s c OP_INTENSITY (toByte intensity) h (by omega) (by decide) hlt
      exact ⟨s2, by unfold setIntensity; rw [if_neg ha, if_pos hb]; exact hrun, hwf, hN, hca⟩
    · exact ⟨s, by unfold setIntensity; rw [if_neg ha, if_neg hb], h, rfl, rfl⟩

/-- Every call returns, keeps the representation invariant and keeps the chip
count. -/
theorem step_wf (charTable : List Nat) (hT : IsByteArray 128 charTable) (s : LedControl)
    (op : Op) (h : WF s) :
    ∃ s2, step charTable s op = some s2 ∧ WF s2 ∧ s2.maxDevices = s.maxDevices := by
  cases op with
  | getDeviceCount => exact ⟨s, rfl, h, rfl⟩
  | setCommonAnode value => exact ⟨setCommonAnode s value, rfl, h, rfl⟩
  | shutdown addr b =>
    obtain ⟨s2, a, b1, c1, -⟩ := shutdown_total s addr b h
    exact ⟨s2, a, b1, c1⟩
  | setScanLimit addr limit =>
    obtain ⟨s2, a, b1, c1, -⟩ := setScanLimit_total s addr limit h
    exact ⟨s2, a, b1, c1⟩
  | setIntensity addr intensity =>
    obtain ⟨s2, a, b1, c1, -⟩ := setIntensity_total s addr intensity h
    exact ⟨s2, a, b1, c1⟩
  | clearDisplay addr =>
    obtain ⟨s2, a, b1, c1, -⟩ := clearDisplay_total s addr h
    exact ⟨s2, a, b1, c1⟩
  | setLed addr row column state =>
    obtain ⟨s2, a, b1, c1, -⟩ := setLed_total s addr row column state h
    exact ⟨s2, a, b1, c1⟩
  | setRow addr row value =>
    obtain ⟨s2, a, b1, c1, -⟩ := setRow_total s addr row (toByte value) h
    exact ⟨s2, a, b1, c1⟩
  | setColumn addr col value =>
    obtain ⟨s2, a, b1, c1, -⟩ := setColumn_total s addr col (toByte value) h
    exact ⟨s2, a, b1, c1⟩
  | setDigit addr digit value dp reverse =>
    obtain ⟨s2, a, b1, c1, -⟩ := setDigit_total charTable hT s addr digit (toByte value) dp reverse h
    exact ⟨s2, a, b1, c1⟩
  | setChar addr digit value dp reverse =>
    obtain ⟨s2, a, b1, c1, -⟩ := setChar_total charTable hT s addr digit value dp reverse h
    exact ⟨s2, a, b1, c1⟩

/-- Every sequence of calls returns, keeps the representation invariant and keeps
the chip count. -/
theorem run_wf (charTable : List Nat) (hT : IsByteArray 128 charTable) (ops : List Op) :
    ∀ (s : LedControl), WF s →
    ∃ s2, run charTable s ops = some s2 ∧ WF s2 ∧ s2.maxDevices = s.maxDevices := by
  induction ops with
  | nil => intro s h; exact ⟨s, rfl, h, rfl⟩
  | cons op rest ih =>
    intro s h
    obtain ⟨s1, hrun1, hwf1, hN1⟩ := step_wf charTable hT s op h
    obtain ⟨s2, hrun2, hwf2, hN2⟩ := ih s1 hwf1
    refine ⟨s2, ?_, hwf2, hN2.trans hN1⟩
    unfold run at hrun2 ⊢
    rw [List.foldlM_cons, hrun1]
    exact hrun2

/-! ## Runs on a transmit buffer of any sufficient length -/

theorem forUp_inv {σ : Type} (body : Int → σ → Option σ) (Inv : σ → Prop) (n : Nat) :
    ∀ (lo : Nat) (s : σ), Inv s →
      (∀ (i : Nat) (t : σ), lo ≤ i → i < lo + n → Inv t →
        ∃ t2, body (i : Int) t = some t2 ∧ Inv t2) →
      ∃ s2, forUp body n (lo : Int) s = some s2 ∧ Inv s2 := by
  induction n with
  | zero => intro lo s h _; exact ⟨s, rfl, h⟩
  | succ n ih =>
    intro lo s h hb
    obtain ⟨s1, hrun1, h1⟩ := hb lo s (le_refl _) (by omega) h
    obtain ⟨s2, hrun2, h2⟩ := ih (lo + 1) s1 h1
      (fun i t hlo hhi ht => hb i t (by omega) (by omega) ht)
    have e : ((lo : Int) + 1) = ((lo + 1 : Nat) : Int) := by push_cast; rfl
    refine ⟨s2, ?_, h2⟩
    simp only [forUp, hrun1, Option.some_bind, e]
    exact hrun2

theorem spiTransfer_sized (N L : Nat) (s : LedControl) (c opcode data : Nat)
    (h : Sized N L s) (hL : 2 * N ≤ L) (hc : c < N) :
    ∃ s2, spiTransfer s (c : Int) opcode data = some s2 ∧ Sized N L s2 := by
  have hlen : 2 * N ≤ s.spidata.length := by rw [h.2.2.2]; exact hL
  refine ⟨_, spiTransfer_eq s N c opcode data h.1 hlen hc, h.1, h.2.1, h.2.2.1, ?_⟩
  show (spiBuffer s.spidata N c opcode data).length = L
  rw [spiBuffer_length _ _ _ _ _ hlen, h.2.2.2]

theorem transferSegment_sized (N L : Nat) (s : LedControl) (c opcode data cS : Nat)
    (h : Sized N L s) (hL : 2 * N ≤ L) (hc : c < N) (hop1 : 1 ≤ opcode) (hop8 : opcode ≤ 8)
    (hcS : cS < 8) :
    ∃ s2, transferSegment (c : Int) opcode data (cS : Int) s = some s2 ∧ Sized N L s2 := by
  have hlen : cS < s.commonAnodeData.length := by rw [h.2.2.1]; exact hcS
  have hr : (if (cS : Int) = 7 then (7 : Int) else 6 - (cS : Int)) = ((readIndex cS : Nat) : Int) := by
    unfold readIndex
    by_cases h7 : cS = 7
    · simp [h7]
    · have : ¬ ((cS : Int) = 7) := by omega
      rw [if_neg this, if_neg h7]; omega
  have hw : (if opcode = 8 then (7 : Int) else 7 - (opcode : Int))
      = ((writeIndex opcode : Nat) : Int) := by
    unfold writeIndex
    by_cases h8 : opcode = 8
    · simp [h8]
    · rw [if_neg h8, if_neg h8]; omega
  have hbi : ∀ k : Nat, k < 8 → bitIndex (k : Int) = some k := by
    intro k hk
    have : (k : Int) < 8 := by omega
    simp [bitIndex, this]
  have hri : readIndex cS < 8 := by unfold readIndex; split <;> omega
  have hwi : writeIndex opcode < 8 := by unfold writeIndex; split <;> omega
  have hlen2 : ∀ x, cS < (s.commonAnodeData.set cS x).length := by
    intro x; simpa using hlen
  unfold transferSegment
  simp only [hr, hw, hbi _ hri, hbi _ hwi, readAt_nat _ _ hlen, writeAt_nat _ _ _ hlen,
    Option.bind_eq_bind, Option.some_bind, readAt_nat _ _ (hlen2 _)]
  exact spiTransfer_sized N L _ c _ _ ⟨h.1, h.2.1, by simpa using h.2.2.1, h.2.2.2⟩ hL hc

theorem transfer_sized (N L : Nat) (s : LedControl) (c r data : Nat) (reverse : Bool)
    (h : Sized N L s) (hL : 2 * N ≤ L) (hc : c < N) (hr : r < 8) :
    ∃ s2, transfer s (c : Int) (toByte ((r : Int) + 1)) data reverse = some s2 ∧
      Sized N L s2 := by
  have hbyte : toByte ((r : Int) + 1) = r + 1 := by
    unfold toByte; omega
  rw [hbyte]
  unfold transfer
  by_cases hca : s.commonAnode = true
  · simp only [hca, if_true]
    have := forUp_inv (transferSegment (c : Int) (r + 1)
      (if reverse then flipByte data else data)) (Sized N L) 8 0 s h
      (fun i t _ hi ht => transferSegment_sized N L t c (r + 1) _ i ht hL hc (by omega)
        (by omega) (by omega))
    simpa using this
  · simp only [hca]
    exact spiTransfer_sized N L s c _ _ h hL hc

theorem status_access (a : List Nat) (c r : Nat) (hlen : a.length = 64) (hc : c < 8)
    (hr : r < 8) :
    (∀ v, writeAt a ((c : Int) * 8 + (r : Int)) v = some (a.set (c * 8 + r) (v % 256))) ∧
    (∀ v, readAt (a.set (c * 8 + r) v) ((c : Int) * 8 + (r : Int)) = some v) ∧
    readAt a ((c : Int) * 8 + (r : Int)) = some (a.getD (c * 8 + r) 0) := by
  have hi : c * 8 + r < a.length := by omega
  have e : (c : Int) * 8 + (r : Int) = ((c * 8 + r : Nat) : Int) := by push_cast; rfl
  refine ⟨fun v => ?_, fun v => ?_, ?_⟩
  · rw [e, writeAt_nat _ _ _ hi]
  · have hi2 : c * 8 + r < (a.set (c * 8 + r) v).length := by simpa using hi
    rw [e, readAt_nat _ _ hi2]
    simp [List.getD_eq_getElem?_getD, List.getElem?_set, hi]
  · rw [e, readAt_nat _ _ hi]

theorem Sized.set_status {N L : Nat} {s : LedControl} (h : Sized N L s) (i v : Nat) :
    Sized N L { s with status := s.status.set i v } :=
  ⟨h.1, by simpa using h.2.1, h.2.2.1, h.2.2.2⟩

theorem setLed_sized (N L : Nat) (s : LedControl) (addr row column : Int) (state : Bool)
    (h : Sized N L s) (hN : N ≤ 8) (hL : 2 * N ≤ L) :
    ∃ s2, setLed s addr row column state = some s2 ∧ Sized N L s2 := by
  by_cases ha : addr < 0 ∨ addr ≥ s.maxDevices
  · exact ⟨s, by unfold setLed; rw [if_pos ha], h⟩
  · by_cases hb : row < 0 ∨ row > 7 ∨ column < 0 ∨ column > 7
    · exact ⟨s, by unfold setLed; rw [if_neg ha, if_pos hb], h⟩
    · lift addr to Nat using (by omega) with c
      lift row to Nat using (by omega) with r
      have hc : c < N := by have := h.1; omega
      obtain ⟨hw, hrb, hrd⟩ := status_access s.status c r h.2.1 (by omega) (by omega)
      unfold setLed
      rw [if_neg ha, if_neg hb]
      cases state
      · simp only [Bool.false_eq_true, if_false, hrd, hw, hrb, Option.bind_eq_bind,
          Option.some_bind]
        exact transfer_sized N L _ c r _ false (h.set_status _ _) hL hc (by omega)
      · simp only [if_true, hrd, hw, hrb, Option.bind_eq_bind, Option.some_bind]
        exact transfer_sized N L _ c r _ false (h.set_status _ _) hL hc (by omega)

theorem setRow_sized (N L : Nat) (s : LedControl) (addr row : Int) (value : Nat)
    (h : Sized N L s) (hN : N ≤ 8) (hL : 2 * N ≤ L) :
    ∃ s2, setRow s addr row value = some s2 ∧ Sized N L s2 := by
  by_cases ha : addr < 0 ∨ addr ≥ s.maxDevices
  · exact ⟨s, by unfold setRow; rw [if_pos ha], h⟩
  · by_cases hb : row < 0 ∨ row > 7
    · exact ⟨s, by unfold setRow; rw [if_neg ha, if_pos hb], h⟩
    · lift addr to Nat using (by omega) with c
      lift row to Nat using (by omega) with r
      have hc : c < N := by have := h.1; omega
      obtain ⟨hw, hrb, -⟩ := status_access s.status c r h.2.1 (by omega) (by omega)
      unfold setRow
      rw [if_neg ha, if_neg hb]
      simp only [hw, hrb, Option.bind_eq_bind, Option.some_bind]
      exact transfer_sized N L _ c r _ false (h.set_status _ _) hL hc (by omega)

theorem setColumn_sized (N L : Nat) (s : LedControl) (addr col : Int) (value : Nat)
    (h : Sized N L s) (hN : N ≤ 8) (hL : 2 * N ≤ L) :
    ∃ s2, setColumn s addr col value = some s2 ∧ Sized N L s2 := by
  by_cases ha : addr < 0 ∨ addr ≥ s.maxDevices
  · exact ⟨s, by unfold setColumn; rw [if_pos ha], h⟩
  · by_cases hb : col < 0 ∨ col > 7
    · exact ⟨s, by unfold setColumn; rw [if_neg ha, if_pos hb], h⟩
    · unfold setColumn
      rw [if_neg ha, if_neg hb]
      have := forUp_inv (fun row (t : LedControl) =>
          setLed t addr row col (decide ((value >>> (7 - row).toNat) % 256 &&& 0x01 ≠ 0)))
        (Sized N L) 8 0 s h (fun i t _ _ ht => setLed_sized N L t addr i col _ ht hN hL)
      simpa using this

theorem setDigit_sized (charTable : List Nat) (hT : charTable.length = 128) (N L : Nat)
    (s : LedControl) (addr digit : Int) (value : Nat) (dp reverse : Bool)
    (h : Sized N L s) (hN : N ≤ 8) (hL : 2 * N ≤ L) :
    ∃ s2, setDigit charTable s addr digit value dp reverse = some s2 ∧ Sized N L s2 := by
  by_cases ha : addr < 0 ∨ addr ≥ s.maxDevices
  · exact ⟨s, by unfold setDigit; rw [if_pos ha], h⟩
  · by_cases hb : digit < 0 ∨ digit > 7 ∨ value > 15
    · exact ⟨s, by unfold setDigit; rw [if_neg ha, if_pos hb], h⟩
    · lift addr to Nat using (by omega) with c
      lift digit to Nat using (by omega) with d
      have hc : c < N := by have := h.1; omega
      obtain ⟨hw, -, -⟩ := status_access s.status c d h.2.1 (by omega) (by omega)
      have hv : value < charTable.length := by omega
      unfold setDigit
      rw [if_neg ha, if_neg hb]
      simp only [hw, readAt_nat _ _ hv, Option.bind_eq_bind, Option.some_bind]
      exact transfer_sized N L _ c d _ reverse (h.set_status _ _) hL hc (by omega)

theorem setChar_sized (charTable : List Nat) (hT : charTable.length = 128) (N L : Nat)
    (s : LedControl) (addr digit value : Int) (dp reverse : Bool)
    (h : Sized N L s) (hN : N ≤ 8) (hL : 2 * N ≤ L) :
    ∃ s2, setChar charTable s addr digit value dp reverse = some s2 ∧ Sized N L s2 := by
  by_cases ha : addr < 0 ∨ addr ≥ s.maxDevices
  · exact ⟨s, by unfold setChar; rw [if_pos ha], h⟩
  · by_cases hb : digit < 0 ∨ digit > 7
    · exact ⟨s, by unfold setChar; rw [if_neg ha, if_pos hb], h⟩
    · lift addr to Nat using (by omega) with c
      lift digit to Nat using (by omega) with d
      have hc : c < N := by have := h.1; omega
      obtain ⟨hw, -, -⟩ := status_access s.status c d h.2.1 (by omega) (by omega)
      have hv : (if toByte value > 127 then 32 else toByte value) < charTable.length := by
        split <;> omega
      unfold setChar
      rw [if_neg ha, if_neg hb]
      simp only [hw, readAt_nat _ _ hv, Option.bind_eq_bind, Option.some_bind]
      exact transfer_sized N L _ c d _ reverse (h.set_status _ _) hL hc (by omega)

theorem clearDisplay_sized (N L : Nat) (s : LedControl) (addr : Int)
    (h : Sized N L s) (hN : N ≤ 8) (hL : 2 * N ≤ L) :
    ∃ s2, clearDisplay s addr = some s2 ∧ Sized N L s2 := by
  by_cases ha : addr < 0 ∨ addr ≥ s.maxDevices
  · exact ⟨s, by unfold clearDisplay; rw [if_pos ha], h⟩
  · lift addr to Nat using (by omega) with c
    have hc : c < N := by have := h.1; omega
    unfold clearDisplay
    rw [if_neg ha]
    have := forUp_inv (fun i (t : LedControl) => do
        let st ← writeAt t.status ((c : Int) * 8 + i) 0
        let t := { t with status := st }
        let cur ← readAt t.status ((c : Int) * 8 + i)
        transfer t (c : Int) (toByte (i + 1)) cur false)
      (Sized N L) 8 0 s h (fun i t _ hi ht => by
        obtain ⟨hw, hrb, -⟩ := status_access t.status c i ht.2.1 (by omega) (by omega)
        simp only [hw, hrb, Option.bind_eq_bind, Option.some_bind]
        exact transfer_sized N L _ c i _ false (ht.set_status _ _) hL hc (by omega))
    simpa using this

theorem shutdown_sized (N L : Nat) (s : LedControl) (addr : Int) (b : Bool)
    (h : Sized N L s) (hL : 2 * N ≤ L) :
    ∃ s2, shutdown s addr b = some s2 ∧ Sized N L s2 := by
  by_cases ha : addr < 0 ∨ addr ≥ s.maxDevices
  · exact ⟨s, by unfold shutdown; rw [if_pos ha], h⟩
  · lift addr to Nat using (by omega) with c
    have hc : c < N := by have := h.1; omega
    unfold shutdown
    rw [if_neg ha]
    cases b
    · simpa using spiTransfer_sized N L s c OP_SHUTDOWN 1 h hL hc
    · simpa using spiTransfer_sized N L s c OP_SHUTDOWN 0 h hL hc

theorem setScanLimit_sized (N L : Nat) (s : LedControl) (addr limit : Int)
    (h : Sized N L s) (hL : 2 * N ≤ L) :
    ∃ s2, setScanLimit s addr limit = some s2 ∧ Sized N L s2 := by
  by_cases ha : addr < 0 ∨ addr ≥ s.maxDevices
  · exact ⟨s, by unfold setScanLimit; rw [if_pos ha], h⟩
  · by_cases hb : limit ≥ 0 ∧ limit < 8
    · lift addr to Nat using (by omega) with c
      have hc : c < N := by have := h.1; omega
      unfold setScanLimit
      rw [if_neg ha, if_pos hb]
      exact spiTransfer_sized N L s c _ _ h hL hc
    · exact ⟨s, by unfold setScanLimit; rw [if_neg ha, if_neg hb], h⟩

theorem setIntensity_sized (N L : Nat) (s : LedControl) (addr intensity : Int)
    (h : Sized N L s) (hL : 2 * N ≤ L) :
    ∃ s2, setIntensity s addr intensity = some s2 ∧ Sized N L s2 := by
  by_cases ha : addr < 0 ∨ addr ≥ s.maxDevices
  · exact ⟨s, by unfold setIntensity; rw [if_pos ha], h⟩
  · by_cases hb : intensity ≥ 0 ∧ intensity < 16
    · lift addr to Nat using (by omega) with c
      have hc : c < N := by have := h.1; omega
      unfold setIntensity
      rw [if_neg ha, if_pos hb]
      exact spiTransfer_sized N L s c _ _ h hL hc
    · exact ⟨s, by unfold setIntensity; rw [if_neg ha, if_neg hb], h⟩

/-- Every call returns on a transmit buffer of `L` bytes, provided `L` is at least
twice the chip count. -/
theorem step_sized (charTable : List Nat) (hT : charTable.length = 128) (N L : Nat)
    (s : LedControl) (op : Op) (h : Sized N L s) (hN : N ≤ 8) (hL : 2 * N ≤ L) :
    ∃ s2, step charTable s op = some s2 ∧ Sized N L s2 := by
  cases op with
  | getDeviceCount => exact ⟨s, rfl, h⟩
  | setCommonAnode value => exact ⟨setCommonAnode s value, rfl, h⟩
  | shutdown addr b => exact shutdown_sized N L s addr b h hL
  | setScanLimit addr limit => exact setScanLimit_sized N L s addr limit h hL
  | setIntensity addr intensity => exact setIntensity_sized N L s addr intensity h hL
  | clearDisplay addr => exact clearDisplay_sized N L s addr h hN hL
  | setLed addr row column state => exact setLed_sized N L s addr row column state h hN hL
  | setRow addr row value => exact setRow_sized N L s addr row (toByte value) h hN hL
  | setColumn addr col value => exact setColumn_sized N L s addr col (toByte value) h hN hL
  | setDigit addr digit value dp reverse =>
    exact setDigit_sized charTable hT N L s addr digit (toByte value) dp reverse h hN hL
  | setChar addr digit value dp reverse =>
    exact setChar_sized charTable hT N L s addr digit value dp reverse h hN hL

/-- Every sequence of calls returns on a transmit buffer of `L` bytes, provided
`L` is at least twice the chip count. -/
theorem run_sized (charTable : List Nat) (hT : charTable.length = 128) (N L : Nat)
    (hN : N ≤ 8) (hL : 2 * N ≤ L) (ops : List Op) :
    ∀ (s : LedControl), Sized N L s → ∃ s2, run charTable s ops = some s2 ∧ Sized N L s2 := by
  induction ops with
  | nil => intro s h; exact ⟨s, rfl, h⟩
  | cons op rest ih =>
    intro s h
    obtain ⟨s1, hrun1, h1⟩ := step_sized charTable hT N L s op h hN hL
    obtain ⟨s2, hrun2, h2⟩ := ih s1 h1
    refine ⟨s2, ?_, h2⟩
    unfold run at hrun2 ⊢
    rw [List.foldlM_cons, hrun1]
    exact hrun2

theorem bytesInUse_eq (numDevices : Int) :
    ∃ N : Nat, 1 ≤ N ∧ N ≤ 8 ∧ bytesInUse numDevices = 2 * N ∧
      (if numDevices ≤ 0 ∨ numDevices > 8 then 8 else numDevices) = (N : Int) := by
  unfold bytesInUse
  by_cases h : numDevices ≤ 0 ∨ numDevices > 8
  · exact ⟨8, by omega, by omega, by rw [if_pos h]; rfl, by rw [if_pos h]; rfl⟩
  · rw [if_neg h]
    exact ⟨numDevices.toNat, by omega, by omega, rfl, by omega⟩

/-- The constructor returns on a transmit buffer of `L` bytes, provided `L` is at
least twice the clamped chip count. -/
theorem construct_sized (pre : LedControl) (numDevices : Int) (N L : Nat)
    (hN : (if numDevices ≤ 0 ∨ numDevices > 8 then 8 else numDevices) = (N : Int))
    (hst : pre.status.length = 64) (hcad : pre.commonAnodeData.length = 8)
    (hsd : pre.spidata.length = L) (hL : 2 * N ≤ L) :
    ∃ s, construct pre numDevices = some s ∧ Sized N L s := by
  have h0 : Sized N L { ({ pre with maxDevices := (N : Int) } : LedControl) with
      bus := pre.bus ++ [BusEvent.select true] } := ⟨rfl, hst, hcad, hsd⟩
  obtain ⟨s1, hrun1, hs1⟩ := forUp_inv (fun i (t : LedControl) => do
      let st ← writeAt t.status i 0x00
      pure { t with status := st }) (Sized N L) 64 0 _ h0 (fun i t _ hi ht => by
        have hlt : i < t.status.length := by rw [ht.2.1]; omega
        simp only [writeAt_nat _ _ _ hlt, Option.bind_eq_bind, Option.some_bind,
          Option.pure_def]
        exact ⟨_, rfl, ht.set_status _ _⟩)
  obtain ⟨s2, hrun2, hs2⟩ := forUp_inv (fun i (t : LedControl) => do
      let t ← spiTransfer t i OP_DISPLAYTEST 0
      let t ← setScanLimit t i 7
      let t ← spiTransfer t i OP_DECODEMODE 0
      let t ← clearDisplay t i
      shutdown t i true) (Sized N L) N 0 s1 hs1 (fun i t _ hi ht => by
        have hN8 : N ≤ 8 := by split at hN <;> omega
        obtain ⟨t1, hr1, ht1⟩ := spiTransfer_sized N L t i OP_DISPLAYTEST 0 ht hL (by omega)
        obtain ⟨t2, hr2, ht2⟩ := setScanLimit_sized N L t1 i 7 ht1 hL
        obtain ⟨t3, hr3, ht3⟩ := spiTransfer_sized N L t2 i OP_DECODEMODE 0 ht2 hL (by omega)
        obtain ⟨t4, hr4, ht4⟩ := clearDisplay_sized N L t3 i ht3 hN8 hL
        obtain ⟨t5, hr5, ht5⟩ := shutdown_sized N L t4 i true ht4 hL
        exact ⟨t5, by simp only [Option.bind_eq_bind, hr1, Option.some_bind, hr2, hr3, hr4, hr5],
          ht5⟩)
  have h2 : Sized N L { s2 with commonAnode := false } := hs2
  obtain ⟨s3, hrun3, hs3⟩ := forUp_inv (fun i (t : LedControl) => do
      let cad ← writeAt t.commonAnodeData i 0b00000000
      pure { t with commonAnodeData := cad }) (Sized N L) 8 0 _ h2 (fun i t _ hi ht => by
        have hlt : i < t.commonAnodeData.length := by rw [ht.2.2.1]; omega
        simp only [writeAt_nat _ _ _ hlt, Option.bind_eq_bind, Option.some_bind,
          Option.pure_def]
        exact ⟨_, rfl, ht.1, ht.2.1, by simpa using ht.2.2.1, ht.2.2.2⟩)
  have e1 : s1.maxDevices.toNat = N := by rw [hs1.1]; omega
  refine ⟨s3, ?_, hs3⟩
  unfold construct
  simp only [Option.bind_eq_bind, Option.pure_def, hN, Nat.cast_zero] at hrun1 hrun2 hrun3 ⊢
  rw [hrun1]
  simp only [Option.some_bind, e1]
  rw [hrun2]
  simp only [Option.some_bind]
  exact hrun3

/-! ## Bytes behind the part of the transmit buffer in use

A run that returns on a transmit buffer returns on every longer one, with the
same result and the added bytes untouched. -/

theorem readAt_append (a tail : List Nat) (i : Int) (x : Nat) (h : readAt a i = some x) :
    readAt (a ++ tail) i = some x := by
  unfold readAt at h ⊢
  by_cases hi : 0 ≤ i ∧ i < a.length
  · rw [if_pos hi] at h
    have hi2 : 0 ≤ i ∧ i < ((a ++ tail).length : Int) := by
      rw [List.length_append]; push_cast; omega
    have hlt : i.toNat < a.length := by omega
    rw [if_pos hi2, List.getElem?_append_left hlt]
    exact h
  · rw [if_neg hi] at h; cases h

theorem writeAt_append (a tail : List Nat) (i : Int) (v : Nat) (a2 : List Nat)
    (h : writeAt a i v = some a2) : writeAt (a ++ tail) i v = some (a2 ++ tail) := by
  unfold writeAt at h ⊢
  by_cases hi : 0 ≤ i ∧ i < a.length
  · rw [if_pos hi] at h
    have hi2 : 0 ≤ i ∧ i < ((a ++ tail).length : Int) := by
      rw [List.length_append]; push_cast; omega
    have hlt : i.toNat < a.length := by omega
    rw [if_pos hi2, List.set_append_left _ _ hlt]
    cases h
    rfl
  · rw [if_neg hi] at h; cases h

theorem forUp_map {σ : Type} (E : σ → σ) (body : Int → σ → Option σ)
    (hb : ∀ i u u2, body i u = some u2 → body i (E u) = some (E u2)) (n : Nat) :
    ∀ (i : Int) (u u2 : σ), forUp body n i u = some u2 →
      forUp body n i (E u) = some (E u2) := by
  induction n with
  | zero =>
    intro i u u2 h
    simp only [forUp, Option.some.injEq] at h ⊢
    rw [h]
  | succ n ih =>
    intro i u u2 h
    simp only [forUp, Option.bind_eq_some] at h ⊢
    obtain ⟨u1, h1, h2⟩ := h
    exact ⟨E u1, hb i u u1 h1, ih (i + 1) u1 u2 h2⟩

theorem forDown_map {σ : Type} (E : σ → σ) (body : Int → σ → Option σ)
    (hb : ∀ i u u2, body i u = some u2 → body i (E u) = some (E u2)) (n : Nat) :
    ∀ (i : Int) (u u2 : σ), forDown body n i u = some u2 →
      forDown body n i (E u) = some (E u2) := by
  induction n with
  | zero =>
    intro i u u2 h
    simp only [forDown, Option.some.injEq] at h ⊢
    rw [h]
  | succ n ih =>
    intro i u u2 h
    simp only [forDown, Option.bind_eq_some] at h ⊢
    obtain ⟨u1, h1, h2⟩ := h
    exact ⟨E u1, hb i u u1 h1, ih (i - 1) u1 u2 h2⟩

theorem spiTransfer_pad (tail : List Nat) (t t2 : LedControl) (addr : Int) (opcode data : Nat)
    (h : spiTransfer t addr opcode data = some t2) :
    spiTransfer (padBuffer t tail) addr opcode data = some (padBuffer t2 tail) := by
  unfold spiTransfer at h ⊢
  simp only [Option.bind_eq_bind, Option.pure_def, Option.bind_eq_some] at h ⊢
  obtain ⟨u1, h1, sd1, hw1, sd2, hw2, u3, h3, h4⟩ := h
  refine ⟨padBuffer u1 tail, ?_, sd1 ++ tail, writeAt_append _ _ _ _ _ hw1, sd2 ++ tail,
    writeAt_append _ _ _ _ _ hw2, padBuffer u3 tail, ?_, ?_⟩
  · apply forUp_map (fun u => padBuffer u tail) _ _ _ _ _ _ h1
    intro i u u2 hu
    simp only [Option.bind_eq_some] at hu ⊢
    obtain ⟨sd, hsd, hu2⟩ := hu
    refine ⟨sd ++ tail, writeAt_append _ _ _ _ _ hsd, ?_⟩
    cases hu2
    rfl
  · apply forDown_map (fun u => padBuffer u tail) _ _ _ _ _ _ h3
    intro i u u2 hu
    simp only [Option.bind_eq_some] at hu ⊢
    obtain ⟨b, hb, hu2⟩ := hu
    refine ⟨b, readAt_append _ _ _ _ hb, ?_⟩
    cases hu2
    rfl
  · cases h4
    rfl

theorem transferSegment_pad (tail : List Nat) (addr : Int) (opcode data : Nat) (cS : Int)
    (t t2 : LedControl) (h : transferSegment addr opcode data cS t = some t2) :
    transferSegment addr opcode data cS (padBuffer t tail) = some (padBuffer t2 tail) := by
  unfold transferSegment at h ⊢
  simp only [Option.bind_eq_bind, Option.bind_eq_some] at h ⊢
  obtain ⟨r, hr, w, hw, acc, hacc, cad, hcad, cur, hcur, hsp⟩ := h
  exact ⟨r, hr, w, hw, acc, hacc, cad, hcad, cur, hcur, spiTransfer_pad tail _ _ _ _ _ hsp⟩

theorem transfer_pad (tail : List Nat) (t t2 : LedControl) (addr : Int) (opcode data : Nat)
    (reverse : Bool) (h : transfer t addr opcode data reverse = some t2) :
    transfer (padBuffer t tail) addr opcode data reverse = some (padBuffer t2 tail) := by
  unfold transfer at h ⊢
  by_cases hca : t.commonAnode = true
  · have hca2 : (padBuffer t tail).commonAnode = true := hca
    rw [if_pos hca] at h
    rw [if_pos hca2]
    exact forUp_map (fun u => padBuffer u tail) _
      (fun i u u2 hu => transferSegment_pad tail _ _ _ _ _ _ hu) _ _ _ _ h
  · have hca2 : ¬ ((padBuffer t tail).commonAnode = true) := hca
    rw [if_neg hca] at h
    rw [if_neg hca2]
    exact spiTransfer_pad tail _ _ _ _ _ h

theorem padBuffer_maxDevices (t : LedControl) (tail : List Nat) :
    (padBuffer t tail).maxDevices = t.maxDevices := rfl

theorem padBuffer_status (t : LedControl) (tail : List Nat) :
    (padBuffer t tail).status = t.status := rfl

theorem shutdown_pad (tail : List Nat) (t t2 : LedControl) (addr : Int) (b : Bool)
    (h : shutdown t addr b = some t2) :
    shutdown (padBuffer t tail) addr b = some (padBuffer t2 tail) := by
  unfold shutdown at h ⊢
  simp only [padBuffer_maxDevices]
  by_cases ha : addr < 0 ∨ addr ≥ t.maxDevices
  · rw [if_pos ha] at h ⊢; cases h; rfl
  · rw [if_neg ha] at h ⊢
    cases b
    · exact spiTransfer_pad tail _ _ _ _ _ h
    · exact spiTransfer_pad tail _ _ _ _ _ h

theorem setScanLimit_pad (tail : List Nat) (t t2 : LedControl) (addr limit : Int)
    (h : setScanLimit t addr limit = some t2) :
    setScanLimit (padBuffer t tail) addr limit = some (padBuffer t2 tail) := by
  unfold setScanLimit at h ⊢
  simp only [padBuffer_maxDevices]
  by_cases ha : addr < 0 ∨ addr ≥ t.maxDevices
  · rw [if_pos ha] at h ⊢; cases h; rfl
  · rw [if_neg ha] at h ⊢
    by_cases hb : limit ≥ 0 ∧ limit < 8
    · rw [if_pos hb] at h ⊢
      exact spiTransfer_pad tail _ _ _ _ _ h
    · rw [if_neg hb] at h ⊢; cases h; rfl

theorem setIntensity_pad (tail : List Nat) (t t2 : LedControl) (addr intensity : Int)
    (h : setIntensity t addr intensity = some t2) :
    setIntensity (padBuffer t tail) addr intensity = some (padBuffer t2 tail) := by
  unfold setIntensity at h ⊢
  simp only [padBuffer_maxDevices]
  by_cases ha : addr < 0 ∨ addr ≥ t.maxDevices
  · rw [if_pos ha] at h ⊢; cases h; rfl
  · rw [if_neg ha] at h ⊢
    by_cases hb : intensity ≥ 0 ∧ intensity < 16
    · rw [if_pos hb] at h ⊢
      exact spiTransfer_pad tail _ _ _ _ _ h
    · rw [if_neg hb] at h ⊢; cases h; rfl

theorem clearDisplay_pad (tail : List Nat) (t t2 : LedControl) (addr : Int)
    (h : clearDisplay t addr = some t2) :
    clearDisplay (padBuffer t tail) addr = some (padBuffer t2 tail) := by
  unfold clearDisplay at h ⊢
  simp only [padBuffer_maxDevices]
  by_cases ha : addr < 0 ∨ addr ≥ t.maxDevices
  · rw [if_pos ha] at h ⊢; cases h; rfl
  · rw [if_neg ha] at h ⊢
    apply forUp_map (fun u => padBuffer u tail) _ _ _ _ _ _ h
    intro i u u2 hu
    simp only [Option.bind_eq_bind, Option.bind_eq_some] at hu ⊢
    obtain ⟨st, hst, cur, hcur, htr⟩ := hu
    exact ⟨st, hst, cur, hcur, transfer_pad tail { u with status := st } u2 _ _ _ _ htr⟩

theorem setLed_pad (tail : List Nat) (t t2 : LedControl) (addr row column : Int) (state : Bool)
    (h : setLed t addr row column state = some t2) :
    setLed (padBuffer t tail) addr row column state = some (padBuffer t2 tail) := by
  unfold setLed at h ⊢
  simp only [padBuffer_maxDevices, padBuffer_status]
  by_cases ha : addr < 0 ∨ addr ≥ t.maxDevices
  · rw [if_pos ha] at h ⊢; cases h; rfl
  · rw [if_neg ha] at h ⊢
    by_cases hb : row < 0 ∨ row > 7 ∨ column < 0 ∨ column > 7
    · rw [if_pos hb] at h ⊢; cases h; rfl
    · rw [if_neg hb] at h ⊢
      cases state
      · simp only [Bool.false_eq_true, if_false, Option.bind_eq_bind, Option.bind_eq_some]
          at h ⊢
        obtain ⟨old, hold, st, hst, cur, hcur, htr⟩ := h
        exact ⟨old, hold, st, hst, cur, hcur,
          transfer_pad tail { t with status := st } t2 _ _ _ _ htr⟩
      · simp only [if_true, Option.bind_eq_bind, Option.bind_eq_some] at h ⊢
        obtain ⟨old, hold, st, hst, cur, hcur, htr⟩ := h
        exact ⟨old, hold, st, hst, cur, hcur,
          transfer_pad tail { t with status := st } t2 _ _ _ _ htr⟩

theorem setRow_pad (tail : List Nat) (t t2 : LedControl) (addr row : Int) (value : Nat)
    (h : setRow t addr row value = some t2) :
    setRow (padBuffer t tail) addr row value = some (padBuffer t2 tail) := by
  unfold setRow at h ⊢
  simp only [padBuffer_maxDevices, padBuffer_status]
  by_cases ha : addr < 0 ∨ addr ≥ t.maxDevices
  · rw [if_pos ha] at h ⊢; cases h; rfl
  · rw [if_neg ha] at h ⊢
    by_cases hb : row < 0 ∨ row > 7
    · rw [if_pos hb] at h ⊢; cases h; rfl
    · rw [if_neg hb] at h ⊢
      simp only [Option.bind_eq_bind, Option.bind_eq_some] at h ⊢
      obtain ⟨st, hst, cur, hcur, htr⟩ := h
      exact ⟨st, hst, cur, hcur, transfer_pad tail { t with status := st } t2 _ _ _ _ htr⟩

theorem setColumn_pad (tail : List Nat) (t t2 : LedControl) (addr col : Int) (value : Nat)
    (h : setColumn t addr col value = some t2) :
    setColumn (padBuffer t tail) addr col value = some (padBuffer t2 tail) := by
  unfold setColumn at h ⊢
  simp only [padBuffer_maxDevices]
  by_cases ha : addr < 0 ∨ addr ≥ t.maxDevices
  · rw [if_pos ha] at h ⊢; cases h; rfl
  · rw [if_neg ha] at h ⊢
    by_cases hb : col < 0 ∨ col > 7
    · rw [if_pos hb] at h ⊢; cases h; rfl
    · rw [if_neg hb] at h ⊢
      apply forUp_map (fun u => padBuffer u tail) _ _ _ _ _ _ h
      intro i u u2 hu
      exact setLed_pad tail _ _ _ _ _ _ hu

theorem setDigit_pad (charTable : List Nat) (tail : List Nat) (t t2 : LedControl)
    (addr digit : Int) (value : Nat) (dp reverse : Bool)
    (h : setDigit charTable t addr digit value dp reverse = some t2) :
    setDigit charTable (padBuffer t tail) addr digit value dp reverse
      = some (padBuffer t2 tail) := by
  unfold setDigit at h ⊢
  simp only [padBuffer_maxDevices, padBuffer_status]
  by_cases ha : addr < 0 ∨ addr ≥ t.maxDevices
  · rw [if_pos ha] at h ⊢; cases h; rfl
  · rw [if_neg ha] at h ⊢
    by_cases hb : digit < 0 ∨ digit > 7 ∨ value > 15
    · rw [if_pos hb] at h ⊢; cases h; rfl
    · rw [if_neg hb] at h ⊢
      simp only [Option.bind_eq_bind, Option.bind_eq_some] at h ⊢
      obtain ⟨v, hv, st, hst, htr⟩ := h
      exact ⟨v, hv, st, hst, transfer_pad tail { t with status := st } t2 _ _ _ _ htr⟩

theorem setChar_pad (charTable : List Nat) (tail : List Nat) (t t2 : LedControl)
    (addr digit value : Int) (dp reverse : Bool)
    (h : setChar charTable t addr digit value dp reverse = some t2) :
    setChar charTable (padBuffer t tail) addr digit value dp reverse
      = some (padBuffer t2 tail) := by
  unfold setChar at h ⊢
  simp only [padBuffer_maxDevices, padBuffer_status]
  by_cases ha : addr < 0 ∨ addr ≥ t.maxDevices
  · rw [if_pos ha] at h ⊢; cases h; rfl
  · rw [if_neg ha] at h ⊢
    by_cases hb : digit < 0 ∨ digit > 7
    · rw [if_pos hb] at h ⊢; cases h; rfl
    · rw [if_neg hb] at h ⊢
      simp only [Option.bind_eq_bind, Option.bind_eq_some] at h ⊢
      obtain ⟨v, hv, st, hst, htr⟩ := h
      exact ⟨v, hv, st, hst, transfer_pad tail { t with status := st } t2 _ _ _ _ htr⟩

/-- A call that returns on a transmit buffer returns on every longer one, with
the same result and the added bytes untouched. -/
theorem step_pad (charTable : List Nat) (tail : List Nat) (t t2 : LedControl) (op : Op)
    (h : step charTable t op = some t2) :
    step charTable (padBuffer t tail) op = some (padBuffer t2 tail) := by
  cases op with
  | getDeviceCount => simp only [step, Option.some.injEq] at h ⊢; rw [h]
  | setCommonAnode value =>
    simp only [step, Option.some.injEq] at h ⊢
    rw [← h]; rfl
  | shutdown addr b => exact shutdown_pad tail _ _ _ _ h
  | setScanLimit addr limit => exact setScanLimit_pad tail _ _ _ _ h
  | setIntensity addr intensity => exact setIntensity_pad tail _ _ _ _ h
  | clearDisplay addr => exact clearDisplay_pad tail _ _ _ h
  | setLed addr row column state => exact setLed_pad tail _ _ _ _ _ _ h
  | setRow addr row value => exact setRow_pad tail _ _ _ _ _ h
  | setColumn addr col value => exact setColumn_pad tail _ _ _ _ _ h
  | setDigit addr digit value dp reverse => exact setDigit_pad charTable tail _ _ _ _ _ _ _ h
  | setChar addr digit value dp reverse => exact setChar_pad charTable tail _ _ _ _ _ _ _ h

/-- A sequence of calls that returns on a transmit buffer returns on every longer
one, with the same result and the added bytes untouched. -/
theorem run_pad (charTable : List Nat) (tail : List Nat) (ops : List Op) :
    ∀ (t t2 : LedControl), run charTable t ops = some t2 →
      run charTable (padBuffer t tail) ops = some (padBuffer t2 tail) := by
  induction ops with
  | nil =>
    intro t t2 h
    simp only [run, List.foldlM_nil, Option.pure_def, Option.some.injEq] at h ⊢
    rw [h]
  | cons op rest ih =>
    intro t t2 h
    unfold run at h ih ⊢
    rw [List.foldlM_cons] at h ⊢
    simp only [Option.bind_eq_bind, Option.bind_eq_some] at h ⊢
    obtain ⟨t1, h1, h2⟩ := h
    exact ⟨padBuffer t1 tail, step_pad charTable tail _ _ _ h1, ih _ _ h2⟩

/-- A construction that returns on a transmit buffer returns on every longer one,
with the same result and the added bytes untouched. -/
theorem construct_pad (tail : List Nat) (pre t : LedControl) (numDevices : Int)
    (h : construct pre numDevices = some t) :
    construct (padBuffer pre tail) numDevices = some (padBuffer t tail) := by
  unfold construct at h ⊢
  simp only [Option.bind_eq_bind, Option.pure_def, Option.bind_eq_some] at h ⊢
  obtain ⟨s1, h1, s2, h2, h3⟩ := h
  refine ⟨padBuffer s1 tail, ?_, padBuffer s2 tail, ?_, ?_⟩
  · apply forUp_map (fun u => padBuffer u tail) _ _ _ _ _ _ h1
    intro i u u2 hu
    simp only [Option.bind_eq_some] at hu ⊢
    obtain ⟨st, hst, hu2⟩ := hu
    refine ⟨st, hst, ?_⟩
    cases hu2
    rfl
  · apply forUp_map (fun u => padBuffer u tail) _ _ _ _ _ _ h2
    intro i u u2 hu
    simp only [Option.bind_eq_bind, Option.bind_eq_some] at hu ⊢
    obtain ⟨t1, hr1, t2, hr2, t3, hr3, t4, hr4, hr5⟩ := hu
    exact ⟨_, spiTransfer_pad tail _ _ _ _ _ hr1, _, setScanLimit_pad tail _ _ _ _ hr2,
      _, spiTransfer_pad tail _ _ _ _ _ hr3, _, clearDisplay_pad tail _ _ _ hr4,
      shutdown_pad tail _ _ _ _ hr5⟩
  · apply forUp_map (fun u => padBuffer u tail) _ _ _ _ _ _ h3
    intro i u u2 hu
    simp only [Option.bind_eq_some] at hu ⊢
    obtain ⟨cad, hcad, hu2⟩ := hu
    refine ⟨cad, hcad, ?_⟩
    cases hu2
    rfl

/-- On a transmit buffer of exactly `2 * N` bytes the bus driver fails for every
chip address outside `0..N-1`: the store at `addr * 2 + 1` is out of bounds. -/
theorem spiTransfer_outside (N : Nat) (t : LedControl) (addr : Int) (opcode data : Nat)
    (hN : t.maxDevices = (N : Int)) (hlen : t.spidata.length = 2 * N)
    (ha : addr < 0 ∨ (N : Int) ≤ addr) : spiTransfer t addr opcode data = none := by
  have hz := zeroLoop (2 * N) 0 t t.spidata (by simp) (by omega)
  have e1 : (t.maxDevices * 2).toNat = 2 * N := by rw [hN]; omega
  have hw : writeAt (List.replicate (2 * N) 0 ++ List.drop (2 * N) t.spidata) (addr * 2 + 1)
      opcode = none := by
    unfold writeAt
    rw [if_neg]
    simp only [List.length_append, List.length_replicate, List.length_drop, hlen]
    push_cast
    omega
  unfold spiTransfer
  simp only [e1, Nat.cast_zero, Nat.zero_add] at hz ⊢
  simp only [Option.bind_eq_bind, Option.pure_def] at hz ⊢
  rw [hz]
  simp only [Option.some_bind, hw, Option.none_bind]

/-! ## The claims -/

/-- C1. On a chain of `N` chips (`1 ≤ N ≤ 8`) and for a chip index `c < N`,
`spiTransfer(c, opcode, data)` emits: select low, exactly `2 * N` bytes, select
high.  In emission order the byte at position `2 * (N - 1 - c)` is `opcode`, the
next one is `data`, and the other `2 * N - 2` bytes are `0`.  For `N = 4` and
`c = 2` the bytes are `0, 0, opcode, data, 0, 0, 0, 0`. -/
theorem spiTransfer_bus_trace (s : LedControl) (N c opcode data : Nat) (h : WF s)
    (hN : s.maxDevices = (N : Int)) (hc : c < N) (hop : opcode < 256) (hd : data < 256) :
    ∃ s2 bytes, spiTransfer s (c : Int) opcode data = some s2 ∧
      s2.bus = s.bus ++ [BusEvent.select false] ++ bytes.map BusEvent.shiftOut
        ++ [BusEvent.select true] ∧
      bytes.length = 2 * N ∧
      bytes[2 * (N - 1 - c)]? = some opcode ∧
      bytes[2 * (N - 1 - c) + 1]? = some data ∧
      (∀ p, p < 2 * N → p ≠ 2 * (N - 1 - c) → p ≠ 2 * (N - 1 - c) + 1 → bytes[p]? = some 0) ∧
      (N = 4 → c = 2 → bytes = [0, 0, opcode, data, 0, 0, 0, 0]) := by
  have hc2 : (c : Int) < s.maxDevices := by rw [hN]; exact_mod_cast hc
  have hNn : s.maxDevices.toNat = N := by rw [hN]; simp
  obtain ⟨hrun, -⟩ := spiTransfer_wf s c opcode data h hc2
  rw [hNn, Nat.mod_eq_of_lt hop, Nat.mod_eq_of_lt hd] at hrun
  refine ⟨_, frameBytes N c opcode data, hrun, ?_, ?_, ?_, ?_, ?_, ?_⟩
  · simp [frame]
  · simp [frameBytes]
  · have : 2 * (N - 1 - c) < 2 * N := by omega
    simp [frameBytes, List.getElem?_map, List.getElem?_range this]
  · have : 2 * (N - 1 - c) + 1 < 2 * N := by omega
    simp [frameBytes, List.getElem?_map, List.getElem?_range this]
  · intro p hp h1 h2
    simp [frameBytes, List.getElem?_map, List.getElem?_range hp, h1, h2]
  · intro h4 h2
    subst h4 h2
    rfl

/-- C1, at a four-chip chain, chip 2, opcode 3 and data 170. -/
theorem spiTransfer_bus_trace_witness :
    WF chain4 ∧ chain4.maxDevices = ((4 : Nat) : Int) ∧ 2 < 4 ∧ 3 < 256 ∧ 170 < 256 ∧
    ∃ s2 bytes, spiTransfer chain4 ((2 : Nat) : Int) 3 170 = some s2 ∧
      s2.bus = chain4.bus ++ [BusEvent.select false] ++ bytes.map BusEvent.shiftOut
        ++ [BusEvent.select true] ∧
      bytes.length = 2 * 4 ∧
      bytes[2 * (4 - 1 - 2)]? = some 3 ∧
      bytes[2 * (4 - 1 - 2) + 1]? = some 170 ∧
      (∀ p, p < 2 * 4 → p ≠ 2 * (4 - 1 - 2) → p ≠ 2 * (4 - 1 - 2) + 1 → bytes[p]? = some 0) ∧
      (4 = 4 → 2 = 2 → bytes = [0, 0, 3, 170, 0, 0, 0, 0]) :=
  ⟨by decide, by decide, by decide, by decide, by decide,
    spiTransfer_bus_trace chain4 4 2 3 170 (by decide) (by decide) (by decide) (by decide)
      (by decide)⟩

/-- C2. In common-anode mode, for a valid chip `addr`, an opcode in `1..8` and a
data byte, `transfer(addr, opcode, data, false)` sets, for each `cS` in `0..7`,
bit `writeIndex` of `commonAnodeData[cS]` to bit `readIndex` of `data` and leaves
its other seven bits unchanged, where `readIndex` is 7 if `cS = 7` else `6 - cS`
and `writeIndex` is 7 if `opcode = 8` else `7 - opcode`; and it issues exactly 8
bus transactions to chip `addr`, for `cS = 0..7` in that order, the `cS`-th being
(register `cS + 1`, the updated `commonAnodeData[cS]`). -/
theorem transfer_commonAnode_remap (s : LedControl) (N addr opcode data : Nat) (h : WF s)
    (hN : s.maxDevices = (N : Int)) (haddr : addr < N) (hop1 : 1 ≤ opcode) (hop8 : opcode ≤ 8)
    (hca : s.commonAnode = true) :
    ∃ s2, transfer s (addr : Int) opcode data false = some s2 ∧
      s2.commonAnodeData.length = 8 ∧
      (∀ cS, cS < 8 → s2.commonAnodeData.getD cS 0 < 256 ∧ ∀ j, j < 8 →
        (s2.commonAnodeData.getD cS 0).testBit j =
          if j = (if opcode = 8 then 7 else 7 - opcode) then
            data.testBit (if cS = 7 then 7 else 6 - cS)
          else (s.commonAnodeData.getD cS 0).testBit j) ∧
      s2.bus = s.bus ++ (List.range 8).flatMap fun cS =>
        frame N addr (cS + 1) (s2.commonAnodeData.getD cS 0) := by
  have hc2 : (addr : Int) < s.maxDevices := by rw [hN]; exact_mod_cast haddr
  have hNn : s.maxDevices.toNat = N := by rw [hN]; simp
  obtain ⟨s2, hrun, hwf2, -, -, -, hcad, hbus⟩ :=
    transfer_anode s addr opcode data false h hc2 hop1 hop8 hca
  simp only [Bool.false_eq_true, if_false] at hcad hbus
  have hget : ∀ cS, cS < 8 → s2.commonAnodeData.getD cS 0
      = remapByte (s.commonAnodeData.getD cS 0) opcode data cS := by
    intro cS hcS
    rw [hcad]
    simp [remapAll, List.getD_eq_getElem?_getD, List.getElem?_map, List.getElem?_range hcS]
  refine ⟨s2, hrun, hwf2.2.2.2.2.1, fun cS hcS => ⟨?_, fun j hj => ?_⟩, ?_⟩
  · rw [hget cS hcS]; exact remapByte_lt _ _ _ _
  · rw [hget cS hcS, remapByte_testBit _ _ _ _ _ hj]
    rfl
  · rw [hbus, hNn]
    unfold remapFrames
    congr 1
    apply List.flatMap_congr
    intro cS hmem
    have hcS : cS < 8 := List.mem_range.1 hmem
    rw [hget cS hcS]
    simp

/-- C2, at the one-chip common-anode chain, register 3 and data `0xA5`. -/
theorem transfer_commonAnode_remap_witness :
    WF anodeChain ∧ anodeChain.maxDevices = ((1 : Nat) : Int) ∧ anodeChain.commonAnode = true ∧
    ∃ s2, transfer anodeChain ((0 : Nat) : Int) 3 0xA5 false = some s2 ∧
      s2.commonAnodeData.length = 8 ∧
      (∀ cS, cS < 8 → s2.commonAnodeData.getD cS 0 < 256 ∧ ∀ j, j < 8 →
        (s2.commonAnodeData.getD cS 0).testBit j =
          if j = (if 3 = 8 then 7 else 7 - 3) then
            (0xA5 : Nat).testBit (if cS = 7 then 7 else 6 - cS)
          else (anodeChain.commonAnodeData.getD cS 0).testBit j) ∧
      s2.bus = anodeChain.bus ++ (List.range 8).flatMap fun cS =>
        frame 1 0 (cS + 1) (s2.commonAnodeData.getD cS 0) :=
  ⟨by decide, by decide, by decide,
    transfer_commonAnode_remap anodeChain 1 0 3 0xA5 (by decide) (by decide) (by decide)
      (by decide) (by decide) (by decide)⟩

/-- C3. A call of `setLed`, `setRow`, `setColumn`, `setDigit`, `setChar`,
`shutdown`, `setScanLimit`, `setIntensity` or `clearDisplay` whose chip address
is outside `0..N-1`, or whose row, column or digit is outside `0..7`, or
(`setDigit`) whose value is above 15, or (`setScanLimit`) whose limit is outside
`0..7`, or (`setIntensity`) whose value is outside `0..15`, returns with the
whole state unchanged (mirror, accumulators, wiring mode, chip count) and the
bus trace unchanged: zero bus transactions. -/
theorem invalid_call_is_silent (charTable : List Nat) (s : LedControl) :
    (∀ addr row column state,
      (addr < 0 ∨ s.maxDevices ≤ addr ∨ row < 0 ∨ 7 < row ∨ column < 0 ∨ 7 < column) →
        setLed s addr row column state = some s) ∧
    (∀ addr row value, (addr < 0 ∨ s.maxDevices ≤ addr ∨ row < 0 ∨ 7 < row) →
        setRow s addr row value = some s) ∧
    (∀ addr col value, (addr < 0 ∨ s.maxDevices ≤ addr ∨ col < 0 ∨ 7 < col) →
        setColumn s addr col value = some s) ∧
    (∀ addr digit value dp reverse,
      (addr < 0 ∨ s.maxDevices ≤ addr ∨ digit < 0 ∨ 7 < digit ∨ 15 < value) →
        setDigit charTable s addr digit value dp reverse = some s) ∧
    (∀ addr digit value dp reverse, (addr < 0 ∨ s.maxDevices ≤ addr ∨ digit < 0 ∨ 7 < digit) →
        setChar charTable s addr digit value dp reverse = some s) ∧
    (∀ addr b, (addr < 0 ∨ s.maxDevices ≤ addr) → shutdown s addr b = some s) ∧
    (∀ addr limit, (addr < 0 ∨ s.maxDevices ≤ addr ∨ limit < 0 ∨ 7 < limit) →
        setScanLimit s addr limit = some s) ∧
    (∀ addr intensity, (addr < 0 ∨ s.maxDevices ≤ addr ∨ intensity < 0 ∨ 15 < intensity) →
        setIntensity s addr intensity = some s) ∧
    (∀ addr, (addr < 0 ∨ s.maxDevices ≤ addr) → clearDisplay s addr = some s) := by
  refine ⟨?_, ?_, ?_, ?_, ?_, ?_, ?_, ?_, ?_⟩
  · intro addr row column state hbad
    unfold setLed
    by_cases ha : addr < 0 ∨ addr ≥ s.maxDevices
    · rw [if_pos ha]
    · have : row < 0 ∨ row > 7 ∨ column < 0 ∨ column > 7 := by omega
      rw [if_neg ha, if_pos this]
  · intro addr row value hbad
    unfold setRow
    by_cases ha : addr < 0 ∨ addr ≥ s.maxDevices
    · rw [if_pos ha]
    · have : row < 0 ∨ row > 7 := by omega
      rw [if_neg ha, if_pos this]
  · intro addr col value hbad
    unfold setColumn
    by_cases ha : addr < 0 ∨ addr ≥ s.maxDevices
    · rw [if_pos ha]
    · have : col < 0 ∨ col > 7 := by omega
      rw [if_neg ha, if_pos this]
  · intro addr digit value dp reverse hbad
    unfold setDigit
    by_cases ha : addr < 0 ∨ addr ≥ s.maxDevices
    · rw [if_pos ha]
    · have : digit < 0 ∨ digit > 7 ∨ value > 15 := by omega
      rw [if_neg ha, if_pos this]
  · intro addr digit value dp reverse hbad
    unfold setChar
    by_cases ha : addr < 0 ∨ addr ≥ s.maxDevices
    · rw [if_pos ha]
    · have : digit < 0 ∨ digit > 7 := by omega
      rw [if_neg ha, if_pos this]
  · intro addr b hbad
    have ha : addr < 0 ∨ addr ≥ s.maxDevices := by omega
    unfold shutdown
    rw [if_pos ha]
  · intro addr limit hbad
    unfold setScanLimit
    by_cases ha : addr < 0 ∨ addr ≥ s.maxDevices
    · rw [if_pos ha]
    · have : ¬ (limit ≥ 0 ∧ limit < 8) := by omega
      rw [if_neg ha, if_neg this]
  · intro addr intensity hbad
    unfold setIntensity
    by_cases ha : addr < 0 ∨ addr ≥ s.maxDevices
    · rw [if_pos ha]
    · have : ¬ (intensity ≥ 0 ∧ intensity < 16) := by omega
      rw [if_neg ha, if_neg this]
  · intro addr hbad
    have ha : addr < 0 ∨ addr ≥ s.maxDevices := by omega
    unfold clearDisplay
    rw [if_pos ha]

/-- C3, at the four-chip chain: chip 4 does not exist, and row 8, column -1,
digit value 16, scan limit 8 and intensity 16 are out of range. -/
theorem invalid_call_is_silent_witness :
    setLed chain4 4 0 0 true = some chain4 ∧ setLed chain4 0 0 (-1) true = some chain4 ∧
    setRow chain4 0 8 0xFF = some chain4 ∧ setColumn chain4 (-1) 0 0xFF = some chain4 ∧
    setDigit [] chain4 0 0 16 false false = some chain4 ∧
    setChar [] chain4 0 8 65 false false = some chain4 ∧
    shutdown chain4 4 true = some chain4 ∧ setScanLimit chain4 0 8 = some chain4 ∧
    setIntensity chain4 0 16 = some chain4 ∧ clearDisplay chain4 (-1) = some chain4 :=
  ⟨(invalid_call_is_silent [] chain4).1 4 0 0 true (by decide),
    (invalid_call_is_silent [] chain4).1 0 0 (-1) true (by decide),
    (invalid_call_is_silent [] chain4).2.1 0 8 0xFF (by decide),
    (invalid_call_is_silent [] chain4).2.2.1 (-1) 0 0xFF (by decide),
    (invalid_call_is_silent [] chain4).2.2.2.1 0 0 16 false false (by decide),
    (invalid_call_is_silent [] chain4).2.2.2.2.1 0 8 65 false false (by decide),
    (invalid_call_is_silent [] chain4).2.2.2.2.2.1 4 true (by decide),
    (invalid_call_is_silent [] chain4).2.2.2.2.2.2.1 0 8 (by decide),
    (invalid_call_is_silent [] chain4).2.2.2.2.2.2.2.1 0 16 (by decide),
    (invalid_call_is_silent [] chain4).2.2.2.2.2.2.2.2 (-1) (by decide)⟩

/-- C4. For a valid chip `c`, row `r` and column `k` in `0..7`,
`setLed(c, r, k, state)` replaces mirror byte `(c, r)` by `old | m` when `state`
is true and by `old & ~m` (as a byte) when it is false, where `m = 1 << (7 - k)`;
every other mirror byte is unchanged; and in common-cathode mode it issues
exactly one bus transaction to chip `c`, at register `r + 1`, carrying the new
mirror byte. -/
theorem setLed_mirror_and_bus (s : LedControl) (N c r k : Nat) (state : Bool) (h : WF s)
    (hN : s.maxDevices = (N : Int)) (hc : c < N) (hr : r < 8) (hk : k < 8) :
    ∃ s2, setLed s (c : Int) (r : Int) (k : Int) state = some s2 ∧
      mirrorByte s2 c r =
        (if state then mirrorByte s c r ||| (1 <<< (7 - k))
          else mirrorByte s c r &&& (255 - (1 <<< (7 - k)))) ∧
      (∀ c2 r2, r2 < 8 → (c2, r2) ≠ (c, r) → mirrorByte s2 c2 r2 = mirrorByte s c2 r2) ∧
      (s.commonAnode = false →
        s2.bus = s.bus ++ frame N c (r + 1) (mirrorByte s2 c r)) := by
  have hc2 : (c : Int) < s.maxDevices := by rw [hN]; exact_mod_cast hc
  have hNn : s.maxDevices.toNat = N := by rw [hN]; simp
  obtain ⟨s2, hrun, -, -, -, hst, hbus⟩ := setLed_spec s c r k state h hc2 hr hk
  obtain ⟨hm, hothers⟩ := mirrorByte_set s s2 c r _ hr h hc2 hst
  refine ⟨s2, hrun, hm, hothers, fun hca => ?_⟩
  rw [(hbus hca).2, hm, hNn]

/-- C4, at the four-chip chain: switching on the led of chip 1, row 3, column 2. -/
theorem setLed_mirror_and_bus_witness :
    WF chain4 ∧ chain4.maxDevices = ((4 : Nat) : Int) ∧ 1 < 4 ∧ 3 < 8 ∧ 2 < 8 ∧
    ∃ s2, setLed chain4 ((1 : Nat) : Int) ((3 : Nat) : Int) ((2 : Nat) : Int) true = some s2 ∧
      mirrorByte s2 1 3 =
        (if true then mirrorByte chain4 1 3 ||| (1 <<< (7 - 2))
          else mirrorByte chain4 1 3 &&& (255 - (1 <<< (7 - 2)))) ∧
      (∀ c2 r2, r2 < 8 → (c2, r2) ≠ (1, 3) → mirrorByte s2 c2 r2 = mirrorByte chain4 c2 r2) ∧
      (chain4.commonAnode = false →
        s2.bus = chain4.bus ++ frame 4 1 (3 + 1) (mirrorByte s2 1 3)) :=
  ⟨by decide, by decide, by decide, by decide, by decide,
    setLed_mirror_and_bus chain4 4 1 3 2 true (by decide) (by decide) (by decide) (by decide)
      (by decide)⟩

/-- C5. Round trip: for a valid chip `c`, a row `r` in `0..7` and a byte `V`,
after `setRow(c, r, V)` the mirror byte at `(c, r)` is `V` exactly and every
other mirror byte (other rows of `c`, all rows of other chips) is unchanged. -/
theorem setRow_round_trip (s : LedControl) (N c r V : Nat) (h : WF s)
    (hN : s.maxDevices = (N : Int)) (hc : c < N) (hr : r < 8) (hV : V < 256) :
    ∃ s2, setRow s (c : Int) (r : Int) V = some s2 ∧
      mirrorByte s2 c r = V ∧
      (∀ c2 r2, r2 < 8 → (c2, r2) ≠ (c, r) → mirrorByte s2 c2 r2 = mirrorByte s c2 r2) := by
  have hc2 : (c : Int) < s.maxDevices := by rw [hN]; exact_mod_cast hc
  have ha : ¬ ((c : Int) < 0 ∨ (c : Int) ≥ s.maxDevices) := by omega
  have hb : ¬ ((r : Int) < 0 ∨ (r : Int) > 7) := by omega
  obtain ⟨hw, hrb, -, hwf1⟩ := status_store s c r V h hc2 hr
  rw [Nat.mod_eq_of_lt hV] at hw hrb hwf1
  obtain ⟨s2, hrun, -, -, hst, -, -⟩ := transfer_digit _ c r V false hwf1 hc2 hr
  obtain ⟨hm, hothers⟩ := mirrorByte_set s s2 c r _ hr h hc2 hst
  refine ⟨s2, ?_, hm, hothers⟩
  unfold setRow
  rw [if_neg ha, if_neg hb]
  simp only [hw, hrb, Option.bind_eq_bind, Option.some_bind]
  exact hrun

/-- C5, at the four-chip chain: row 7 of chip 3 receives `0xC3`. -/
theorem setRow_round_trip_witness :
    WF chain4 ∧ chain4.maxDevices = ((4 : Nat) : Int) ∧ 3 < 4 ∧ 7 < 8 ∧ 0xC3 < 256 ∧
    ∃ s2, setRow chain4 ((3 : Nat) : Int) ((7 : Nat) : Int) 0xC3 = some s2 ∧
      mirrorByte s2 3 7 = 0xC3 ∧
      (∀ c2 r2, r2 < 8 → (c2, r2) ≠ (3, 7) → mirrorByte s2 c2 r2 = mirrorByte chain4 c2 r2) :=
  ⟨by decide, by decide, by decide, by decide, by decide,
    setRow_round_trip chain4 4 3 7 0xC3 (by decide) (by decide) (by decide) (by decide)
      (by decide)⟩

/-- C6. For every byte `c` and every output bit position `i` in `0..7`, bit `i`
of `flipByte(c)` is bit `s(i)` of `c`, where `s` maps 0 to 0, 1 to 4, 2 to 5,
3 to 6, 4 to 1, 5 to 2, 6 to 3 and 7 to 7.  It is not a plain bit reversal (a
reversal would send `0b00000010` to `0b01000000`); each single-bit input `1 << j`
maps to the single-bit output the table gives, and
`flipByte(0b10110010) = 0b10010110`. -/
theorem flipByte_permutation (c : Nat) :
    (∀ i : Fin 8, (flipByte c).testBit i = c.testBit ([0, 4, 5, 6, 1, 2, 3, 7].getD i 0)) ∧
    flipByte c < 256 ∧
    (∀ j : Fin 8, flipByte (1 <<< j.val) = 1 <<< ([0, 4, 5, 6, 1, 2, 3, 7].getD j 0)) ∧
    flipByte 0b00000010 = 0b00010000 ∧
    flipByte 0b10110010 = 0b10010110 := by
  refine ⟨fun i => ?_, flipByte_lt c, by decide, by decide, by decide⟩
  rw [flipByte_testBit]
  fin_cases i <;> simp

/-- C7. For a valid chip `c`, a digit `d` in `0..7`, a value in `0..15` and
booleans `dp` and `reverse`, `setDigit(c, d, value, dp, reverse)` stores
`v = glyph[value] | (0x80 if dp else 0)`, unflipped, in mirror byte `(c, d)`,
leaves every other mirror byte unchanged, and in common-cathode mode issues
exactly one bus transaction to chip `c` at register `d + 1`, whose data is
`flipByte(v)` when `reverse` is set and `v` otherwise.  The glyph table is any
table of 128 bytes. -/
theorem setDigit_stores_glyph (charTable : List Nat) (s : LedControl) (N c d value : Nat)
    (dp reverse : Bool) (h : WF s) (hT : IsByteArray 128 charTable)
    (hN : s.maxDevices = (N : Int)) (hc : c < N) (hd : d < 8) (hv : value ≤ 15) :
    ∃ s2, setDigit charTable s (c : Int) (d : Int) value dp reverse = some s2 ∧
      mirrorByte s2 c d = (charTable.getD value 0 ||| (if dp then 0x80 else 0)) ∧
      (∀ c2 r2, r2 < 8 → (c2, r2) ≠ (c, d) → mirrorByte s2 c2 r2 = mirrorByte s c2 r2) ∧
      (s.commonAnode = false →
        s2.bus = s.bus ++ frame N c (d + 1)
          (if reverse then flipByte (charTable.getD value 0 ||| (if dp then 0x80 else 0))
            else (charTable.getD value 0 ||| (if dp then 0x80 else 0)))) := by
  have hc2 : (c : Int) < s.maxDevices := by rw [hN]; exact_mod_cast hc
  have hNn : s.maxDevices.toNat = N := by rw [hN]; simp
  have ha : ¬ ((c : Int) < 0 ∨ (c : Int) ≥ s.maxDevices) := by omega
  have hb : ¬ ((d : Int) < 0 ∨ (d : Int) > 7 ∨ value > 15) := by omega
  have hg : charTable.getD value 0 < 256 := hT.getD_lt _
  have hread : readAt charTable (value : Int) = some (charTable.getD value 0) :=
    readAt_nat _ _ (by rw [hT.1]; omega)
  have hv2 : (if dp then charTable.getD value 0 ||| 0b10000000 else charTable.getD value 0)
      = (charTable.getD value 0 ||| (if dp then 0x80 else 0)) := by
    cases dp <;> simp
  have hvlt : (charTable.getD value 0 ||| (if dp then 0x80 else 0)) < 256 := by
    have e : (256 : Nat) = 2 ^ 8 := by norm_num
    rw [e]
    apply Nat.or_lt_two_pow (by rw [← e]; exact hg)
    cases dp <;> simp
  obtain ⟨hw, -, -, hwf1⟩ := status_store s c d
    (charTable.getD value 0 ||| (if dp then 0x80 else 0)) h hc2 hd
  rw [Nat.mod_eq_of_lt hvlt] at hw hwf1
  obtain ⟨s2, hrun, -, -, hst, -, hbus⟩ := transfer_digit _ c d
    (charTable.getD value 0 ||| (if dp then 0x80 else 0)) reverse hwf1 hc2 hd
  obtain ⟨hm, hothers⟩ := mirrorByte_set s s2 c d _ hd h hc2 hst
  refine ⟨s2, ?_, hm, hothers, fun hca => ?_⟩
  · unfold setDigit
    rw [if_neg ha, if_neg hb]
    simp only [hread, hv2, hw, Option.bind_eq_bind, Option.some_bind]
    exact hrun
  · have hlt : (if reverse then flipByte (charTable.getD value 0 ||| (if dp then 0x80 else 0))
        else (charTable.getD value 0 ||| (if dp then 0x80 else 0))) < 256 := by
      split
      · exact flipByte_lt _
      · exact hvlt
    rw [(hbus hca).2, Nat.mod_eq_of_lt hlt, hNn]

/-- C7, at the four-chip chain: digit 5 of chip 2 shows the value 10 with the
decimal point, sent in reversed bit order. -/
theorem setDigit_stores_glyph_witness :
    WF chain4 ∧ IsByteArray 128 sampleTable ∧ chain4.maxDevices = ((4 : Nat) : Int) ∧
    2 < 4 ∧ 5 < 8 ∧ 10 ≤ 15 ∧
    ∃ s2, setDigit sampleTable chain4 ((2 : Nat) : Int) ((5 : Nat) : Int) 10 true true
        = some s2 ∧
      mirrorByte s2 2 5 = (sampleTable.getD 10 0 ||| (if true then 0x80 else 0)) ∧
      (∀ c2 r2, r2 < 8 → (c2, r2) ≠ (2, 5) → mirrorByte s2 c2 r2 = mirrorByte chain4 c2 r2) ∧
      (chain4.commonAnode = false →
        s2.bus = chain4.bus ++ frame 4 2 (5 + 1)
          (if true then flipByte (sampleTable.getD 10 0 ||| (if true then 0x80 else 0))
            else (sampleTable.getD 10 0 ||| (if true then 0x80 else 0)))) :=
  ⟨by decide, by decide, by decide, by decide, by decide, by decide,
    setDigit_stores_glyph sampleTable chain4 4 2 5 10 true true (by decide) (by decide)
      (by decide) (by decide) (by decide) (by decide)⟩

/-- C8. For a valid chip `c`, a digit `d` in `0..7`, booleans `dp` and `reverse`
and a character whose code taken as a byte is `x = toByte value`:
`setChar(c, d, value, dp, reverse)` stores `glyph[x] | (0x80 if dp else 0)` in
mirror byte `(c, d)` when `x ≤ 127`, and when `x > 127` it has exactly the effect
on the state and on the bus of `setChar(c, d, 32, dp, reverse)`.  The glyph table
is any table of 128 bytes. -/
theorem setChar_glyph_or_space (charTable : List Nat) (s : LedControl) (N c d : Nat)
    (value : Int) (dp reverse : Bool) (h : WF s) (hT : IsByteArray 128 charTable)
    (hN : s.maxDevices = (N : Int)) (hc : c < N) (hd : d < 8) :
    ∃ s2, setChar charTable s (c : Int) (d : Int) value dp reverse = some s2 ∧
      (toByte value ≤ 127 →
        mirrorByte s2 c d = (charTable.getD (toByte value) 0 ||| (if dp then 0x80 else 0))) ∧
      (127 < toByte value →
        setChar charTable s (c : Int) (d : Int) value dp reverse
          = setChar charTable s (c : Int) (d : Int) 32 dp reverse) := by
  have hc2 : (c : Int) < s.maxDevices := by rw [hN]; exact_mod_cast hc
  have ha : ¬ ((c : Int) < 0 ∨ (c : Int) ≥ s.maxDevices) := by omega
  have hb : ¬ ((d : Int) < 0 ∨ (d : Int) > 7) := by omega
  have hidx : (if toByte value > 127 then 32 else toByte value) < charTable.length := by
    rw [hT.1]; split <;> omega
  have hg : charTable.getD (if toByte value > 127 then 32 else toByte value) 0 < 256 :=
    hT.getD_lt _
  have hread := readAt_nat charTable _ hidx
  have hv2 : ∀ g : Nat, (if dp then g ||| 0b10000000 else g) = (g ||| (if dp then 0x80 else 0)) := by
    intro g; cases dp <;> simp
  have hvlt : (charTable.getD (if toByte value > 127 then 32 else toByte value) 0
      ||| (if dp then 0x80 else 0)) < 256 := by
    have e : (256 : Nat) = 2 ^ 8 := by norm_num
    rw [e]
    apply Nat.or_lt_two_pow (by rw [← e]; exact hg)
    cases dp <;> simp
  obtain ⟨hw, -, -, hwf1⟩ := status_store s c d
    (charTable.getD (if toByte value > 127 then 32 else toByte value) 0
      ||| (if dp then 0x80 else 0)) h hc2 hd
  rw [Nat.mod_eq_of_lt hvlt] at hw hwf1
  obtain ⟨s2, hrun, -, -, hst, -, -⟩ := transfer_digit _ c d
    (charTable.getD (if toByte value > 127 then 32 else toByte value) 0
      ||| (if dp then 0x80 else 0)) reverse hwf1 hc2 hd
  obtain ⟨hm, -⟩ := mirrorByte_set s s2 c d _ hd h hc2 hst
  refine ⟨s2, ?_, fun hx => ?_, fun hx => ?_⟩
  · unfold setChar
    rw [if_neg ha, if_neg hb]
    simp only [hread, hv2, hw, Option.bind_eq_bind, Option.some_bind]
    exact hrun
  · rw [hm, if_neg (by omega)]
  · have h32 : toByte 32 = 32 := by decide
    unfold setChar
    simp only [h32, if_pos hx]
    rfl

/-- C8, at the four-chip chain: the character code 200 (the `char` -56) on
digit 0 of chip 0. -/
theorem setChar_glyph_or_space_witness :
    WF chain4 ∧ IsByteArray 128 sampleTable ∧ chain4.maxDevices = ((4 : Nat) : Int) ∧
    0 < 4 ∧ 0 < 8 ∧
    ∃ s2, setChar sampleTable chain4 ((0 : Nat) : Int) ((0 : Nat) : Int) (-56) true false
        = some s2 ∧
      (toByte (-56) ≤ 127 →
        mirrorByte s2 0 0 = (sampleTable.getD (toByte (-56)) 0 ||| (if true then 0x80 else 0))) ∧
      (127 < toByte (-56) →
        setChar sampleTable chain4 ((0 : Nat) : Int) ((0 : Nat) : Int) (-56) true false
          = setChar sampleTable chain4 ((0 : Nat) : Int) ((0 : Nat) : Int) 32 true false) :=
  ⟨by decide, by decide, by decide, by decide, by decide,
    setChar_glyph_or_space sampleTable chain4 4 0 0 (-56) true false (by decide) (by decide)
      (by decide) (by decide) (by decide)⟩

/-- C9. For a valid chip `c`, a column `k` in `0..7` and a byte `V`,
`setColumn(c, k, V)` has exactly the effect, on the state and on the bus trace,
of the eight calls `setLed(c, row, k, bit (7 - row) of V)` for `row = 0, 1, ..., 7`
in that order; afterwards, for every row, bit `7 - k` of mirror byte `(c, row)` is
bit `7 - row` of `V`, and every other mirror bit is unchanged. -/
theorem setColumn_as_eight_setLed (s : LedControl) (N c k V : Nat) (h : WF s)
    (hN : s.maxDevices = (N : Int)) (hc : c < N) (hk : k < 8) :
    setColumn s (c : Int) (k : Int) V =
      (List.range 8).foldlM
        (fun t (row : Nat) => setLed t (c : Int) (row : Int) (k : Int) (V.testBit (7 - row))) s ∧
    ∃ s2, setColumn s (c : Int) (k : Int) V = some s2 ∧
      (∀ r, r < 8 → mirrorByte s2 c r < 256 ∧ ∀ j, j < 8 →
        (mirrorByte s2 c r).testBit j =
          if j = 7 - k then V.testBit (7 - r) else (mirrorByte s c r).testBit j) ∧
      (∀ c2 r2, r2 < 8 → c2 ≠ c → mirrorByte s2 c2 r2 = mirrorByte s c2 r2) := by
  have hc2 : (c : Int) < s.maxDevices := by rw [hN]; exact_mod_cast hc
  have ha : ¬ ((c : Int) < 0 ∨ (c : Int) ≥ s.maxDevices) := by omega
  have hb : ¬ ((k : Int) < 0 ∨ (k : Int) > 7) := by omega
  have hunfold : setColumn s (c : Int) (k : Int) V = forUp (fun row (t : LedControl) =>
        let val : Nat := (V >>> (7 - row).toNat) % 256
        let val : Nat := val &&& 0x01
        setLed t (c : Int) row (k : Int) (val ≠ 0)) 8 ((0 : Nat) : Int) s := by
    unfold setColumn
    rw [if_neg ha, if_neg hb]
    rfl
  constructor
  · rw [hunfold, forUp_eq_foldlM, List.range_eq_range']
    congr 1
    funext t row
    have e7 : (7 - (row : Int)).toNat = 7 - row := by omega
    simp only [e7, columnBit]
  · obtain ⟨s2, hrun, hwf2, -, -, hst⟩ := columnLoop c k V hk 8 0 s h hc2 (by omega)
    refine ⟨s2, hunfold.trans hrun, fun r hr => ⟨hwf2.2.2.1.getD_lt _, fun j hj => ?_⟩,
      fun c2 r2 hr2 hne => ?_⟩
    · have hin : c * 8 + 0 ≤ c * 8 + r ∧ c * 8 + r < c * 8 + 0 + 8 := by omega
      have e : c * 8 + r - c * 8 = r := by omega
      rw [mirrorByte, hst, if_pos hin, e, ledByte_testBit _ _ _ _ hk hj]
      rfl
    · have hout : ¬ (c * 8 + 0 ≤ c2 * 8 + r2 ∧ c2 * 8 + r2 < c * 8 + 0 + 8) := by omega
      rw [mirrorByte, hst, if_neg hout]
      rfl

/-- C9, at the four-chip chain: column 1 of chip 0 receives `0xF0`. -/
theorem setColumn_as_eight_setLed_witness :
    WF chain4 ∧ chain4.maxDevices = ((4 : Nat) : Int) ∧ 0 < 4 ∧ 1 < 8 ∧
    (setColumn chain4 ((0 : Nat) : Int) ((1 : Nat) : Int) 0xF0 =
      (List.range 8).foldlM
        (fun t (row : Nat) =>
          setLed t ((0 : Nat) : Int) (row : Int) ((1 : Nat) : Int) ((0xF0 : Nat).testBit (7 - row)))
        chain4 ∧
    ∃ s2, setColumn chain4 ((0 : Nat) : Int) ((1 : Nat) : Int) 0xF0 = some s2 ∧
      (∀ r, r < 8 → mirrorByte s2 0 r < 256 ∧ ∀ j, j < 8 →
        (mirrorByte s2 0 r).testBit j =
          if j = 7 - 1 then (0xF0 : Nat).testBit (7 - r) else (mirrorByte chain4 0 r).testBit j) ∧
      (∀ c2 r2, r2 < 8 → c2 ≠ 0 → mirrorByte s2 c2 r2 = mirrorByte chain4 c2 r2)) :=
  ⟨by decide, by decide, by decide, by decide,
    setColumn_as_eight_setLed chain4 4 0 1 0xF0 (by decide) (by decide) (by decide) (by decide)⟩

set_option maxRecDepth 1000000 in
/-- C10, as stated, fails on a common-anode chain: `clearDisplay(0)` on the
one-chip chain whose accumulators are `0xFF` puts 64 transactions on the bus,
not 8, and the first of them writes `0xBF` to register 1, not 0. -/
theorem clearDisplay_commonAnode_counterexample :
    WF anodeChain ∧
    (clearDisplay anodeChain 0).map (fun t => t.bus) ≠
      some (anodeChain.bus ++ (List.range 8).flatMap fun i => frame 1 0 (i + 1) 0) ∧
    (clearDisplay anodeChain 0).map
      (fun t => (t.bus.filter fun e => e = BusEvent.select false).length) = some 64 ∧
    (clearDisplay anodeChain 0).map (fun t => t.bus.take 4) = some (frame 1 0 1 0xBF) := by
  decide

/-- C10, amended.  For a valid chip `c`, `clearDisplay(c)` sets all eight mirror
rows of chip `c` to 0, leaves the mirror rows of every other chip unchanged, and
performs the 8 protocol-layer writes `transfer(c, i + 1, 0, false)` for
`i = 0..7` in ascending order; in common-cathode mode these are exactly 8 bus
transactions to chip `c`, to registers `1..8` in ascending order, each with
data 0. -/
theorem clearDisplay_zeroes_rows (s : LedControl) (N c : Nat) (h : WF s)
    (hN : s.maxDevices = (N : Int)) (hc : c < N) :
    ∃ s2, clearDisplay s (c : Int) = some s2 ∧
      (∀ r, r < 8 → mirrorByte s2 c r = 0) ∧
      (∀ c2 r2, r2 < 8 → c2 ≠ c → mirrorByte s2 c2 r2 = mirrorByte s c2 r2) ∧
      clearDisplay s (c : Int) =
        (List.range 8).foldlM (fun t (i : Nat) =>
          transfer { t with status := t.status.set (c * 8 + i) 0 } (c : Int) (i + 1) 0 false) s ∧
      (s.commonAnode = false →
        s2.bus = s.bus ++ (List.range 8).flatMap fun i => frame N c (i + 1) 0) := by
  have hc2 : (c : Int) < s.maxDevices := by rw [hN]; exact_mod_cast hc
  have hNn : s.maxDevices.toNat = N := by rw [hN]; simp
  have ha : ¬ ((c : Int) < 0 ∨ (c : Int) ≥ s.maxDevices) := by omega
  obtain ⟨s2, hrun, -, -, -, hst, hbus⟩ := clearLoop c 8 0 s h hc2 (by omega)
  have hdec := clearLoop_writes c 8 0 s h hc2 (by omega)
  refine ⟨s2, ?_, fun r hr => ?_, fun c2 r2 hr2 hne => ?_, ?_, fun hca => ?_⟩
  · unfold clearDisplay
    rw [if_neg ha]
    exact hrun
  · have hin : c * 8 + 0 ≤ c * 8 + r ∧ c * 8 + r < c * 8 + 0 + 8 := by omega
    rw [mirrorByte, hst, if_pos hin]
  · have hout : ¬ (c * 8 + 0 ≤ c2 * 8 + r2 ∧ c2 * 8 + r2 < c * 8 + 0 + 8) := by omega
    rw [mirrorByte, hst, if_neg hout]
    rfl
  · rw [List.range_eq_range', ← hdec]
    unfold clearDisplay
    rw [if_neg ha]
    rfl
  · rw [(hbus hca).2, hNn]
    simp only [Nat.zero_add]

/-- C10 amended, at the four-chip common-cathode chain and chip 3. -/
theorem clearDisplay_zeroes_rows_witness :
    WF chain4 ∧ chain4.maxDevices = ((4 : Nat) : Int) ∧ 3 < 4 ∧
    ∃ s2, clearDisplay chain4 ((3 : Nat) : Int) = some s2 ∧
      (∀ r, r < 8 → mirrorByte s2 3 r = 0) ∧
      (∀ c2 r2, r2 < 8 → c2 ≠ 3 → mirrorByte s2 c2 r2 = mirrorByte chain4 c2 r2) ∧
      clearDisplay chain4 ((3 : Nat) : Int) =
        (List.range 8).foldlM (fun t (i : Nat) =>
          transfer { t with status := t.status.set (3 * 8 + i) 0 } ((3 : Nat) : Int) (i + 1) 0
            false) chain4 ∧
      (chain4.commonAnode = false →
        s2.bus = chain4.bus ++ (List.range 8).flatMap fun i => frame 4 3 (i + 1) 0) :=
  ⟨by decide, by decide, by decide,
    clearDisplay_zeroes_rows chain4 4 3 (by decide) (by decide) (by decide)⟩

/-- C11. In either wiring mode and for a valid chip `c`, `shutdown(c, b)` issues
exactly one bus transaction, addressed to chip `c` at register SHUTDOWN (12),
with operand 0 when `b` is true and operand 1 when `b` is false, and leaves the
row mirror and the accumulators unchanged. -/
theorem shutdown_inverted_operand (s : LedControl) (N c : Nat) (b : Bool) (h : WF s)
    (hN : s.maxDevices = (N : Int)) (hc : c < N) :
    ∃ s2, shutdown s (c : Int) b = some s2 ∧
      s2.bus = s.bus ++ frame N c 12 (if b then 0 else 1) ∧
      s2.status = s.status ∧ s2.commonAnodeData = s.commonAnodeData := by
  have hc2 : (c : Int) < s.maxDevices := by rw [hN]; exact_mod_cast hc
  have hNn : s.maxDevices.toNat = N := by rw [hN]; simp
  have ha : ¬ ((c : Int) < 0 ∨ (c : Int) ≥ s.maxDevices) := by omega
  unfold shutdown
  rw [if_neg ha]
  cases b
  · obtain ⟨hrun, -⟩ := spiTransfer_wf s c OP_SHUTDOWN 1 h hc2
    rw [if_neg (by simp)]
    refine ⟨_, hrun, ?_, rfl, rfl⟩
    simp [OP_SHUTDOWN, hNn]
  · obtain ⟨hrun, -⟩ := spiTransfer_wf s c OP_SHUTDOWN 0 h hc2
    rw [if_pos rfl]
    refine ⟨_, hrun, ?_, rfl, rfl⟩
    simp [OP_SHUTDOWN, hNn]

/-- C11, at the one-chip common-anode chain: entering shutdown sends operand 0. -/
theorem shutdown_inverted_operand_witness :
    WF anodeChain ∧ anodeChain.maxDevices = ((1 : Nat) : Int) ∧ 0 < 1 ∧
    ∃ s2, shutdown anodeChain ((0 : Nat) : Int) true = some s2 ∧
      s2.bus = anodeChain.bus ++ frame 1 0 12 (if true then 0 else 1) ∧
      s2.status = anodeChain.status ∧ s2.commonAnodeData = anodeChain.commonAnodeData :=
  ⟨by decide, by decide, by decide,
    shutdown_inverted_operand anodeChain 1 0 true (by decide) (by decide) (by decide)⟩

/-- C12. In either wiring mode and for a valid chip `c`: `setScanLimit(c, limit)`
with `0 ≤ limit ≤ 7` issues exactly one bus transaction (register SCANLIMIT = 11,
operand `limit`) to chip `c`, and `setIntensity(c, v)` with `0 ≤ v ≤ 15` issues
exactly one bus transaction (register INTENSITY = 10, operand `v`) to chip `c`;
both leave the row mirror and the accumulators unchanged. -/
theorem setScanLimit_setIntensity_one_write (s : LedControl) (N c limit v : Nat) (h : WF s)
    (hN : s.maxDevices = (N : Int)) (hc : c < N) (hlimit : limit ≤ 7) (hv : v ≤ 15) :
    (∃ s2, setScanLimit s (c : Int) (limit : Int) = some s2 ∧
      s2.bus = s.bus ++ frame N c 11 limit ∧
      s2.status = s.status ∧ s2.commonAnodeData = s.commonAnodeData) ∧
    (∃ s2, setIntensity s (c : Int) (v : Int) = some s2 ∧
      s2.bus = s.bus ++ frame N c 10 v ∧
      s2.status = s.status ∧ s2.commonAnodeData = s.commonAnodeData) := by
  have hc2 : (c : Int) < s.maxDevices := by rw [hN]; exact_mod_cast hc
  have hNn : s.maxDevices.toNat = N := by rw [hN]; simp
  have ha : ¬ ((c : Int) < 0 ∨ (c : Int) ≥ s.maxDevices) := by omega
  have hl : (limit : Int) ≥ 0 ∧ (limit : Int) < 8 := by omega
  have hi : (v : Int) ≥ 0 ∧ (v : Int) < 16 := by omega
  have bl : toByte (limit : Int) = limit := by unfold toByte; omega
  have bv : toByte (v : Int) = v := by unfold toByte; omega
  have ml : limit % 256 = limit := by omega
  have mv : v % 256 = v := by omega
  constructor
  · obtain ⟨hrun, -⟩ := spiTransfer_wf s c OP_SCANLIMIT limit h hc2
    unfold setScanLimit
    rw [if_neg ha, if_pos hl, bl]
    refine ⟨_, hrun, ?_, rfl, rfl⟩
    simp [OP_SCANLIMIT, hNn, ml]
  · obtain ⟨hrun, -⟩ := spiTransfer_wf s c OP_INTENSITY v h hc2
    unfold setIntensity
    rw [if_neg ha, if_pos hi, bv]
    refine ⟨_, hrun, ?_, rfl, rfl⟩
    simp [OP_INTENSITY, hNn, mv]

/-- C12, at the one-chip common-anode chain: scan limit 7 and intensity 15. -/
theorem setScanLimit_setIntensity_one_write_witness :
    WF anodeChain ∧ anodeChain.maxDevices = ((1 : Nat) : Int) ∧ 0 < 1 ∧ 7 ≤ 7 ∧ 15 ≤ 15 ∧
    ((∃ s2, setScanLimit anodeChain ((0 : Nat) : Int) ((7 : Nat) : Int) = some s2 ∧
      s2.bus = anodeChain.bus ++ frame 1 0 11 7 ∧
      s2.status = anodeChain.status ∧ s2.commonAnodeData = anodeChain.commonAnodeData) ∧
    (∃ s2, setIntensity anodeChain ((0 : Nat) : Int) ((15 : Nat) : Int) = some s2 ∧
      s2.bus = anodeChain.bus ++ frame 1 0 10 15 ∧
      s2.status = anodeChain.status ∧ s2.commonAnodeData = anodeChain.commonAnodeData)) :=
  ⟨by decide, by decide, by decide, by decide, by decide,
    setScanLimit_setIntensity_one_write anodeChain 1 0 7 15 (by decide) (by decide) (by decide)
      (by decide) (by decide)⟩

/-- C17. Idempotence: for a valid chip `c`, row `r` and column `k`, calling
`setLed(c, r, k, true)` twice in a row leaves the same row mirror as calling it
once, and the second call still puts a transmission on the bus; in
common-cathode mode each call issues exactly one transaction, both carrying the
same data byte at register `r + 1`. -/
theorem setLed_twice (s : LedControl) (N c r k : Nat) (h : WF s)
    (hN : s.maxDevices = (N : Int)) (hc : c < N) (hr : r < 8) (hk : k < 8) :
    ∃ s1 s2, setLed s (c : Int) (r : Int) (k : Int) true = some s1 ∧
      setLed s1 (c : Int) (r : Int) (k : Int) true = some s2 ∧
      s2.status = s1.status ∧
      (∃ delta, delta ≠ [] ∧ s2.bus = s1.bus ++ delta) ∧
      (s.commonAnode = false →
        s1.bus = s.bus ++ frame N c (r + 1) (mirrorByte s1 c r) ∧
        s2.bus = s1.bus ++ frame N c (r + 1) (mirrorByte s1 c r)) := by
  have hc2 : (c : Int) < s.maxDevices := by rw [hN]; exact_mod_cast hc
  have hNn : s.maxDevices.toNat = N := by rw [hN]; simp
  have hb1 := ledByte_lt_of_wf s c r k true h hk
  obtain ⟨s1, hrun1, hwf1, hN1, hca1, hst1, hcath1, -⟩ :=
    digitWrite_spec s c r _ (ledByte (mirrorByte s c r) k true) false h hc2 hr hb1
  have hm1 : mirrorByte s1 c r = ledByte (mirrorByte s c r) k true :=
    (mirrorByte_set s s1 c r _ hr h hc2 hst1).1
  have hc3 : (c : Int) < s1.maxDevices := by rw [hN1]; exact hc2
  have hb2 := ledByte_lt_of_wf s1 c r k true hwf1 hk
  obtain ⟨s2, hrun2, -, -, -, hst2, hcath2, hanode2⟩ :=
    digitWrite_spec s1 c r _ (ledByte (mirrorByte s1 c r) k true) false hwf1 hc3 hr hb2
  rw [hm1, ledByte_idem] at hst2 hcath2 hanode2 hrun2
  simp only [Bool.false_eq_true, if_false, Nat.mod_eq_of_lt hb1, hN1, hNn, hca1]
    at hcath1 hcath2 hanode2
  refine ⟨s1, s2, (setLed_eq_digitWrite s c r k true h hc2 hr hk).trans hrun1, ?_, ?_, ?_, ?_⟩
  · rw [setLed_eq_digitWrite s1 c r k true hwf1 hc3 hr hk, hm1, ledByte_idem]
    exact hrun2
  · rw [hst2, hst1, List.set_set]
  · by_cases hca : s.commonAnode = true
    · exact ⟨_, framesTo_remapWrites_ne_nil _ _ _ _ _, (hanode2 hca).2⟩
    · exact ⟨_, frame_ne_nil _ _ _ _, (hcath2 (by simpa using hca)).2⟩
  · intro hca
    rw [hm1]
    exact ⟨(hcath1 hca).2, (hcath2 hca).2⟩

/-- C17, at the four-chip chain: the led of chip 1, row 3, column 2, twice. -/
theorem setLed_twice_witness :
    WF chain4 ∧ chain4.maxDevices = ((4 : Nat) : Int) ∧ 1 < 4 ∧ 3 < 8 ∧ 2 < 8 ∧
    ∃ s1 s2, setLed chain4 ((1 : Nat) : Int) ((3 : Nat) : Int) ((2 : Nat) : Int) true = some s1 ∧
      setLed s1 ((1 : Nat) : Int) ((3 : Nat) : Int) ((2 : Nat) : Int) true = some s2 ∧
      s2.status = s1.status ∧
      (∃ delta, delta ≠ [] ∧ s2.bus = s1.bus ++ delta) ∧
      (chain4.commonAnode = false →
        s1.bus = chain4.bus ++ frame 4 1 (3 + 1) (mirrorByte s1 1 3) ∧
        s2.bus = s1.bus ++ frame 4 1 (3 + 1) (mirrorByte s1 1 3)) :=
  ⟨by decide, by decide, by decide, by decide, by decide,
    setLed_twice chain4 4 1 3 2 (by decide) (by decide) (by decide) (by decide) (by decide)⟩

set_option maxRecDepth 1000000 in
/-- C18, as stated, fails: on the one-chip common-anode chain whose accumulators
are `0xFF`, the protocol-layer write `transfer(0, 0, 0, false)` to register 0
(NOOP) does not pass straight through.  It clears bit 7 of all eight
accumulators and puts eight transactions on the bus, as a write to register 8
does; and for register 9 the remap computes the bit position `7 - 9`, for which
the shift is not defined. -/
theorem transfer_no_bypass_counterexample :
    WF anodeChain ∧ anodeChain.commonAnode = true ∧
    (transfer anodeChain 0 0 0 false).map (fun t => t.commonAnodeData)
      = some (List.replicate 8 0x7F) ∧
    (transfer anodeChain 0 0 0 false).map (fun t => t.commonAnodeData)
      ≠ some anodeChain.commonAnodeData ∧
    (transfer anodeChain 0 0 0 false).map (fun t => t.bus)
      ≠ some (anodeChain.bus ++ frame 1 0 0 0) ∧
    (transfer anodeChain 0 0 0 false).map (fun t => t.bus)
      = some (anodeChain.bus ++ framesTo 1 0
          [(1, 0x7F), (2, 0x7F), (3, 0x7F), (4, 0x7F), (5, 0x7F), (6, 0x7F), (7, 0x7F),
            (8, 0x7F)]) ∧
    transfer anodeChain 0 0 0 false = transfer anodeChain 0 8 0 false ∧
    transfer anodeChain 0 9 0 false = none := by
  decide

/-- C18, amended.  In common-anode mode and for a valid chip `addr`, the
configuration writes do not go through `transfer` and its remap: `shutdown`,
`setScanLimit` (limit in `0..7`) and `setIntensity` (value in `0..15`) are each
one call of `spiTransfer(addr, opcode, data)` with opcode 12, 11 and 10, and
`spiTransfer(addr, opcode, data)`, for every opcode and data byte, issues exactly
one bus transaction `(opcode, data)` to chip `addr` and leaves all 8 accumulator
bytes unchanged. -/
theorem configuration_writes_bypass_remap (s : LedControl) (N addr opcode data : Nat)
    (h : WF s) (hN : s.maxDevices = (N : Int)) (haddr : addr < N) (hop : opcode < 256)
    (hd : data < 256) (hca : s.commonAnode = true) :
    (∃ s2, spiTransfer s (addr : Int) opcode data = some s2 ∧
      s2.bus = s.bus ++ frame N addr opcode data ∧
      s2.commonAnodeData = s.commonAnodeData ∧ s2.commonAnode = true) ∧
    (∀ b, shutdown s (addr : Int) b = spiTransfer s (addr : Int) 12 (if b then 0 else 1)) ∧
    (∀ limit : Nat, limit ≤ 7 →
      setScanLimit s (addr : Int) (limit : Int) = spiTransfer s (addr : Int) 11 limit) ∧
    (∀ v : Nat, v ≤ 15 →
      setIntensity s (addr : Int) (v : Int) = spiTransfer s (addr : Int) 10 v) := by
  have hc2 : (addr : Int) < s.maxDevices := by rw [hN]; exact_mod_cast haddr
  have hNn : s.maxDevices.toNat = N := by rw [hN]; simp
  have ha : ¬ ((addr : Int) < 0 ∨ (addr : Int) ≥ s.maxDevices) := by omega
  refine ⟨?_, fun b => ?_, fun limit hl => ?_, fun v hv => ?_⟩
  · obtain ⟨hrun, -⟩ := spiTransfer_wf s addr opcode data h hc2
    refine ⟨_, hrun, ?_, rfl, hca⟩
    simp [hNn, Nat.mod_eq_of_lt hop, Nat.mod_eq_of_lt hd]
  · unfold shutdown
    rw [if_neg ha]
    cases b <;> simp [OP_SHUTDOWN]
  · have hl2 : (limit : Int) ≥ 0 ∧ (limit : Int) < 8 := by omega
    have bl : toByte (limit : Int) = limit := by unfold toByte; omega
    unfold setScanLimit
    rw [if_neg ha, if_pos hl2, bl]
    rfl
  · have hv2 : (v : Int) ≥ 0 ∧ (v : Int) < 16 := by omega
    have bv : toByte (v : Int) = v := by unfold toByte; omega
    unfold setIntensity
    rw [if_neg ha, if_pos hv2, bv]
    rfl

/-- C18 amended, at the one-chip common-anode chain: the DECODEMODE write of the
constructor, opcode 9 with data 0. -/
theorem configuration_writes_bypass_remap_witness :
    WF anodeChain ∧ anodeChain.maxDevices = ((1 : Nat) : Int) ∧ 0 < 1 ∧ 9 < 256 ∧ 0 < 256 ∧
    anodeChain.commonAnode = true ∧
    ((∃ s2, spiTransfer anodeChain ((0 : Nat) : Int) 9 0 = some s2 ∧
      s2.bus = anodeChain.bus ++ frame 1 0 9 0 ∧
      s2.commonAnodeData = anodeChain.commonAnodeData ∧ s2.commonAnode = true) ∧
    (∀ b, shutdown anodeChain ((0 : Nat) : Int) b
      = spiTransfer anodeChain ((0 : Nat) : Int) 12 (if b then 0 else 1)) ∧
    (∀ limit : Nat, limit ≤ 7 →
      setScanLimit anodeChain ((0 : Nat) : Int) (limit : Int)
        = spiTransfer anodeChain ((0 : Nat) : Int) 11 limit) ∧
    (∀ v : Nat, v ≤ 15 →
      setIntensity anodeChain ((0 : Nat) : Int) (v : Int)
        = spiTransfer anodeChain ((0 : Nat) : Int) 10 v)) :=
  ⟨by decide, by decide, by decide, by decide, by decide, by decide,
    configuration_writes_bypass_remap anodeChain 1 0 9 0 (by decide) (by decide) (by decide)
      (by decide) (by decide) (by decide)⟩

/-- C15. On a one-chip common-anode chain and from any accumulator contents,
after row writes `setRow(0, r, d r)` that cover every row `r = 0..7` (every
digit register `op = r + 1` in `1..8`), in any order, for every `cS` in `0..7`
and every register `op`, bit `writeIndex(op)` of accumulator `cS` is bit
`readIndex(cS)` of the data byte written to `op`, where `writeIndex(op)` is 7 if
`op = 8` else `7 - op` and `readIndex(cS)` is 7 if `cS = 7` else `6 - cS`.  In
particular accumulator 7 holds bit 7 of each of the eight data bytes, and the
final accumulators do not depend on their previous contents. -/
theorem commonAnode_accumulates (s s0 : LedControl) (d : Nat → Nat) (p : List Nat)
    (h : WF s) (hN : s.maxDevices = 1) (hca : s.commonAnode = true)
    (h0 : WF s0) (hN0 : s0.maxDevices = 1) (hca0 : s0.commonAnode = true)
    (hd : ∀ r, d r < 256) (hp : ∀ r, r ∈ p ↔ r < 8) :
    ∃ s2, p.foldlM (fun t (r : Nat) => setRow t 0 (r : Int) (d r)) s = some s2 ∧
      (∀ cS op, cS < 8 → 1 ≤ op → op ≤ 8 →
        (s2.commonAnodeData.getD cS 0).testBit (if op = 8 then 7 else 7 - op) =
          (d (op - 1)).testBit (if cS = 7 then 7 else 6 - cS)) ∧
      (∀ op, 1 ≤ op → op ≤ 8 →
        (s2.commonAnodeData.getD 7 0).testBit (if op = 8 then 7 else 7 - op) =
          (d (op - 1)).testBit 7) ∧
      ∃ s3, p.foldlM (fun t (r : Nat) => setRow t 0 (r : Int) (d r)) s0 = some s3 ∧
        s3.commonAnodeData = s2.commonAnodeData := by
  have hrows : ∀ r ∈ p, r < 8 := fun r hr => (hp r).1 hr
  have key : ∀ t : LedControl, WF t → t.maxDevices = 1 → t.commonAnode = true →
      ∃ t2, p.foldlM (fun t (r : Nat) => setRow t 0 (r : Int) (d r)) t = some t2 ∧ WF t2 ∧
        ∀ cS r, cS < 8 → r < 8 →
          (t2.commonAnodeData.getD cS 0).testBit (writeIndex (r + 1)) =
            (d r).testBit (readIndex cS) := by
    intro t ht htN htca
    have hc : ((0 : Nat) : Int) < t.maxDevices := by rw [htN]; decide
    obtain ⟨t2, txs, hrun, hwf2, -, -, hbits, -⟩ :=
      anodeWrites 0 (fun r => d r % 256) (fun r => d r % 256)
        (fun r => Nat.mod_lt _ (by norm_num)) p t ht hc htca hrows
    refine ⟨t2, ?_, hwf2, fun cS r hcS hr => ?_⟩
    · have := setRow_fold 0 d p hrows t ht hc
      simp only [Nat.cast_zero] at this
      rw [this]
      exact hrun
    · rw [hbits cS r hcS hr, if_pos ((hp r).2 hr)]
      simp only [Nat.mod_eq_of_lt (hd r)]
  obtain ⟨s2, hrun2, hwf2, hb2⟩ := key s h hN hca
  obtain ⟨s3, hrun3, hwf3, hb3⟩ := key s0 h0 hN0 hca0
  refine ⟨s2, hrun2, fun cS op hcS h1 h8 => ?_, fun op h1 h8 => ?_, s3, hrun3, ?_⟩
  · have := hb2 cS (op - 1) hcS (by omega)
    have e : op - 1 + 1 = op := by omega
    rw [e] at this
    exact this
  · have := hb2 7 (op - 1) (by omega) (by omega)
    have e : op - 1 + 1 = op := by omega
    rw [e] at this
    exact this
  · apply List.ext_getElem
    · rw [hwf3.2.2.2.2.1, hwf2.2.2.2.2.1]
    · intro cS h1 h2
      have hcS : cS < 8 := by rw [hwf3.2.2.2.2.1] at h1; exact h1
      have e3 : s3.commonAnodeData[cS] = s3.commonAnodeData.getD cS 0 := by
        simp [List.getD_eq_getElem?_getD, List.getElem?_eq_getElem h1]
      have e2 : s2.commonAnodeData[cS] = s2.commonAnodeData.getD cS 0 := by
        simp [List.getD_eq_getElem?_getD, List.getElem?_eq_getElem h2]
      rw [e3, e2]
      apply byte_ext _ _ (hwf3.2.2.2.2.getD_lt _) (hwf2.2.2.2.2.getD_lt _)
      intro j hj
      obtain ⟨r, hr, hw⟩ := writeIndex_surj j hj
      rw [← hw, hb3 cS r hcS hr, hb2 cS r hcS hr]

/-- C15, from the one-chip common-anode chain with all accumulator bits set and
from the same chain with cleared accumulators: row `r` receives `2 ^ r`, rows in
the order 3, 0, 7, 1, 6, 2, 5, 4. -/
theorem commonAnode_accumulates_witness :
    WF anodeChain ∧ anodeChain.maxDevices = 1 ∧ anodeChain.commonAnode = true ∧
    (∀ r, r ∈ [3, 0, 7, 1, 6, 2, 5, 4] ↔ r < 8) ∧
    ∃ s2, [3, 0, 7, 1, 6, 2, 5, 4].foldlM
        (fun t (r : Nat) => setRow t 0 (r : Int) (2 ^ r % 256)) anodeChain = some s2 ∧
      (∀ cS op, cS < 8 → 1 ≤ op → op ≤ 8 →
        (s2.commonAnodeData.getD cS 0).testBit (if op = 8 then 7 else 7 - op) =
          (2 ^ (op - 1) % 256).testBit (if cS = 7 then 7 else 6 - cS)) ∧
      (∀ op, 1 ≤ op → op ≤ 8 →
        (s2.commonAnodeData.getD 7 0).testBit (if op = 8 then 7 else 7 - op) =
          (2 ^ (op - 1) % 256).testBit 7) ∧
      ∃ s3, [3, 0, 7, 1, 6, 2, 5, 4].foldlM
          (fun t (r : Nat) => setRow t 0 (r : Int) (2 ^ r % 256))
          { anodeChain with commonAnodeData := List.replicate 8 0 } = some s3 ∧
        s3.commonAnodeData = s2.commonAnodeData :=
  ⟨by decide, by decide, by decide, by intro r; simp; omega,
    commonAnode_accumulates anodeChain { anodeChain with commonAnodeData := List.replicate 8 0 }
      (fun r => 2 ^ r % 256) [3, 0, 7, 1, 6, 2, 5, 4] (by decide) (by decide) (by decide)
      (by decide) (by decide) (by decide) (fun r => Nat.mod_lt _ (by norm_num))
      (by intro r; simp; omega)⟩

/-- C20. In common-anode mode, for a valid chip `c` and whatever the accumulators
and the mirror hold, `clearDisplay(c)` issues exactly 64 bus transactions to chip
`c`, leaves all 8 accumulator bytes equal to 0, and its last eight transactions
are `(cS + 1, 0)` for `cS = 0..7`; so the last value written to each of the digit
registers `1..8` of chip `c` is 0. -/
theorem clearDisplay_sixty_four_writes (s : LedControl) (N c : Nat) (h : WF s)
    (hN : s.maxDevices = (N : Int)) (hc : c < N) (hca : s.commonAnode = true) :
    ∃ s2 txs, clearDisplay s (c : Int) = some s2 ∧
      s2.bus = s.bus ++ framesTo N c txs ∧
      txs.length = 64 ∧
      s2.commonAnodeData = List.replicate 8 0 ∧
      txs.drop 56 = [(1, 0), (2, 0), (3, 0), (4, 0), (5, 0), (6, 0), (7, 0), (8, 0)] ∧
      (∀ reg, 1 ≤ reg → reg ≤ 8 → lastData reg txs = some 0) := by
  have hc2 : (c : Int) < s.maxDevices := by rw [hN]; exact_mod_cast hc
  have hNn : s.maxDevices.toNat = N := by rw [hN]; simp
  obtain ⟨s2, front, hrun, -, -, -, hcad, hbus, hlen, -⟩ := clearDisplay_anode s c h hc2 hca
  refine ⟨s2, front ++ blankWrites, hrun, by rw [hbus, hNn], ?_, hcad, ?_,
    fun reg h1 h8 => lastData_append_blank front reg h1 h8⟩
  · simp [hlen, blankWrites]
  · rw [List.drop_left' hlen]
    decide

/-- C20, at the one-chip common-anode chain with all accumulator bits set. -/
theorem clearDisplay_sixty_four_writes_witness :
    WF anodeChain ∧ anodeChain.maxDevices = ((1 : Nat) : Int) ∧ 0 < 1 ∧
    anodeChain.commonAnode = true ∧
    ∃ s2 txs, clearDisplay anodeChain ((0 : Nat) : Int) = some s2 ∧
      s2.bus = anodeChain.bus ++ framesTo 1 0 txs ∧
      txs.length = 64 ∧
      s2.commonAnodeData = List.replicate 8 0 ∧
      txs.drop 56 = [(1, 0), (2, 0), (3, 0), (4, 0), (5, 0), (6, 0), (7, 0), (8, 0)] ∧
      (∀ reg, 1 ≤ reg → reg ≤ 8 → lastData reg txs = some 0) :=
  ⟨by decide, by decide, by decide, by decide,
    clearDisplay_sixty_four_writes anodeChain 1 0 (by decide) (by decide) (by decide) (by decide)⟩

/-- C13. For every integer `numDevices`, the chain constructed with it reports
`getDeviceCount() = numDevices` when `1 ≤ numDevices ≤ 8` and 8 otherwise (zero,
negative, or above 8), and no later sequence of public operations changes the
chip count. -/
theorem deviceCount_clamped (charTable : List Nat) (pre : LedControl) (numDevices : Int)
    (ops : List Op) (hT : IsByteArray 128 charTable) (hpre : Allocated pre) :
    ∃ s, construct pre numDevices = some s ∧
      getDeviceCount s = (if 1 ≤ numDevices ∧ numDevices ≤ 8 then numDevices else 8) ∧
      ∃ s2, run charTable s ops = some s2 ∧ getDeviceCount s2 = getDeviceCount s := by
  obtain ⟨s, hrun, hwf, hN, -⟩ := construct_spec pre numDevices hpre
  obtain ⟨s2, hrun2, -, hN2⟩ := run_wf charTable hT ops s hwf
  refine ⟨s, hrun, ?_, s2, hrun2, hN2⟩
  unfold getDeviceCount
  rw [hN]
  by_cases h : 1 ≤ numDevices ∧ numDevices ≤ 8
  · rw [if_pos h, if_neg (by omega)]
  · rw [if_neg h, if_pos (by omega)]

set_option maxRecDepth 100000 in
/-- C13, with `numDevices = 12`, cleared memory and the sample calls. -/
theorem deviceCount_clamped_witness :
    IsByteArray 128 sampleTable ∧ Allocated blank ∧
    ∃ s, construct blank 12 = some s ∧
      getDeviceCount s = (if 1 ≤ (12 : Int) ∧ (12 : Int) ≤ 8 then 12 else 8) ∧
      ∃ s2, run sampleTable s sampleCalls = some s2 ∧ getDeviceCount s2 = getDeviceCount s :=
  ⟨by decide, by decide,
    deviceCount_clamped sampleTable blank 12 sampleCalls (by decide) (by decide)⟩

/-- C14. For every `numDevices`, immediately after construction all 64 row-mirror
bytes are 0, the wiring mode is common-cathode and all 8 accumulator bytes are 0;
and for every chip `i` in `0..N-1` (`N` the clamped count) the construction bus
trace contains a write (DECODEMODE = 9, operand 0) to chip `i`, and the last
write that reaches chip `i` is (SHUTDOWN = 12, operand 0). -/
theorem construct_initial_state (pre : LedControl) (numDevices : Int) (hpre : Allocated pre)
    (hbus : pre.bus = []) :
    ∃ s, construct pre numDevices = some s ∧
      s.maxDevices = (if 1 ≤ numDevices ∧ numDevices ≤ 8 then numDevices else 8) ∧
      s.status = List.replicate 64 0 ∧ s.commonAnode = false ∧
      s.commonAnodeData = List.replicate 8 0 ∧
      ∀ i : Nat, (i : Int) < s.maxDevices →
        (9, 0) ∈ chipWrites i s.bus ∧ (chipWrites i s.bus).getLast? = some (12, 0) := by
  obtain ⟨s, hrun, -, hN, hst, hca, hcad, htr⟩ := construct_spec pre numDevices hpre
  obtain ⟨-, hlogs⟩ := htr (by rw [hbus]; exact idle_nil)
  refine ⟨s, hrun, ?_, hst, hca, hcad, fun i hi => ?_⟩
  · rw [hN]
    by_cases h : 1 ≤ numDevices ∧ numDevices ≤ 8
    · rw [if_pos h, if_neg (by omega)]
    · rw [if_neg h, if_pos (by omega)]
  · obtain ⟨log, hw, front, hlog, -⟩ := hlogs i hi
    have he : chipWrites i pre.bus = [] := by rw [hbus]; rfl
    rw [hw, he, List.nil_append, hlog]
    constructor
    · simp
    · exact List.getLast?_concat _

/-- C14, with `numDevices = 3` and cleared memory. -/
theorem construct_initial_state_witness :
    Allocated blank ∧ blank.bus = [] ∧
    ∃ s, construct blank 3 = some s ∧
      s.maxDevices = (if 1 ≤ (3 : Int) ∧ (3 : Int) ≤ 8 then 3 else 8) ∧
      s.status = List.replicate 64 0 ∧ s.commonAnode = false ∧
      s.commonAnodeData = List.replicate 8 0 ∧
      ∀ i : Nat, (i : Int) < s.maxDevices →
        (9, 0) ∈ chipWrites i s.bus ∧ (chipWrites i s.bus).getLast? = some (12, 0) :=
  ⟨by decide, rfl, construct_initial_state blank 3 (by decide) rfl⟩

/-- C16. Invariant of a chain that stays in common-cathode mode: after construction
followed by any finite sequence of public operations, with valid or invalid
arguments, for every chip `c` in `0..N-1` and row `r` in `0..7` the data byte of
the most recent bus transaction to chip `c` at register `r + 1` is the mirror byte
`(c, r)`, or `flipByte` of that mirror byte when that most recent transaction was
issued by `setDigit` or `setChar` with `reverse` set. -/
theorem mirror_matches_last_write (charTable : List Nat) (pre : LedControl) (numDevices : Int)
    (ops : List Op) (hT : IsByteArray 128 charTable) (hpre : Allocated pre)
    (hbus : pre.bus = []) (hcath : ∀ op ∈ ops, op ≠ Op.setCommonAnode true) :
    ∃ s0 s, construct pre numDevices = some s0 ∧ run charTable s0 ops = some s ∧
      s.commonAnode = false ∧
      ∀ c r : Nat, (c : Int) < s.maxDevices → r < 8 →
        lastWrite c (r + 1) s.bus =
          some (if reversedAfter s.maxDevices ops c r then flipByte (mirrorByte s c r)
            else mirrorByte s c r) := by
  obtain ⟨s0, hrun0, hs0⟩ := construct_synced pre numDevices hpre (by rw [hbus]; exact idle_nil)
  obtain ⟨s, hrun, hN, hs⟩ := run_synced charTable hT ops s0 _ hs0 hcath
  refine ⟨s0, s, hrun0, hrun, hs.2.1, fun c r hc hr => ?_⟩
  unfold reversedAfter
  rw [hN]
  exact hs.2.2.2 c r hc hr

set_option maxRecDepth 100000 in
/-- C16, with two chips, cleared memory and the sample calls. -/
theorem mirror_matches_last_write_witness :
    IsByteArray 128 sampleTable ∧ Allocated blank ∧ blank.bus = [] ∧
    (∀ op ∈ sampleCalls, op ≠ Op.setCommonAnode true) ∧
    ∃ s0 s, construct blank 2 = some s0 ∧ run sampleTable s0 sampleCalls = some s ∧
      s.commonAnode = false ∧
      ∀ c r : Nat, (c : Int) < s.maxDevices → r < 8 →
        lastWrite c (r + 1) s.bus =
          some (if reversedAfter s.maxDevices sampleCalls c r then flipByte (mirrorByte s c r)
            else mirrorByte s c r) :=
  ⟨by decide, by decide, rfl, by decide,
    mirror_matches_last_write sampleTable blank 2 sampleCalls (by decide) (by decide) rfl
      (by decide)⟩

/-- C19. Index safety: for every `numDevices` and every finite sequence of public
operations with arbitrary integer arguments after construction, no index leaves
its array and no bit position leaves its byte.  Every access to the 64-byte
mirror, the transmit buffer, the 8 accumulators and the glyph table is checked
against the length of the list that holds it, as is every bit position of the
remap, and a failed check makes the run return `none`.  The construction and the
calls return on the object with its declared sizes (`s0`, `s`), so every mirror
index lies in `0..63` and every accumulator index in `0..7`.  They also return on
the object whose transmit buffer is cut to its first `2 * N` bytes (`t0`, `t`),
`N` the clamped chip count: before every call that buffer still has exactly
`2 * N ≤ 16` bytes and the bus driver fails on it for every chip address outside
`0..N-1`, so every transmit-buffer index used (the two loops, `addr * 2` and
`addr * 2 + 1`) lies in `0..2N-1`.  Both runs are the same computation: the
states with declared sizes are those of the cut run with the untouched bytes
`2N..15` put back. -/
theorem index_safety (charTable : List Nat) (pre : LedControl) (numDevices : Int)
    (ops : List Op) (hT : IsByteArray 128 charTable) (hpre : Allocated pre) :
    ∃ s0 s t0 t, construct pre numDevices = some s0 ∧ run charTable s0 ops = some s ∧
      s.status.length = 64 ∧ s.spidata.length = 16 ∧ s.commonAnodeData.length = 8 ∧
      construct (cutBuffer pre (bytesInUse numDevices)) numDevices = some t0 ∧
      run charTable t0 ops = some t ∧
      s0 = padBuffer t0 (pre.spidata.drop (bytesInUse numDevices)) ∧
      s = padBuffer t (pre.spidata.drop (bytesInUse numDevices)) ∧
      2 * getDeviceCount t0 ≤ 16 ∧
      ∀ k : Nat, ∃ tk, run charTable t0 (ops.take k) = some tk ∧
        getDeviceCount tk = getDeviceCount t0 ∧
        (tk.spidata.length : Int) = 2 * getDeviceCount t0 ∧
        ∀ (addr : Int) (opcode data : Nat), addr < 0 ∨ getDeviceCount t0 ≤ addr →
          spiTransfer tk addr opcode data = none := by
  obtain ⟨N, hN1, hN8, hbytes, hclamp⟩ := bytesInUse_eq numDevices
  obtain ⟨hst, hsd, hcad⟩ := hpre
  rw [hbytes]
  have hlen : (cutBuffer pre (2 * N)).spidata.length = 2 * N := by
    show (pre.spidata.take (2 * N)).length = 2 * N
    rw [List.length_take, hsd.1]
    omega
  have hpad : padBuffer (cutBuffer pre (2 * N)) (pre.spidata.drop (2 * N)) = pre := by
    show ({ pre with spidata := pre.spidata.take (2 * N) ++ pre.spidata.drop (2 * N) } :
      LedControl) = pre
    rw [List.take_append_drop]
  obtain ⟨t0, hrun0, hs0⟩ := construct_sized (cutBuffer pre (2 * N)) numDevices N (2 * N)
    hclamp hst.1 hcad.1 hlen (le_refl _)
  obtain ⟨t, hrun, hs⟩ := run_sized charTable hT.1 N (2 * N) hN8 (le_refl _) ops t0 hs0
  have hrun0p := construct_pad (pre.spidata.drop (2 * N)) _ _ _ hrun0
  rw [hpad] at hrun0p
  have hrunp := run_pad charTable (pre.spidata.drop (2 * N)) ops _ _ hrun
  have hN0 : getDeviceCount t0 = (N : Int) := hs0.1
  refine ⟨_, _, t0, t, hrun0p, hrunp, hs.2.1, ?_, hs.2.2.1, hrun0, hrun, rfl, rfl, ?_,
    fun k => ?_⟩
  · show (t.spidata ++ pre.spidata.drop (2 * N)).length = 16
    rw [List.length_append, hs.2.2.2, List.length_drop, hsd.1]
    omega
  · rw [hN0]; omega
  · obtain ⟨tk, hrunk, hsk⟩ :=
      run_sized charTable hT.1 N (2 * N) hN8 (le_refl _) (ops.take k) t0 hs0
    refine ⟨tk, hrunk, hsk.1.trans hN0.symm, ?_, fun addr opcode data ha => ?_⟩
    · rw [hsk.2.2.2, hN0]; push_cast; rfl
    · rw [hN0] at ha
      exact spiTransfer_outside N tk addr opcode data hsk.1 hsk.2.2.2 ha

set_option maxRecDepth 100000 in
/-- C19, with `numDevices = -1`, cleared memory and the sample calls followed by
a switch to common-anode mode and a column write. -/
theorem index_safety_witness :
    IsByteArray 128 sampleTable ∧ Allocated blank ∧
    ∃ s0 s t0 t, construct blank (-1) = some s0 ∧
      run sampleTable s0 (sampleCalls ++ [Op.setCommonAnode true, Op.setColumn 7 0 129])
        = some s ∧
      s.status.length = 64 ∧ s.spidata.length = 16 ∧ s.commonAnodeData.length = 8 ∧
      construct (cutBuffer blank (bytesInUse (-1))) (-1) = some t0 ∧
      run sampleTable t0 (sampleCalls ++ [Op.setCommonAnode true, Op.setColumn 7 0 129])
        = some t ∧
      s0 = padBuffer t0 (blank.spidata.drop (bytesInUse (-1))) ∧
      s = padBuffer t (blank.spidata.drop (bytesInUse (-1))) ∧
      2 * getDeviceCount t0 ≤ 16 ∧
      ∀ k : Nat, ∃ tk,
        run sampleTable t0
          ((sampleCalls ++ [Op.setCommonAnode true, Op.setColumn 7 0 129]).take k) = some tk ∧
        getDeviceCount tk = getDeviceCount t0 ∧
        (tk.spidata.length : Int) = 2 * getDeviceCount t0 ∧
        ∀ (addr : Int) (opcode data : Nat), addr < 0 ∨ getDeviceCount t0 ≤ addr →
          spiTransfer tk addr opcode data = none :=
  ⟨by decide, by decide,
    index_safety sampleTable blank (-1)
      (sampleCalls ++ [Op.setCommonAnode true, Op.setColumn 7 0 129]) (by decide) (by decide)⟩

end LedControl
